import Mathlib

/-!
# Pelican registry and broker: namespace hierarchy checks, namespace store, broker tokens

A shallow embedding of `registry/registry_db.go`, `broker/token_utils.go` and
the scope template of `generate/scope_generator.go`.

* The relational store is a pair of in-memory tables (`namespace`, `topology`).
  Every query succeeds: storage faults are outside the model, so the `err`
  results that only forward a driver error are always `none`. The one
  statement whose text depends on its input, that of `getNamespacesByFilter`,
  is answered by a parameter when the input breaks the text.
* The raw SQL of `namespaceSupSubChecks` is embedded operator by operator:
  `||` is string concatenation and `LIKE` is the SQL pattern match (`%` any
  run of characters, `_` any one character, ASCII letters compared without
  regard to case, no ESCAPE clause).
* `time.Now()` is a clock reading handed to each operation.
* The issuer of a namespace is written by Go library calls. `BrokerEnv` takes
  them as one function; `goRegistryJoinPath` is that function on a model of
  `url.JoinPath`, `path.Clean` and `URL.String`, with `url.Parse` a parameter.
* A `jwk.Cache` carries its state: the URLs registered, which of them have
  had their first fetch, and the key sets stored. `getRegistryIssuerInfo` is
  embedded twice: as one call on the map `namespaceKeys`, and as four
  sections that goroutines run in turn on a shared map of pointers.
* A `float64` is held as the rational number it is; `int(v)` truncates within
  the range of the 64-bit `int`.
-/

namespace Pelican

/-! ## SQL `LIKE` -/

/-- ASCII lower-casing of one character, as `LIKE` applies it to both sides
(characters outside `A`..`Z` are left alone). -/
def sqlLower (c : Char) : Char :=
  if 65 ≤ c.toNat ∧ c.toNat ≤ 90 then Char.ofNat (c.toNat + 32) else c

/-- Tries `f` on the string and on each of its suffixes: how `%` consumes any
run of characters. -/
def likeAnySuffix (f : List Char → Bool) : List Char → Bool
  | [] => f []
  | c :: s => f (c :: s) || likeAnySuffix f s

/-- The SQL operator `str LIKE pat` on character sequences. -/
def likeChars : List Char → List Char → Bool
  | [], s => s.isEmpty
  | p :: pat, s =>
    if p = '%' then likeAnySuffix (likeChars pat) s
    else
      match s with
      | [] => false
      | c :: s' => (p = '_' || sqlLower p = sqlLower c) && likeChars pat s'

/-- `str LIKE pat` on strings. -/
def sqlLike (str pat : String) : Bool :=
  likeChars pat.data str.data

/-! ## Data model (`registry_db.go`, lines 46-110) -/

/-- A `time.Time` in seconds after the zero `time.Time{}`, which is `0`. -/
abbrev Time := Nat

/-- The Go type `RegistrationStatus`, a string. -/
abbrev RegistrationStatus := String

def Pending : RegistrationStatus := "Pending"
def Approved : RegistrationStatus := "Approved"
def Denied : RegistrationStatus := "Denied"
def Unknown : RegistrationStatus := "Unknown"

/-- The Go struct `AdminMetadata`. -/
structure AdminMetadata where
  UserID : String
  Description : String
  SiteName : String
  Institution : String
  SecurityContactUserID : String
  Status : RegistrationStatus
  ApproverID : String
  ApprovedAt : Time
  CreatedAt : Time
  UpdatedAt : Time
deriving DecidableEq, Repr

/-- A value of the `map[string]interface{}` of custom fields. `float` is a
JSON number as the decoder yields it (a `float64`, held as the rational
it denotes); `int` is a Go `int`. -/
inductive CFValue where
  | str (s : String)
  | bool (b : Bool)
  | int (n : Int)
  | float (q : ℚ)
deriving DecidableEq, Repr

/-- The Go struct `Namespace`; `CustomFields = none` is the nil map. -/
structure Namespace where
  ID : Int
  Prefix : String
  Pubkey : String
  Identity : String
  AdminMetadata : AdminMetadata
  CustomFields : Option (List (String × CFValue))
deriving DecidableEq, Repr

/-- The Go struct `Topology`, a row of the `topology` table. -/
structure Topology where
  ID : Int
  Prefix : String
deriving DecidableEq, Repr

/-- The database behind the package-level handle `db`: the rows of the
`namespace` and `topology` tables, in the order a query without `ORDER BY`
returns them. -/
structure DB where
  namespaceTable : List Namespace
  topologyTable : List Topology
deriving DecidableEq, Repr

/-- The primary key of `namespace` is unique. -/
def DB.uniqueIds (db : DB) : Prop :=
  (db.namespaceTable.map Namespace.ID).Nodup

instance (db : DB) : Decidable db.uniqueIds := by
  unfold DB.uniqueIds; infer_instance

/-! ## `namespaceSupSubChecks` (lines 193-235) -/

/-- The four results of `namespaceSupSubChecks`. -/
structure SupSubResult where
  superspaces : List String
  subspaces : List String
  inTopo : Bool
  err : Option String
deriving DecidableEq, Repr

/-- The query `topoSuperSubQuery`: the `UNION` of the topology prefixes that
the candidate lies under and of those lying under the candidate. -/
def topoSuperSubQuery (db : DB) (pfx : String) : List String :=
  (((db.topologyTable.filter
        (fun t => sqlLike (pfx ++ "/") (t.Prefix ++ "/%"))).map Topology.Prefix) ++
    ((db.topologyTable.filter
        (fun t => sqlLike (t.Prefix ++ "/") (pfx ++ "/%"))).map Topology.Prefix)).dedup

/-- The query `superspaceQuery`. -/
def superspaceQuery (db : DB) (pfx : String) : List String :=
  (db.namespaceTable.filter
    (fun n => sqlLike (pfx ++ "/") (n.Prefix ++ "/%"))).map Namespace.Prefix

/-- The query `subspaceQuery`. -/
def subspaceQuery (db : DB) (pfx : String) : List String :=
  (db.namespaceTable.filter
    (fun n => sqlLike (n.Prefix ++ "/") (pfx ++ "/%"))).map Namespace.Prefix

/-- `namespaceSupSubChecks`; `preferredPrefix` is `config.GetPreferredPrefix()`. -/
def namespaceSupSubChecks (preferredPrefix : String) (db : DB) (pfx : String) :
    SupSubResult :=
  if preferredPrefix = "OSDF" ∧ 0 < (topoSuperSubQuery db pfx).length then
    { superspaces := [], subspaces := [], inTopo := true, err := none }
  else
    { superspaces := superspaceQuery db pfx
      subspaces := subspaceQuery db pfx
      inTopo := false
      err := none }

/-- A `namespace` row that carries only an id and a prefix, every other field
at its Go zero value. -/
def bareNamespace (id : Int) (pfx : String) : Namespace :=
  { ID := id, Prefix := pfx, Pubkey := "", Identity := ""
    AdminMetadata :=
      { UserID := "", Description := "", SiteName := "", Institution := ""
        SecurityContactUserID := "", Status := "", ApproverID := ""
        ApprovedAt := 0, CreatedAt := 0, UpdatedAt := 0 }
    CustomFields := none }

/-! ## Reading and writing `namespace` rows (lines 310-333, 437-503) -/

/-- The Go conversion `int(v)` of a `float64`, held as the rational it
denotes: truncation toward zero when the result is within the range of the
64-bit `int`. Outside that range the Go specification leaves the result to
the implementation; the value here is the one of amd64, the smallest `int`. -/
def floatToInt (q : ℚ) : Int :=
  let t := Int.tdiv q.num q.den
  if -(2 ^ 63) ≤ t ∧ t < 2 ^ 63 then t else -(2 ^ 63)

/-- The number of binary digits to drop from `a` so that at most 53 remain,
counted up from `s`. -/
def roundShift : Nat → Nat → Nat → Nat
  | 0, _, s => s
  | fuel + 1, a, s => if a / 2 ^ s < 2 ^ 53 then s else roundShift fuel a (s + 1)

/-- The `float64` the JSON decoder yields for an integer literal: the integer
itself when it has at most 53 binary digits, and otherwise the nearest number
with 53 significant binary digits, the even one of two that are equally near. -/
def float64OfInt (n : Int) : Int :=
  let a := n.natAbs
  if a < 2 ^ 53 then n
  else
    let shift := roundShift a a 0
    let m := a / 2 ^ shift
    let rest := a % 2 ^ shift
    let half := 2 ^ (shift - 1)
    let m := if half < rest ∨ (rest = half ∧ m % 2 = 1) then m + 1 else m
    Int.sign n * ((m * 2 ^ shift : Nat) : Int)

/-- The loop that follows each read: every `float64` custom-field value is
replaced by `int(v)`. -/
def convertCustomFields :
    Option (List (String × CFValue)) → Option (List (String × CFValue))
  | none => none
  | some kvs =>
    some (kvs.map fun kv =>
      match kv.2 with
      | CFValue.float q => (kv.1, CFValue.int (floatToInt q))
      | _ => kv)

/-- What the `serializer:json` column holds for a map once it is read back:
a Go `int` has become a JSON number, which decodes as the nearest `float64`. -/
def storedCustomFields :
    Option (List (String × CFValue)) → Option (List (String × CFValue))
  | none => none
  | some kvs =>
    some (kvs.map fun kv =>
      match kv.2 with
      | CFValue.int n => (kv.1, CFValue.float (float64OfInt n))
      | _ => kv)

/-- `getNamespaceById`: `db.Last(&ns, id)` is
`SELECT * FROM namespace WHERE id = ? ORDER BY id DESC LIMIT 1`. -/
def getNamespaceById (db : DB) (id : Int) : Except String Namespace :=
  if id < 1 then
    Except.error "Invalid id. id must be a positive number"
  else
    match (db.namespaceTable.filter (fun r => r.ID = id)).getLast? with
    | none => Except.error "namespace not found in database"
    | some ns => Except.ok { ns with CustomFields := convertCustomFields ns.CustomFields }

/-- The id the engine gives a row inserted without one: one more than the
largest id present, `1` in an empty table. -/
def nextId : List Namespace → Int
  | [] => 1
  | r :: rs => rs.foldl (fun m x => max m x.ID) r.ID + 1

/-- The call `db.Save(ns)` of GORM: a zero primary key inserts under a fresh
id; otherwise every column of the row with that id is updated, and when no
row has it the row is inserted. -/
def gormSave (db : DB) (ns : Namespace) : DB :=
  let row := { ns with CustomFields := storedCustomFields ns.CustomFields }
  if ns.ID = 0 then
    { db with namespaceTable :=
        db.namespaceTable ++ [{ row with ID := nextId db.namespaceTable }] }
  else if db.namespaceTable.any (fun r => r.ID = ns.ID) then
    { db with namespaceTable :=
        db.namespaceTable.map (fun r => if r.ID = ns.ID then row else r) }
  else
    { db with namespaceTable := db.namespaceTable ++ [row] }

/-- `AddNamespace`; `t₁`, `t₂` are its two readings of `time.Now()`. Returns
the error and the database afterwards. -/
def AddNamespace (db : DB) (t₁ t₂ : Time) (ns : Namespace) : Option String × DB :=
  let ns := { ns with AdminMetadata := { ns.AdminMetadata with CreatedAt := t₁ } }
  let ns := { ns with AdminMetadata := { ns.AdminMetadata with UpdatedAt := t₂ } }
  let ns :=
    if ns.AdminMetadata.Status = "" then
      { ns with AdminMetadata := { ns.AdminMetadata with Status := Pending } }
    else ns
  (none, gormSave db ns)

/-- `updateNamespace`; `t` is its reading of `time.Now()`. -/
def updateNamespace (db : DB) (t : Time) (ns : Namespace) : Option String × DB :=
  match getNamespaceById db ns.ID with
  | Except.error e => (some ("Failed to get namespace: " ++ e), db)
  | Except.ok existingNs =>
    let ns := if ns.Prefix = "" then { ns with Prefix := existingNs.Prefix } else ns
    let ns := if ns.Pubkey = "" then { ns with Pubkey := existingNs.Pubkey } else ns
    let ns := { ns with Identity := existingNs.Identity }
    let existingNsAdmin := existingNs.AdminMetadata
    let ns := { ns with AdminMetadata := { ns.AdminMetadata with UserID := existingNsAdmin.UserID } }
    let ns := { ns with AdminMetadata := { ns.AdminMetadata with CreatedAt := existingNsAdmin.CreatedAt } }
    let ns := { ns with AdminMetadata := { ns.AdminMetadata with Status := existingNsAdmin.Status } }
    let ns := { ns with AdminMetadata := { ns.AdminMetadata with ApprovedAt := existingNsAdmin.ApprovedAt } }
    let ns := { ns with AdminMetadata := { ns.AdminMetadata with ApproverID := existingNsAdmin.ApproverID } }
    let ns := { ns with AdminMetadata := { ns.AdminMetadata with UpdatedAt := t } }
    (none, gormSave db ns)

/-- The statement `db.Model(ns).Where("id = ?", id).Update("admin_metadata", ...)`:
`UPDATE namespace SET admin_metadata = ? WHERE id = ?`. -/
def updateAdminMetadata (db : DB) (id : Int) (am : AdminMetadata) : DB :=
  { db with namespaceTable :=
      db.namespaceTable.map (fun r => if r.ID = id then { r with AdminMetadata := am } else r) }

/-- `updateNamespaceStatusById`; `t₁`, `t₂` are its readings of `time.Now()`
(for `UpdatedAt` and for `ApprovedAt`). -/
def updateNamespaceStatusById (db : DB) (t₁ t₂ : Time) (id : Int)
    (status : RegistrationStatus) (approverId : String) : Option String × DB :=
  match getNamespaceById db id with
  | Except.error e => (some ("Error getting namespace by id: " ++ e), db)
  | Except.ok ns =>
    let ns := { ns with AdminMetadata := { ns.AdminMetadata with Status := status } }
    let ns := { ns with AdminMetadata := { ns.AdminMetadata with UpdatedAt := t₁ } }
    if status = Approved then
      if approverId = "" then
        (some "approverId can't be empty to approve", db)
      else
        let ns := { ns with AdminMetadata := { ns.AdminMetadata with ApproverID := approverId } }
        let ns := { ns with AdminMetadata := { ns.AdminMetadata with ApprovedAt := t₂ } }
        (none, updateAdminMetadata db id ns.AdminMetadata)
    else
      (none, updateAdminMetadata db id ns.AdminMetadata)

/-- The stored row with a given id (the primary-key lookup). -/
def DB.row? (db : DB) (id : Int) : Option Namespace :=
  db.namespaceTable.find? (fun r => r.ID = id)

/-! ## Broker tokens (`broker/token_utils.go`) -/

/-- A signed JWT, symbolically: its claims and the key that signed it. The
compact serialisation is not modelled; a token string is the token it encodes. -/
structure Token where
  iss : String
  aud : List String
  sub : String
  scope : String
  ver : String
  iat : Time
  exp : Time
  signedWith : Nat
deriving DecidableEq, Repr

/-- A `*jwk.Cache`: the JWKS URLs registered with it, those of them whose
first fetch has been made (the entry's `lastFetch` is set), and the key sets
the fetches have stored. A new cache has made no fetch. -/
structure JwkCache where
  registered : List String
  fetched : List String := []
  sets : List (String × List Nat) := []
deriving DecidableEq, Repr

/-- An item of a `ttlcache` map with values of type `V`. -/
structure CacheItem (V : Type) where
  value : V
  expiresAt : Time
deriving DecidableEq, Repr

/-- The map `namespaceKeys`, keyed by namespace prefix. Within one call the
pointer `*jwk.Cache` is followed at once: the item holds the cache itself. -/
abbrev NamespaceKeys := List (String × CacheItem JwkCache)

/-- The time to live of `namespaceKeys`, `15 * time.Minute`, in seconds. -/
def namespaceKeysTTL : Time := 15 * 60

/-- The settings and remote parties the broker code reads. -/
structure BrokerEnv where
  /-- The setting `param.Federation_RegistryUrl`. -/
  Federation_RegistryUrl : String
  /-- The setting `param.Server_ExternalWebUrl`. -/
  Server_ExternalWebUrl : String
  /-- The standard library steps `url.Parse` of the registry URL,
  `url.JoinPath` of its path with "api", "v1.0", "registry" and the prefix,
  and `String()`; `none` when a step fails. -/
  registryJoinPath : String → String → Option String
  /-- The private key `CreateToken` signs with. -/
  issuerKey : Nat
  /-- Whether `jwk.Cache.Register` fails for a URL. -/
  registerFails : String → Bool
  /-- The public keys served at a JWKS URL, `none` when the fetch fails. -/
  fetchKeySet : String → Option (List Nat)
  /-- The match rule of the scope validator: required scope, then the
  token's scope claim. -/
  scopeSatisfies : String → String → Bool

/-- `getRegistryIssValue`. -/
def getRegistryIssValue (env : BrokerEnv) (pfx : String) : Except String String :=
  if env.Federation_RegistryUrl = "" then
    Except.error "namespace URL is not set"
  else
    match env.registryJoinPath env.Federation_RegistryUrl pfx with
    | none => Except.error "invalid registry URL"
    | some iss => Except.ok iss

/-- `namespaceKeys.Get(prefix)` followed by the `IsExpired` test: an item
that is present and not expired is returned and its expiry renewed. -/
def namespaceKeysGet {V : Type} (now : Time) (keys : List (String × CacheItem V))
    (pfx : String) : Option V × List (String × CacheItem V) :=
  match keys.lookup pfx with
  | none => (none, keys)
  | some item =>
    if item.expiresAt < now then (none, keys)
    else
      (some item.value,
        keys.map (fun kv =>
          if kv.1 = pfx then (kv.1, { kv.2 with expiresAt := now + namespaceKeysTTL }) else kv))

/-- `namespaceKeys.Set(prefix, ar, ttlcache.DefaultTTL)`. -/
def namespaceKeysSet {V : Type} (now : Time) (keys : List (String × CacheItem V))
    (pfx : String) (ar : V) : List (String × CacheItem V) :=
  (pfx, { value := ar, expiresAt := now + namespaceKeysTTL }) ::
    keys.filter (fun kv => kv.1 ≠ pfx)

/-- `ar.Get(ctx, jwksUrl)` of `jwk.Cache`, which answers from `httprc`: the
result and the cache afterwards. The URL must be registered. Only the first
`Get` for a URL fetches: it marks the entry as fetched before the request is
sent and stores the key set when the request succeeds. A later `Get` returns
what the entry holds, and when that is no key set (the first fetch failed) it
fails without a request. The refresh the library runs in the background, no
sooner than the 15 minutes given to `Register`, is not part of a call. -/
def jwkCacheGet (env : BrokerEnv) (ar : JwkCache) (jwksUrl : String) :
    Except String (List Nat) × JwkCache :=
  if ar.registered.contains jwksUrl then
    if ar.fetched.contains jwksUrl then
      match ar.sets.lookup jwksUrl with
      | none => (Except.error "cached object is not a Set (was <nil>)", ar)
      | some keyset => (Except.ok keyset, ar)
    else
      match env.fetchKeySet jwksUrl with
      | none =>
        (Except.error "failed to fetch key set", { ar with fetched := jwksUrl :: ar.fetched })
      | some keyset =>
        (Except.ok keyset,
          { ar with fetched := jwksUrl :: ar.fetched, sets := (jwksUrl, keyset) :: ar.sets })
  else (Except.error "url is not registered", ar)

/-- The map holds the pointer `ar`, not a copy of the cache: after `ar.Get`
the item of the prefix points to the cache as the call left it. -/
def namespaceKeysPointee (keys : NamespaceKeys) (pfx : String) (ar : JwkCache) :
    NamespaceKeys :=
  keys.map (fun kv => if kv.1 = pfx then (kv.1, { kv.2 with value := ar }) else kv)

/-- `getRegistryIssuerInfo`: the issuer and key set (or the error) and the
map `namespaceKeys` afterwards. -/
def getRegistryIssuerInfo (env : BrokerEnv) (now : Time) (keys : NamespaceKeys)
    (pfx : String) : Except String (String × List Nat) × NamespaceKeys :=
  match getRegistryIssValue env pfx with
  | Except.error e => (Except.error e, keys)
  | Except.ok iss =>
    let jwksUrl := iss ++ "/.well-known/issuer.jwks"
    match namespaceKeysGet now keys pfx with
    | (some ar, keys₁) =>
      let got := jwkCacheGet env ar jwksUrl
      (got.1.map (fun keyset => (iss, keyset)), namespaceKeysPointee keys₁ pfx got.2)
    | (none, keys₁) =>
      if env.registerFails jwksUrl then
        (Except.error "failed to register url", keys₁)
      else
        let ar : JwkCache := { registered := [jwksUrl] }
        let keys₂ := namespaceKeysSet now keys₁ pfx ar
        let got := jwkCacheGet env ar jwksUrl
        (got.1.map (fun keyset => (iss, keyset)), namespaceKeysPointee keys₂ pfx got.2)

/-! ## Goroutines inside `getRegistryIssuerInfo` (lines 66-98)

Several goroutines call `getRegistryIssuerInfo`. They share the map
`namespaceKeys`, which holds pointers, and the caches the pointers lead to.
A call runs in four sections, each of which runs as a whole with respect to
the others: the issuer and the probe under the read lock (lines 67-84),
`jwk.NewCache` with `Register` (lines 86-90), `Set` under the write lock
(lines 91-93), and `ar.Get` (line 96), which the library runs for one
goroutine at a time on a cache. -/

/-- What the goroutines share: `namespaceKeys`, whose items hold a pointer
(the index of a cache in `caches`), and the caches allocated so far. -/
structure BrokerHeap where
  namespaceKeys : List (String × CacheItem Nat)
  caches : List JwkCache
deriving DecidableEq, Repr

/-- Where a goroutine stands in `getRegistryIssuerInfo`, with the issuer it
computed and the pointer `ar` it holds. -/
inductive CallPoint where
  /-- Called, before line 67. -/
  | start
  /-- After `RUnlock` with `ar == nil`, line 85. -/
  | missed (iss : String)
  /-- After `Register`, before `Lock`, line 91. -/
  | registered (iss : String) (ar : Nat)
  /-- Before `ar.Get`, line 96. -/
  | ready (iss : String) (ar : Nat)
  /-- After the `return`. -/
  | returned (result : Except String (String × List Nat))

/-- The next section of a call of `getRegistryIssuerInfo(ctx, pfx)`, run at
time `now` by a goroutine that stands at a call point. -/
def callStep (env : BrokerEnv) (now : Time) (pfx : String) (h : BrokerHeap) :
    CallPoint → BrokerHeap × CallPoint
  | CallPoint.start =>
    match getRegistryIssValue env pfx with
    | Except.error e => (h, CallPoint.returned (Except.error e))
    | Except.ok iss =>
      match namespaceKeysGet now h.namespaceKeys pfx with
      | (some ar, keys₁) => ({ h with namespaceKeys := keys₁ }, CallPoint.ready iss ar)
      | (none, keys₁) => ({ h with namespaceKeys := keys₁ }, CallPoint.missed iss)
  | CallPoint.missed iss =>
    if env.registerFails (iss ++ "/.well-known/issuer.jwks") then
      (h, CallPoint.returned (Except.error "failed to register url"))
    else
      ({ h with caches := h.caches ++ [{ registered := [iss ++ "/.well-known/issuer.jwks"] }] },
        CallPoint.registered iss h.caches.length)
  | CallPoint.registered iss ar =>
    ({ h with namespaceKeys := namespaceKeysSet now h.namespaceKeys pfx ar },
      CallPoint.ready iss ar)
  | CallPoint.ready iss ar =>
    match h.caches.get? ar with
    | none => (h, CallPoint.returned (Except.error "nil pointer"))
    | some cache =>
      let got := jwkCacheGet env cache (iss ++ "/.well-known/issuer.jwks")
      ({ h with caches := h.caches.set ar got.2 },
        CallPoint.returned (got.1.map (fun keyset => (iss, keyset))))
  | CallPoint.returned result => (h, CallPoint.returned result)

/-- Goroutines, each with the prefix it calls `getRegistryIssuerInfo` for and
the point it stands at, and what they share. -/
structure Calls where
  heap : BrokerHeap
  callers : List (String × CallPoint)

/-- The goroutine number `i` runs its next section. -/
def Calls.step (env : BrokerEnv) (now : Time) (s : Calls) (i : Nat) : Calls :=
  match s.callers.get? i with
  | none => s
  | some (pfx, point) =>
    let next := callStep env now pfx s.heap point
    { heap := next.1, callers := s.callers.set i (pfx, next.2) }

/-- The goroutines run their sections in the order of a schedule. -/
def Calls.run (env : BrokerEnv) (now : Time) (s : Calls) (schedule : List Nat) : Calls :=
  schedule.foldl (Calls.step env now) s

/-- The number of `Register` calls that were made: URLs registered with the
caches. -/
def BrokerHeap.registrations (h : BrokerHeap) : Nat :=
  (h.caches.map (fun cache => cache.registered.length)).sum

/-- The number of requests sent to the network: fetches the caches made. -/
def BrokerHeap.fetches (h : BrokerHeap) : Nat :=
  (h.caches.map (fun cache => cache.fetched.length)).sum

/-- The map `namespaceKeys` with each pointer followed. -/
def BrokerHeap.view (h : BrokerHeap) : NamespaceKeys :=
  h.namespaceKeys.filterMap (fun kv =>
    (h.caches.get? kv.2.value).map (fun cache =>
      (kv.1, { value := cache, expiresAt := kv.2.expiresAt })))

/-- Two goroutines that have called `getRegistryIssuerInfo` for "/ns1", on an
empty map. -/
def twoCallers : Calls :=
  { heap := { namespaceKeys := [], caches := [] }
    callers := [("/ns1", CallPoint.start), ("/ns1", CallPoint.start)] }

/-- The Go struct `utils.TokenConfig`, as far as `createToken` fills it. -/
structure TokenConfig where
  Lifetime : Time
  TokenProfile : String
  Audience : List String
  Issuer : String
  Version : String
  Subject : String
  Claims : List (String × String)
deriving DecidableEq, Repr

/-- Modelled from the spec: `utils.TokenConfig.CreateToken` is not among the
sources. It "builds a signed token with a fixed short lifetime", the issuer,
audience and subject of the configuration "and a single scope claim". -/
def TokenConfig.CreateToken (cfg : TokenConfig) (key : Nat) (now : Time) :
    Except String Token :=
  Except.ok
    { iss := cfg.Issuer, aud := cfg.Audience, sub := cfg.Subject
      scope := (cfg.Claims.lookup "scope").getD "", ver := cfg.Version
      iat := now, exp := now + cfg.Lifetime, signedWith := key }

/-- `createToken`, minted at time `now`. -/
def createToken (env : BrokerEnv) (now : Time) (ns subject audience desiredScope : String) :
    Except String Token :=
  match getRegistryIssValue env ns with
  | Except.error e => Except.error e
  | Except.ok issuerUrl =>
    let tokenCfg : TokenConfig :=
      { Lifetime := 60
        TokenProfile := "wlcg"
        Audience := [audience]
        Issuer := issuerUrl
        Version := "1.0"
        Subject := subject
        Claims := [("scope", desiredScope)] }
    tokenCfg.CreateToken env.issuerKey now

/-- The time checks of the JWT library: not before `iat`, before `exp`. -/
def jwtTimeError (now : Time) (tok : Token) : Option String :=
  if tok.exp ≤ now then some "\"exp\" not satisfied"
  else if now < tok.iat then some "\"iat\" not satisfied"
  else none

/-- `jwt.Parse(token, jwt.WithKeySet(keyset), jwt.WithValidate(true))`: the
signature must verify under a key of the set and the time checks pass. -/
def jwtParse (keyset : List Nat) (now : Time) (tok : Token) : Except String Token :=
  if keyset.contains tok.signedWith then
    match jwtTimeError now tok with
    | some e => Except.error e
    | none => Except.ok tok
  else Except.error "failed to verify signature"

/-- `jwt.Validate(tok, jwt.WithAudience(a), jwt.WithValidator(v),
jwt.WithClaimValue("iss", i))`. -/
def jwtValidate (now : Time) (tok : Token) (a : String) (v : Token → Bool) (i : String) :
    Option String :=
  match jwtTimeError now tok with
  | some e => some e
  | none =>
    if tok.aud.contains a then
      if v tok then
        if tok.iss = i then none else some "\"iss\" not satisfied"
      else some "token does not contain the required scope"
    else some "\"aud\" not satisfied"

/-- Modelled from the spec: `token_scopes.CreateScopeValidator` is not among
the sources. The token must "carry the required scope", under a match rule
that "must be parameterized": the rule is `env.scopeSatisfies`. -/
def CreateScopeValidator (env : BrokerEnv) (requiredScope : String) (tok : Token) : Bool :=
  env.scopeSatisfies requiredScope tok.scope

set_option linter.unusedVariables false in
/-- `verifyToken` at time `now`: the results `ok` and `err`, and the map
`namespaceKeys` afterwards. The parameter `audience` is not read by the body. -/
def verifyToken (env : BrokerEnv) (now : Time) (keys : NamespaceKeys) (token : Token)
    (ns audience requiredScope : String) : (Bool × Option String) × NamespaceKeys :=
  match getRegistryIssuerInfo env now keys ns with
  | (Except.error e, keys₁) => ((false, some e), keys₁)
  | (Except.ok (issuerUrl, keyset), keys₁) =>
    match jwtParse keyset now token with
    | Except.error e => ((false, some e), keys₁)
    | Except.ok tok =>
      let scopeValidator := CreateScopeValidator env requiredScope
      match jwtValidate now tok env.Server_ExternalWebUrl scopeValidator issuerUrl with
      | none => ((true, none), keys₁)
      | some e => ((false, some e), keys₁)

/-- A deployment for the worked cases: the server runs at
`https://origin.example`, signs with key 7, and the registry serves key 7
for every namespace. -/
def exampleEnv : BrokerEnv :=
  { Federation_RegistryUrl := "https://registry.example"
    Server_ExternalWebUrl := "https://origin.example"
    registryJoinPath := fun base pfx => some (base ++ "/api/v1.0/registry" ++ pfx)
    issuerKey := 7
    registerFails := fun _ => false
    fetchKeySet := fun _ => some [7]
    scopeSatisfies := fun required scope => required == scope }

/-- A stored record for the worked cases: "/foo", registered by alice,
pending. -/
def storedFoo : Namespace :=
  { ID := 1, Prefix := "/foo", Pubkey := "jwks-1", Identity := "client-1"
    AdminMetadata :=
      { UserID := "alice", Description := "data", SiteName := "site", Institution := "inst"
        SecurityContactUserID := "alice", Status := "Pending", ApproverID := ""
        ApprovedAt := 0, CreatedAt := 3, UpdatedAt := 3 }
    CustomFields := none }

/-- A caller-supplied namespace for id 1 that carries other values in every
protected field. -/
def forgedFoo : Namespace :=
  { ID := 1, Prefix := "", Pubkey := "jwks-2", Identity := "client-2"
    AdminMetadata :=
      { UserID := "mallory", Description := "new", SiteName := "site", Institution := "inst"
        SecurityContactUserID := "bob", Status := "Approved", ApproverID := "mallory"
        ApprovedAt := 9, CreatedAt := 99, UpdatedAt := 99 }
    CustomFields := none }

/-- What C10 observes of a store: for each record its id, approverID and
approvedAt. -/
def approverFields (db : DB) : List (Int × String × Time) :=
  db.namespaceTable.map
    (fun r => (r.ID, r.AdminMetadata.ApproverID, r.AdminMetadata.ApprovedAt))

/-! ## `PopulateTopology` (lines 607-670) -/

/-- The keys of the Go map built by setting `m[k] = true` for each `k` of a
list. Go iterates a map in no fixed order; the model fixes one. -/
def mapKeys (l : List String) : List String := l.dedup

/-- The slices `toAdd` and `toDelete` that `PopulateTopology` computes from
the rows of the table and the paths of the external snapshot. -/
def topologyDiff (table : List Topology) (paths : List String) :
    List String × List String :=
  let nsFromTopoTable := mapKeys (table.map Topology.Prefix)
  let nsFromTopoJSON := mapKeys paths
  (nsFromTopoJSON.filter (fun p => !nsFromTopoTable.contains p),
    nsFromTopoTable.filter (fun p => !nsFromTopoJSON.contains p))

/-- The id given to an inserted `topology` row: one more than the largest id
present, `1` in an empty table. -/
def nextTopologyId : List Topology → Int
  | [] => 1
  | r :: rs => rs.foldl (fun m x => max m x.ID) r.ID + 1

/-- `tx.Where("prefix IN ?", toDelete).Delete(&Topology{})`. -/
def deleteTopologies (table : List Topology) (toDelete : List String) : List Topology :=
  table.filter (fun t => !toDelete.contains t.Prefix)

/-- `tx.Create(&toAddTopo)`: one row per prefix, in order. -/
def createTopologies (table : List Topology) (toAdd : List String) : List Topology :=
  toAdd.foldl (fun t p => t ++ [{ ID := nextTopologyId t, Prefix := p }]) table

/-- `PopulateTopology`; `topologyJSON` is what `utils.GetTopologyJSON()`
returns, reduced to the paths of its namespaces. The transaction deletes the
rows whose prefix is in `toDelete`, then inserts `toAdd`; an insert that
breaks the `unique` constraint on `prefix` rolls the transaction back. -/
def PopulateTopology (db : DB) (topologyJSON : Except String (List String)) :
    Option String × DB :=
  match topologyJSON with
  | Except.error e => (some ("Failed to get topology JSON: " ++ e), db)
  | Except.ok paths =>
    let toAdd := (topologyDiff db.topologyTable paths).1
    let toDelete := (topologyDiff db.topologyTable paths).2
    let afterDelete := deleteTopologies db.topologyTable toDelete
    if 0 < toAdd.length then
      if toAdd.Nodup ∧ ∀ p ∈ toAdd, p ∉ afterDelete.map Topology.Prefix then
        (none, { db with topologyTable := createTopologies afterDelete toAdd })
      else
        (some "UNIQUE constraint failed: topology.prefix", db)
    else
      (none, { db with topologyTable := afterDelete })

/-! ## `getNamespacesByFilter` (lines 360-435) -/

/-- The Go type `ServerType`, a string. -/
abbrev ServerType := String

def OriginType : ServerType := "origin"
def CacheType : ServerType := "cache"

/-- `strings.Contains(s, substr)`. -/
def stringsContains (s substr : String) : Bool :=
  s.data.tails.any (fun t => substr.data.isPrefixOf t)

/-- The single quote, which closes a string literal of the statement text. -/
def singleQuote : Char := Char.ofNat 39

/-- The rows the statement of `getNamespacesByFilter` selects when the
interpolated prefix holds no single quote: the `WHERE` conditions on the
prefix, `ORDER BY id ASC`, and the columns `id, prefix, pubkey, identity,
admin_metadata` (the custom fields are not selected and stay nil). -/
def filterQueryRows (db : DB) (serverType : ServerType) (pfx : String) : List Namespace :=
  ((db.namespaceTable.filter (fun r =>
      (if serverType = CacheType then sqlLike r.Prefix "/caches/%"
        else if serverType = OriginType then !sqlLike r.Prefix "/caches/%"
        else true) &&
      (if pfx = "" then true else sqlLike r.Prefix ("%" ++ pfx ++ "%")))).insertionSort
    (fun a b => a.ID ≤ b.ID)).map (fun r => { r with CustomFields := none })

/-- The call `db.Raw(query).Scan(&namespacesIn)`. The prefix is written into
the statement text by `fmt.Sprintf`; when it holds a single quote the text is
no longer the intended statement, and what the engine answers then (an error
or the rows of another statement) is `injected`. -/
def runFilterQuery (injected : String → ServerType → DB → Except String (List Namespace))
    (db : DB) (serverType : ServerType) (pfx : String) : Except String (List Namespace) :=
  if pfx.data.contains singleQuote then injected pfx serverType db
  else Except.ok (filterQueryRows db serverType pfx)

/-- The body of the loop over `namespacesIn`: `true` when no `continue` is
taken and the namespace is appended to `namespacesOut`. -/
def filterKeeps (filterNs ns : Namespace) : Bool :=
  if filterNs.AdminMetadata.UserID ≠ "" ∧
      filterNs.AdminMetadata.UserID ≠ ns.AdminMetadata.UserID then false
  else if filterNs.AdminMetadata.Description ≠ "" ∧
      ¬ stringsContains ns.AdminMetadata.Description filterNs.AdminMetadata.Description then false
  else if filterNs.AdminMetadata.SiteName ≠ "" ∧
      ¬ stringsContains ns.AdminMetadata.SiteName filterNs.AdminMetadata.SiteName then false
  else if filterNs.AdminMetadata.Institution ≠ "" ∧
      filterNs.AdminMetadata.Institution ≠ ns.AdminMetadata.Institution then false
  else if filterNs.AdminMetadata.SecurityContactUserID ≠ "" ∧
      filterNs.AdminMetadata.SecurityContactUserID ≠
        ns.AdminMetadata.SecurityContactUserID then false
  else if filterNs.AdminMetadata.Status ≠ "" ∧
      (if filterNs.AdminMetadata.Status = Unknown then
        ns.AdminMetadata.Status ≠ "" ∧ ns.AdminMetadata.Status ≠ Unknown
      else filterNs.AdminMetadata.Status ≠ ns.AdminMetadata.Status) then false
  else if filterNs.AdminMetadata.ApproverID ≠ "" ∧
      filterNs.AdminMetadata.ApproverID ≠ ns.AdminMetadata.ApproverID then false
  else true

/-- `getNamespacesByFilter`: the namespaces returned (none with an error) and
the error. -/
def getNamespacesByFilter
    (injected : String → ServerType → DB → Except String (List Namespace))
    (db : DB) (filterNs : Namespace) (serverType : ServerType) :
    List Namespace × Option String :=
  if serverType ≠ CacheType ∧ serverType ≠ OriginType ∧ serverType ≠ "" then
    ([], some ("Can't get namespace: unsupported server type: " ++ serverType))
  else if filterNs.CustomFields ≠ none then
    ([], some "Unsupported operation: Can't filter against Custrom Registration field.")
  else if filterNs.ID ≠ 0 then
    ([], some "Unsupported operation: Can't filter against ID field.")
  else if filterNs.Identity ≠ "" then
    ([], some "Unsupported operation: Can't filter against Identity field.")
  else if filterNs.Pubkey ≠ "" then
    ([], some "Unsupported operation: Can't filter against Pubkey field.")
  else if filterNs.AdminMetadata.ApprovedAt ≠ 0 ∨ filterNs.AdminMetadata.UpdatedAt ≠ 0 ∨
      filterNs.AdminMetadata.CreatedAt ≠ 0 then
    ([], some "Unsupported operation: Can't filter against date.")
  else
    match runFilterQuery injected db serverType filterNs.Prefix with
    | Except.error e => ([], some e)
    | Except.ok namespacesIn => (namespacesIn.filter (filterKeeps filterNs), none)

/-- An engine that rejects every statement text broken by a single quote. -/
def rejectInjected : String → ServerType → DB → Except String (List Namespace) :=
  fun _ _ _ => Except.error "syntax error"

/-- A filter that names nothing: every field at its zero value. -/
def emptyFilter : Namespace := bareNamespace 0 ""

/-- A store for the worked cases of filtering: "/foo" pending, "/foobar" with
an empty status, and the cache namespace "/caches/c1" approved. -/
def filterStore : DB :=
  { namespaceTable :=
      [ storedFoo,
        { bareNamespace 3 "/caches/c1" with
          AdminMetadata :=
            { (bareNamespace 3 "").AdminMetadata with
              UserID := "bob", Description := "cache one", Status := "Approved" } },
        bareNamespace 2 "/foobar" ]
    topologyTable := [] }

/-! ## Token scopes (`generate/scope_generator.go`) -/

/-- The generated Go type `TokenScope`, a string. -/
abbrev TokenScope := String

/-- The slice `storageScopes` that `GenTokenScope` collects, by raw name: the
scope names of the description (`docs/scopes.yaml`, here `names`) for which
`strings.HasPrefix(scopeName, "storage")` holds. Each becomes a constant of
the generated file whose value is the raw name. -/
def storageScopes (names : List String) : List TokenScope :=
  names.filter (fun scopeName => "storage".data.isPrefixOf scopeName.data)

/-- The method `TokenScope.Path` as the template generates it from a
description: the condition is `s == c₁ || s == c₂ || ... || false` over the
storage constants. -/
def TokenScope.Path (names : List String) (s : TokenScope) (path : String) :
    TokenScope × Option String :=
  if ¬ ((storageScopes names).foldr (fun c rest => decide (s = c) || rest) false) then
    ("", some "cannot assign path to non-storage token scope")
  else
    (s ++ ":" ++ path, none)

/-- A scope description for the worked cases. -/
def exampleScopeNames : List String :=
  ["pelican.advertise", "broker.reflect", "storage.read", "storage.create",
    "storage.modify", "storage.stage", "lot.create", "lot.read"]

/-! ## `getCacheHostnameFromToken` (lines 121-137) -/

/-- `strings.CutPrefix(s, prefix)`. -/
def stringsCutPrefix (s pfx : String) : String × Bool :=
  if pfx.data.isPrefixOf s.data then (String.mk (s.data.drop pfx.data.length), true)
  else (s, false)

/-- `getCacheHostnameFromToken` on a token that parses: the results
`hostname` and `err`. The parse checks neither signature nor validity. -/
def getCacheHostnameFromToken (env : BrokerEnv) (token : Token) : String × Option String :=
  let iss := token.iss
  match getRegistryIssValue env "/caches" with
  | Except.error e => ("", some e)
  | Except.ok expectedPrefix =>
    match stringsCutPrefix iss expectedPrefix with
    | (hostname, true) => (hostname, none)
    | (hostname, false) =>
      (hostname,
        some ("Token issuer " ++ iss ++ " doesnt start with expected registry issuer " ++
          expectedPrefix))

/-! ## Reading namespaces back (lines 335-358, 510-528) -/

/-- `getNamespaceByPrefix`: `db.Where("prefix = ? ", prefix).Last(&ns)` is
`SELECT * FROM namespace WHERE prefix = ? ORDER BY id DESC LIMIT 1`. -/
def getNamespaceByPrefix (db : DB) (pfx : String) : Except String Namespace :=
  if pfx = "" then
    Except.error "Invalid prefix. Prefix must not be empty"
  else
    match ((db.namespaceTable.filter (fun r => r.Prefix = pfx)).insertionSort
        (fun a b => a.ID ≤ b.ID)).getLast? with
    | none => Except.error "namespace not found in database"
    | some ns => Except.ok { ns with CustomFields := convertCustomFields ns.CustomFields }

/-- `getAllNamespaces`: `db.Order("id ASC").Find(&namespaces)`, then the
conversion loop over the custom fields of each. -/
def getAllNamespaces (db : DB) : List Namespace × Option String :=
  ((db.namespaceTable.insertionSort (fun a b => a.ID ≤ b.ID)).map
    (fun ns => { ns with CustomFields := convertCustomFields ns.CustomFields }), none)

/-- What the conversion loop does to one custom-field value. -/
def convertValue : CFValue → CFValue
  | CFValue.float q => CFValue.int (floatToInt q)
  | v => v

/-- The number 1.5, in lowest terms. -/
def oneAndAHalf : ℚ := { num := 3, den := 2, den_nz := by decide, reduced := by decide }

/-- A store whose record 1 has a whole and a non-whole number among its
custom fields. -/
def customFieldStore : DB :=
  { namespaceTable :=
      [{ storedFoo with
        CustomFields :=
          some [("slots", CFValue.float 4), ("ratio", CFValue.float oneAndAHalf),
            ("site", CFValue.str "x"), ("public", CFValue.bool true)] }]
    topologyTable := [] }

/-- A broker deployment like `exampleEnv` whose registry cannot be reached:
every key-set fetch fails. -/
def unreachableEnv : BrokerEnv :=
  { exampleEnv with fetchKeySet := fun _ => none }

/-! ## The Go library calls of `getRegistryIssValue` (`net/url`, `path`)

`getRegistryIssValue` computes the issuer with `url.Parse`, `url.JoinPath`
and `URL.String`. Go strings are byte sequences: inside this section a Go
string is the list of its bytes. `url.Parse` itself is not modelled; it is a
parameter `parse`. URLs with user info or an opaque part are left out. -/

/-- The UTF-8 bytes of a character. -/
def utf8Bytes (c : Char) : List Nat :=
  let n := c.toNat
  if n < 128 then [n]
  else if n < 2048 then [192 + n / 64, 128 + n % 64]
  else if n < 65536 then [224 + n / 4096, 128 + n / 64 % 64, 128 + n % 64]
  else [240 + n / 262144, 128 + n / 4096 % 64, 128 + n / 64 % 64, 128 + n % 64]

/-- The bytes of a Go string. -/
def goBytes (s : String) : List Nat := (s.data.map utf8Bytes).flatten

/-- The string made of ASCII bytes. -/
def asciiString (b : List Nat) : String := String.mk (b.map Char.ofNat)

/-- `shouldEscape(c, encodePath)` of `net/url`. -/
def shouldEscapePath (c : Nat) : Bool :=
  if (48 ≤ c ∧ c ≤ 57) ∨ (65 ≤ c ∧ c ≤ 90) ∨ (97 ≤ c ∧ c ≤ 122) then false
  else if c = 45 ∨ c = 95 ∨ c = 46 ∨ c = 126 then false
  else if c = 36 ∨ c = 38 ∨ c = 43 ∨ c = 44 ∨ c = 47 ∨ c = 58 ∨ c = 59 ∨ c = 61 ∨
      c = 63 ∨ c = 64 then decide (c = 63)
  else true

/-- One digit of `upperhex`. -/
def upperHex (d : Nat) : Nat := if d < 10 then 48 + d else 55 + d

/-- `escape(s, encodePath)`: each byte that should be escaped becomes `%XX`. -/
def escapePath : List Nat → List Nat
  | [] => []
  | c :: cs =>
    if shouldEscapePath c then 37 :: upperHex (c / 16) :: upperHex (c % 16) :: escapePath cs
    else c :: escapePath cs

/-- `ishex`. -/
def ishex (c : Nat) : Bool :=
  (48 ≤ c ∧ c ≤ 57) ∨ (97 ≤ c ∧ c ≤ 102) ∨ (65 ≤ c ∧ c ≤ 70)

/-- `unhex`. -/
def unhex (c : Nat) : Nat :=
  if 48 ≤ c ∧ c ≤ 57 then c - 48
  else if 97 ≤ c ∧ c ≤ 102 then c - 97 + 10
  else if 65 ≤ c ∧ c ≤ 70 then c - 65 + 10
  else 0

/-- `unescape(s, encodePath)`: `none` is the `EscapeError`. -/
def unescapePath : List Nat → Option (List Nat)
  | [] => some []
  | c :: cs =>
    if c = 37 then
      match cs with
      | a :: b :: rest =>
        if ishex a ∧ ishex b then
          (unescapePath rest).map (fun r => (unhex a * 16 + unhex b) :: r)
        else none
      | _ => none
    else (unescapePath cs).map (fun r => c :: r)

/-- `validEncoding(s, encodePath)`. -/
def validEncodingPath (s : List Nat) : Bool :=
  s.all (fun c =>
    if c = 33 ∨ c = 36 ∨ c = 38 ∨ c = 39 ∨ c = 40 ∨ c = 41 ∨ c = 42 ∨ c = 43 ∨ c = 44 ∨
        c = 59 ∨ c = 61 ∨ c = 58 ∨ c = 64 then true
    else if c = 91 ∨ c = 93 then true
    else if c = 37 then true
    else !shouldEscapePath c)

/-- The elements of a path between its slashes. -/
def splitSlash : List Nat → List (List Nat)
  | [] => [[]]
  | c :: cs =>
    if c = 47 then [] :: splitSlash cs
    else
      match splitSlash cs with
      | [] => [[c]]
      | s :: ss => (c :: s) :: ss

/-- One element in the loop of `path.Clean`, on the stack of elements kept so
far (last first): empty and `.` elements are dropped, `..` removes the last
real element, is dropped at the root, and is kept in front of a relative path. -/
def cleanStep (rooted : Bool) (st : List (List Nat)) (seg : List Nat) : List (List Nat) :=
  if seg = [] ∨ seg = [46] then st
  else if seg = [46, 46] then
    match st with
    | [] => if rooted then [] else [seg]
    | top :: rest => if top = [46, 46] then seg :: st else rest
  else seg :: st

/-- `path.Clean`. -/
def pathClean (p : List Nat) : List Nat :=
  let rooted := p.head? = some 47
  let kept := ((splitSlash p).foldl (cleanStep rooted) []).reverse
  if rooted then
    if kept = [] then [47] else (kept.map (fun seg => 47 :: seg)).flatten
  else
    if kept = [] then [46] else ((kept.map (fun seg => 47 :: seg)).flatten).tail

/-- `path.Join`. -/
def pathJoin (elem : List (List Nat)) : List Nat :=
  let buf := elem.foldl
    (fun buf e => if buf ≠ [] then buf ++ 47 :: e else if e ≠ [] then e else buf) []
  if buf = [] then [] else pathClean buf

/-- The fields of a Go `url.URL` that the model keeps. `Host` and `Fragment`
are held as `String()` writes them. -/
structure GoURL where
  Scheme : String
  Host : String
  Path : List Nat
  RawPath : List Nat
  RawQuery : String
  Fragment : String
deriving DecidableEq, Repr

/-- `(*URL).setPath`. An `EscapeError` leaves the URL as it is. -/
def GoURL.setPath (u : GoURL) (p : List Nat) : GoURL :=
  match unescapePath p with
  | none => u
  | some path =>
    { u with Path := path, RawPath := if p = escapePath path then [] else p }

/-- `(*URL).EscapedPath`. -/
def GoURL.EscapedPath (u : GoURL) : List Nat :=
  if u.RawPath ≠ [] ∧ validEncodingPath u.RawPath ∧ unescapePath u.RawPath = some u.Path then
    u.RawPath
  else if u.Path = [42] then [42]
  else escapePath u.Path

/-- `(*URL).String`. -/
def GoURL.String (u : GoURL) : String :=
  let start :=
    (if u.Scheme ≠ "" then u.Scheme ++ ":" else "") ++
      (if u.Scheme ≠ "" ∨ u.Host ≠ "" then
        (if u.Host ≠ "" ∨ u.Path ≠ [] then "//" else "") ++ u.Host
      else "")
  let path := u.EscapedPath
  let start :=
    if path ≠ [] ∧ path.head? ≠ some 47 ∧ u.Host ≠ "" then start ++ "/" else start
  let start :=
    if start = "" ∧ (path.takeWhile (fun c => c ≠ 47)).contains 58 then "./" else start
  start ++ asciiString path ++
    (if u.RawQuery ≠ "" then "?" ++ u.RawQuery else "") ++
    (if u.Fragment ≠ "" then "#" ++ u.Fragment else "")

/-- `(*URL).JoinPath`. -/
def GoURL.JoinPath (u : GoURL) (elem : List (List Nat)) : GoURL :=
  let first := u.EscapedPath
  let p :=
    if first.head? ≠ some 47 then (pathJoin ((47 :: first) :: elem)).tail
    else pathJoin (first :: elem)
  let p :=
    if (first :: elem).getLast?.bind List.getLast? = some 47 ∧ p.getLast? ≠ some 47 then
      p ++ [47]
    else p
  u.setPath p

/-- The package function `url.JoinPath(base, elem...)`. -/
def urlJoinPath (parse : List Nat → Option GoURL) (base : List Nat) (elem : List (List Nat)) :
    Option String :=
  match parse base with
  | none => none
  | some u => some (u.JoinPath elem).String

/-- Lines 54-62 of `getRegistryIssValue` on the Go library: parse the registry
URL, replace its path by `url.JoinPath(path, "api", "v1.0", "registry",
prefix)`, and write the URL out. -/
def goRegistryJoinPath (parse : List Nat → Option GoURL) (base pfx : String) : Option String :=
  match parse (goBytes base) with
  | none => none
  | some namespaceUrl =>
    match urlJoinPath parse namespaceUrl.Path
        [goBytes "api", goBytes "v1.0", goBytes "registry", goBytes pfx] with
    | none => none
    | some joined => some ({ namespaceUrl with Path := goBytes joined }).String

/-- What `url.Parse` returns for "https://registry.example" and for the empty
string; other inputs do not occur in the worked cases. -/
def exampleParse (rawURL : List Nat) : Option GoURL :=
  if rawURL = goBytes "https://registry.example" then
    some { Scheme := "https", Host := "registry.example", Path := [], RawPath := []
           RawQuery := "", Fragment := "" }
  else if rawURL = [] then
    some { Scheme := "", Host := "", Path := [], RawPath := [], RawQuery := "", Fragment := "" }
  else none

/-- The deployment `exampleEnv`, with the issuer computed by the Go library
calls. -/
def goExampleEnv : BrokerEnv :=
  { exampleEnv with registryJoinPath := goRegistryJoinPath exampleParse }

/-- What `url.Parse` returns for "HTTPS://registry.example" (it writes the
scheme in lower case) and for the empty string. -/
def upperSchemeParse (rawURL : List Nat) : Option GoURL :=
  if rawURL = goBytes "HTTPS://registry.example" then
    some { Scheme := "https", Host := "registry.example", Path := [], RawPath := []
           RawQuery := "", Fragment := "" }
  else if rawURL = [] then
    some { Scheme := "", Host := "", Path := [], RawPath := [], RawQuery := "", Fragment := "" }
  else none

/-- The deployment `goExampleEnv` with the scheme of the registry URL written
in upper case. -/
def upperSchemeEnv : BrokerEnv :=
  { exampleEnv with
    Federation_RegistryUrl := "HTTPS://registry.example"
    registryJoinPath := goRegistryJoinPath upperSchemeParse }

/-- A byte that `net/url` writes in a path as it is, other than the slash. -/
def plainByte (b : Nat) : Bool := !shouldEscapePath b && decide (b ≠ 47)

/-- A path element made of plain characters that is neither empty nor `.`
nor `..`. -/
def plainSegment (seg : List Char) : Prop :=
  seg ≠ [] ∧ seg ≠ ['.'] ∧ seg ≠ ['.', '.'] ∧ ∀ c ∈ seg, plainByte c.toNat = true

/-- The path `/s₁/s₂/.../sₙ` with the given elements; the empty path for no
element. -/
def slashPath (segs : List (List Char)) : String :=
  String.mk ((segs.map (fun seg => '/' :: seg)).flatten)

/-- A path element, as bytes, made of plain bytes that is neither empty nor
`.` nor `..`. -/
def realBytes (s : List Nat) : Prop :=
  s ≠ [] ∧ s ≠ [46] ∧ s ≠ [46, 46] ∧ ∀ b ∈ s, plainByte b = true

/-- The bytes of `/s₁/s₂/.../sₙ`. -/
def slashBytes (segs : List (List Nat)) : List Nat :=
  (segs.map (fun seg => 47 :: seg)).flatten

/-- The elements "api", "v1.0", "registry" that `getRegistryIssValue` joins
in front of the prefix, as bytes. -/
def apiElements : List (List Nat) :=
  [[97, 112, 105], [118, 49, 46, 48], [114, 101, 103, 105, 115, 116, 114, 121]]

/-- The path that `url.JoinPath` computes from the base path `/b₁/.../bₖ` and
the prefix `/s₁/.../sₙ`: relative (no leading slash) when the base path is
empty. -/
def joinedPath (bs segs : List (List Nat)) : List Nat :=
  if bs = [] then (slashBytes (apiElements ++ segs)).tail
  else slashBytes (bs ++ apiElements ++ segs)

/-! ## `getNamespaceStatusById` (lines 292-308) -/

/-- `getNamespaceStatusById`: the status and the error. The query is
`SELECT admin_metadata FROM namespace WHERE id = ? ORDER BY id DESC LIMIT 1`. -/
def getNamespaceStatusById (db : DB) (id : Int) : RegistrationStatus × Option String :=
  if id < 1 then
    ("", some "Invalid id. id must be a positive integer")
  else
    match (db.namespaceTable.filter (fun r => r.ID = id)).getLast? with
    | none => (Unknown, some "namespace not found in database")
    | some result =>
      if result.AdminMetadata.Status = "" then (Unknown, none)
      else (result.AdminMetadata.Status, none)

/-- The filter that names a status and nothing else. -/
def statusFilter (s : RegistrationStatus) : Namespace :=
  { emptyFilter with AdminMetadata := { emptyFilter.AdminMetadata with Status := s } }

/-- A stored record as `getNamespacesByFilter` returns it: the custom fields
are not among the selected columns. -/
def withoutCustomFields (r : Namespace) : Namespace :=
  { r with CustomFields := none }

/-! ## Lemmas on `LIKE` -/

theorem likeAnySuffix_of_self (f : List Char → Bool) (s : List Char)
    (h : f s = true) : likeAnySuffix f s = true := by
  cases s with
  | nil => simpa [likeAnySuffix] using h
  | cons c s => simp [likeAnySuffix, h]

theorem likeAnySuffix_of_nil (f : List Char → Bool) (s : List Char)
    (h : f [] = true) : likeAnySuffix f s = true := by
  induction s with
  | nil => simpa [likeAnySuffix] using h
  | cons c s ih => simp [likeAnySuffix, ih]

/-- A pattern matches itself read as a string, whatever wildcards it holds,
and what follows it is matched independently. -/
theorem likeChars_append_self (p pat str : List Char)
    (h : likeChars pat str = true) : likeChars (p ++ pat) (p ++ str) = true := by
  induction p with
  | nil => simpa using h
  | cons c p ih =>
    by_cases hc : c = '%'
    · subst hc
      simp only [List.cons_append, likeChars, if_true, likeAnySuffix, Bool.or_eq_true]
      exact Or.inr (likeAnySuffix_of_self _ _ ih)
    · simp [likeChars, hc, ih]

/-- The boundary pattern `P || '/%'` matches `P || '/' || s || '/'`. -/
theorem sqlLike_boundary (P s : String) :
    sqlLike (P ++ "/" ++ s ++ "/") (P ++ "/%") = true := by
  have h : likeChars ['%'] (s.data ++ ['/']) = true := by
    simp only [likeChars, if_true]
    exact likeAnySuffix_of_nil _ _ (by simp [likeChars])
  have := likeChars_append_self (P.data ++ ['/']) ['%'] (s.data ++ ['/']) h
  simpa [sqlLike, String.data_append, List.append_assoc] using this

/-- The boundary pattern `P || '/%'` also matches `P || '/'` itself. -/
theorem sqlLike_boundary_self (P : String) :
    sqlLike (P ++ "/") (P ++ "/%") = true := by
  have h : likeChars ['%'] [] = true := by
    simp [likeChars, likeAnySuffix]
  have := likeChars_append_self (P.data ++ ['/']) ['%'] [] h
  simpa [sqlLike, String.data_append, List.append_assoc] using this

theorem namespaceSupSubChecks_of_no_topo (pp : String) (db : DB) (pfx : String)
    (h : pp ≠ "OSDF" ∨ topoSuperSubQuery db pfx = []) :
    namespaceSupSubChecks pp db pfx =
      { superspaces := superspaceQuery db pfx, subspaces := subspaceQuery db pfx
        inTopo := false, err := none } := by
  unfold namespaceSupSubChecks
  rcases h with h | h
  · simp [h]
  · simp [h]

/-! ## `namespaceSupSubChecks`: what it reports -/

/-- C1: with the legacy-topology check not matching (or legacy mode off), for
all prefixes `P` and `Q = P + "/" + s`: if `P` is registered then the check of
`Q` lists `P` among the superspaces, and if `Q` is registered then the check
of `P` lists `Q` among the subspaces. -/
theorem supsub_lists_boundary_pairs (pp : String) (db : DB) (P s : String) :
    ((pp ≠ "OSDF" ∨ topoSuperSubQuery db (P ++ "/" ++ s) = []) →
        P ∈ db.namespaceTable.map Namespace.Prefix →
        P ∈ (namespaceSupSubChecks pp db (P ++ "/" ++ s)).superspaces) ∧
    ((pp ≠ "OSDF" ∨ topoSuperSubQuery db P = []) →
        (P ++ "/" ++ s) ∈ db.namespaceTable.map Namespace.Prefix →
        (P ++ "/" ++ s) ∈ (namespaceSupSubChecks pp db P).subspaces) := by
  constructor
  · intro hno hreg
    rw [namespaceSupSubChecks_of_no_topo pp db _ hno]
    obtain ⟨n, hn, hP⟩ := List.mem_map.1 hreg
    refine List.mem_map.2 ⟨n, List.mem_filter.2 ⟨hn, ?_⟩, hP⟩
    simpa [hP] using sqlLike_boundary P s
  · intro hno hreg
    rw [namespaceSupSubChecks_of_no_topo pp db _ hno]
    obtain ⟨n, hn, hQ⟩ := List.mem_map.1 hreg
    refine List.mem_map.2 ⟨n, List.mem_filter.2 ⟨hn, ?_⟩, hQ⟩
    simpa [hQ] using sqlLike_boundary P s

/-- The scenario of C1: with "/foo" registered and legacy mode off, the check
of "/foo/bar" lists "/foo" as a superspace, and the whole result is
superspaces = ["/foo"], subspaces = []. -/
theorem supsub_lists_boundary_pairs_witness :
    ("" ≠ "OSDF" ∨
        topoSuperSubQuery ⟨[bareNamespace 1 "/foo"], []⟩ ("/foo" ++ "/" ++ "bar") = []) ∧
      "/foo" ∈ (DB.mk [bareNamespace 1 "/foo"] []).namespaceTable.map Namespace.Prefix ∧
      "/foo" ∈ (namespaceSupSubChecks "" ⟨[bareNamespace 1 "/foo"], []⟩
        ("/foo" ++ "/" ++ "bar")).superspaces ∧
      namespaceSupSubChecks "" ⟨[bareNamespace 1 "/foo"], []⟩ "/foo/bar" =
        { superspaces := ["/foo"], subspaces := [], inTopo := false, err := none } :=
  ⟨Or.inl (by decide), by decide,
    (supsub_lists_boundary_pairs "" ⟨[bareNamespace 1 "/foo"], []⟩ "/foo" "bar").1
      (Or.inl (by decide)) (by decide),
    by decide⟩

/-- C2, on the code: the `LIKE` of the two queries compares ASCII letters
without regard to case and reads `%` and `_` of the stored side as wildcards.
With "/FOO" registered the check of "/foo/bar" reports "/FOO" as a superspace,
with "/my_ns" registered the check of "/my-ns/data" reports "/my_ns", and with
"/foobar" registered the check of "/f%" reports "/foobar" as a subspace; in
none of these is one prefix the other followed by "/" and a suffix. -/
theorem supsub_like_reports_non_boundary :
    (namespaceSupSubChecks "" ⟨[bareNamespace 1 "/FOO"], []⟩ "/foo/bar").superspaces
        = ["/FOO"] ∧
      (∀ s : String, "/foo/bar" ≠ "/FOO" ++ "/" ++ s) ∧
      (namespaceSupSubChecks "" ⟨[bareNamespace 1 "/my_ns"], []⟩ "/my-ns/data").superspaces
        = ["/my_ns"] ∧
      (∀ s : String, "/my-ns/data" ≠ "/my_ns" ++ "/" ++ s) ∧
      (namespaceSupSubChecks "" ⟨[bareNamespace 1 "/foobar"], []⟩ "/f%").subspaces
        = ["/foobar"] ∧
      (∀ s : String, "/foobar" ≠ "/f%" ++ "/" ++ s) := by
  refine ⟨by decide, ?_, by decide, ?_, by decide, ?_⟩
  · intro s h
    have h₁ := congrArg (fun x : String => x.data.take 4) h
    simp [String.data_append] at h₁
  · intro s h
    have h₁ := congrArg (fun x : String => x.data.take 4) h
    simp [String.data_append] at h₁
  · intro s h
    have h₁ := congrArg (fun x : String => x.data.take 3) h
    simp [String.data_append] at h₁

/-- C3, on the code: `%` also matches the empty string, so a registered prefix
equal to the candidate is listed both as its superspace and as its subspace. -/
theorem supsub_lists_equal_prefix :
    namespaceSupSubChecks "" ⟨[bareNamespace 1 "/foo"], []⟩ "/foo" =
      { superspaces := ["/foo"], subspaces := ["/foo"], inTopo := false, err := none } := by
  decide

/-- C4: in legacy mode, when some topology entry is the candidate followed by
"/" and a suffix, or the candidate is the entry followed by "/" and a suffix,
the result is `inTopo = true` with no superspaces, no subspaces and no error,
whatever the namespace table holds; outside legacy mode `inTopo` is false. -/
theorem legacy_topology_short_circuit (pp : String) (db : DB) (P : String) :
    (pp = "OSDF" →
        (∃ t ∈ db.topologyTable, ∃ s : String,
          P = t.Prefix ++ "/" ++ s ∨ t.Prefix = P ++ "/" ++ s) →
        namespaceSupSubChecks pp db P =
          { superspaces := [], subspaces := [], inTopo := true, err := none }) ∧
    (pp ≠ "OSDF" → (namespaceSupSubChecks pp db P).inTopo = false) := by
  constructor
  · rintro hpp ⟨t, ht, s, hs⟩
    have hmem : t.Prefix ∈ topoSuperSubQuery db P := by
      unfold topoSuperSubQuery
      rw [List.mem_dedup, List.mem_append]
      rcases hs with hs | hs
      · left
        refine List.mem_map.2 ⟨t, List.mem_filter.2 ⟨ht, ?_⟩, rfl⟩
        simpa [hs] using sqlLike_boundary t.Prefix s
      · right
        refine List.mem_map.2 ⟨t, List.mem_filter.2 ⟨ht, ?_⟩, rfl⟩
        simpa [hs] using sqlLike_boundary P s
    have hpos : 0 < (topoSuperSubQuery db P).length := List.length_pos_of_mem hmem
    simp [namespaceSupSubChecks, hpp, hpos]
  · intro hpp
    simp [namespaceSupSubChecks, hpp]

/-- C4 at work: with "/foo" registered and "/foo/bar/baz" in the topology
table, the legacy-mode check of "/foo/bar" stops at the topology match. -/
theorem legacy_topology_short_circuit_witness :
    (∃ t ∈ (DB.mk [bareNamespace 1 "/foo"] [⟨1, "/foo/bar/baz"⟩]).topologyTable,
        ∃ s : String, "/foo/bar" = t.Prefix ++ "/" ++ s ∨ t.Prefix = "/foo/bar" ++ "/" ++ s) ∧
      namespaceSupSubChecks "OSDF" ⟨[bareNamespace 1 "/foo"], [⟨1, "/foo/bar/baz"⟩]⟩ "/foo/bar" =
        { superspaces := [], subspaces := [], inTopo := true, err := none } ∧
      (namespaceSupSubChecks "" ⟨[bareNamespace 1 "/foo"], [⟨1, "/foo/bar/baz"⟩]⟩
        "/foo/bar").inTopo = false :=
  ⟨⟨⟨1, "/foo/bar/baz"⟩, by simp, "baz", Or.inr (by decide)⟩,
    (legacy_topology_short_circuit "OSDF" ⟨[bareNamespace 1 "/foo"], [⟨1, "/foo/bar/baz"⟩]⟩
      "/foo/bar").1 rfl ⟨⟨1, "/foo/bar/baz"⟩, by simp, "baz", Or.inr (by decide)⟩,
    (legacy_topology_short_circuit "" ⟨[bareNamespace 1 "/foo"], [⟨1, "/foo/bar/baz"⟩]⟩
      "/foo/bar").2 (by decide)⟩

/-! ## `verifyToken` and the audience -/

/-- The result of `verifyToken` is the same for every value of its
`audience` argument: the audience checked is `Server_ExternalWebUrl`. -/
theorem verifyToken_audience_irrelevant (env : BrokerEnv) (now : Time) (keys : NamespaceKeys)
    (token : Token) (ns a a₁ sc : String) :
    verifyToken env now keys token ns a sc = verifyToken env now keys token ns a₁ sc :=
  rfl

/-- C5, on the code: the registry URL is configured and the key set served
for "/foo" holds the signing key, yet a token minted for the audience
`https://cache.example` and verified at once with the same namespace,
audience and scope is refused, because the server's own external URL is
`https://origin.example`. -/
theorem mint_verify_refused_for_other_audience :
    exampleEnv.Federation_RegistryUrl ≠ "" ∧
      exampleEnv.fetchKeySet "https://registry.example/api/v1.0/registry/foo/.well-known/issuer.jwks"
        = some [exampleEnv.issuerKey] ∧
      ∃ tok, createToken exampleEnv 100 "/foo" "origin" "https://cache.example" "broker.reflect"
          = Except.ok tok ∧
        (verifyToken exampleEnv 100 [] tok "/foo" "https://cache.example" "broker.reflect").1
          = (false, some "\"aud\" not satisfied") := by
  refine ⟨by decide, rfl, _, rfl, ?_⟩
  decide

/-- C6, on the code: a token minted for the audience `https://origin.example`
(the server's external URL) verifies with ok = true when `verifyToken` is
asked for the different audience `https://other.example`. -/
theorem verify_accepts_changed_audience :
    "https://other.example" ≠ "https://origin.example" ∧
      ∃ tok, createToken exampleEnv 100 "/foo" "origin" "https://origin.example" "broker.reflect"
          = Except.ok tok ∧
        (verifyToken exampleEnv 100 [] tok "/foo" "https://other.example" "broker.reflect").1
          = (true, none) := by
  refine ⟨by decide, _, rfl, ?_⟩
  decide


/-! ## Lemmas on the `namespace` table -/

theorem filter_id_of_unique (l : List Namespace) (e : Namespace)
    (hu : (l.map Namespace.ID).Nodup) (he : e ∈ l) :
    l.filter (fun r => r.ID = e.ID) = [e] := by
  induction l with
  | nil => simp at he
  | cons x xs ih =>
    rw [List.map_cons, List.nodup_cons] at hu
    rcases List.mem_cons.1 he with h | h
    · subst h
      have hnil : xs.filter (fun r => r.ID = e.ID) = [] := by
        rw [List.filter_eq_nil_iff]
        intro r hr hid
        exact hu.1 (List.mem_map.2 ⟨r, hr, by simpa using hid⟩)
      simp [List.filter_cons, hnil]
    · have hne : x.ID ≠ e.ID := fun hid => hu.1 (List.mem_map.2 ⟨e, h, hid.symm⟩)
      simp [List.filter_cons, hne, ih hu.2 h]

theorem find_id_of_unique (l : List Namespace) (e : Namespace)
    (hu : (l.map Namespace.ID).Nodup) (he : e ∈ l) :
    l.find? (fun r => r.ID = e.ID) = some e := by
  induction l with
  | nil => simp at he
  | cons x xs ih =>
    rw [List.map_cons, List.nodup_cons] at hu
    rcases List.mem_cons.1 he with h | h
    · subst h
      simp [List.find?_cons]
    · have hne : x.ID ≠ e.ID := fun hid => hu.1 (List.mem_map.2 ⟨e, h, hid.symm⟩)
      simp [List.find?_cons, hne, ih hu.2 h]

theorem eq_of_unique (l : List Namespace) (r e : Namespace)
    (hu : (l.map Namespace.ID).Nodup) (hr : r ∈ l) (he : e ∈ l) (hid : r.ID = e.ID) :
    r = e := by
  have h₁ := find_id_of_unique l e hu he
  have h₂ := find_id_of_unique l r hu hr
  rw [hid, h₁] at h₂
  exact (Option.some.inj h₂).symm

theorem find_map_of_id_fixed (l : List Namespace) (i : Int) (f : Namespace → Namespace)
    (hf : ∀ r, (f r).ID = r.ID) :
    (l.map f).find? (fun r => r.ID = i) = (l.find? (fun r => r.ID = i)).map f := by
  induction l with
  | nil => rfl
  | cons x xs ih =>
    by_cases hx : x.ID = i
    · simp [List.find?_cons, hf, hx]
    · simp [List.find?_cons, hf, hx, ih]

theorem getNamespaceById_of_mem (db : DB) (e : Namespace) (hu : db.uniqueIds)
    (he : e ∈ db.namespaceTable) (hid : 1 ≤ e.ID) :
    getNamespaceById db e.ID =
      Except.ok { e with CustomFields := convertCustomFields e.CustomFields } := by
  unfold getNamespaceById
  rw [if_neg (by omega), filter_id_of_unique _ e hu he]
  rfl

theorem getNamespaceById_ok_pos (db : DB) (id : Int) (x : Namespace)
    (h : getNamespaceById db id = Except.ok x) : 1 ≤ id := by
  unfold getNamespaceById at h
  by_contra hlt
  rw [if_pos (by omega)] at h
  cases h

/-- The row `updateNamespace` hands to `db.Save` once the existing record is
loaded. -/
theorem updateNamespace_of_existing (db : DB) (t : Time) (ns x : Namespace)
    (h : getNamespaceById db ns.ID = Except.ok x) :
    updateNamespace db t ns =
      (none, gormSave db
        { ID := ns.ID
          Prefix := if ns.Prefix = "" then x.Prefix else ns.Prefix
          Pubkey := if ns.Pubkey = "" then x.Pubkey else ns.Pubkey
          Identity := x.Identity
          AdminMetadata :=
            { UserID := x.AdminMetadata.UserID
              Description := ns.AdminMetadata.Description
              SiteName := ns.AdminMetadata.SiteName
              Institution := ns.AdminMetadata.Institution
              SecurityContactUserID := ns.AdminMetadata.SecurityContactUserID
              Status := x.AdminMetadata.Status
              ApproverID := x.AdminMetadata.ApproverID
              ApprovedAt := x.AdminMetadata.ApprovedAt
              CreatedAt := x.AdminMetadata.CreatedAt
              UpdatedAt := t }
          CustomFields := ns.CustomFields }) := by
  unfold updateNamespace
  rw [h]
  by_cases h₁ : ns.Prefix = "" <;> by_cases h₂ : ns.Pubkey = "" <;> simp [h₁, h₂]

theorem updateNamespace_err_of_missing (db : DB) (t : Time) (ns : Namespace) (m : String)
    (h : getNamespaceById db ns.ID = Except.error m) :
    updateNamespace db t ns = (some ("Failed to get namespace: " ++ m), db) := by
  unfold updateNamespace
  rw [h]

theorem gormSave_of_present (db : DB) (row : Namespace) (h0 : row.ID ≠ 0)
    (hp : ∃ r ∈ db.namespaceTable, r.ID = row.ID) :
    gormSave db row =
      { db with namespaceTable :=
          db.namespaceTable.map (fun r =>
            if r.ID = row.ID then
              { row with CustomFields := storedCustomFields row.CustomFields }
            else r) } := by
  unfold gormSave
  have hany : db.namespaceTable.any (fun r => r.ID = row.ID) = true := by
    obtain ⟨r, hr, hid⟩ := hp
    exact List.any_eq_true.2 ⟨r, hr, by simpa using hid⟩
  simp [h0, hany]

theorem gormSave_row_of_unique (db : DB) (row e : Namespace) (hu : db.uniqueIds)
    (he : e ∈ db.namespaceTable) (hid : row.ID = e.ID) (h0 : row.ID ≠ 0) :
    (gormSave db row).row? e.ID =
      some { row with CustomFields := storedCustomFields row.CustomFields } := by
  rw [gormSave_of_present db row h0 ⟨e, he, hid.symm⟩]
  show List.find? _ (List.map _ _) = _
  rw [find_map_of_id_fixed _ _ _ (by intro r; by_cases h : r.ID = row.ID <;> simp [h]),
    find_id_of_unique _ e hu he]
  simp [hid]

/-- C7: on a table with unique ids, for every stored record `e` and every
caller-supplied `ns` with `ns.ID = e.ID`, after a successful
`updateNamespace(ns)` the stored record with that id has identity, userID,
createdAt, status, approverID and approvedAt equal to those of `e`, whatever
`ns` carried for them; the other fields are those of `ns` (prefix and pubkey
falling back to those of `e` when empty) and updatedAt is the clock reading. -/
theorem updateNamespace_preserves_protected (db : DB) (t : Time) (ns e : Namespace)
    (hu : db.uniqueIds) (he : e ∈ db.namespaceTable) (hid : ns.ID = e.ID)
    (hok : (updateNamespace db t ns).1 = none) :
    ∃ r, (updateNamespace db t ns).2.row? e.ID = some r ∧
      r.ID = e.ID ∧
      r.Identity = e.Identity ∧
      r.AdminMetadata.UserID = e.AdminMetadata.UserID ∧
      r.AdminMetadata.CreatedAt = e.AdminMetadata.CreatedAt ∧
      r.AdminMetadata.Status = e.AdminMetadata.Status ∧
      r.AdminMetadata.ApproverID = e.AdminMetadata.ApproverID ∧
      r.AdminMetadata.ApprovedAt = e.AdminMetadata.ApprovedAt ∧
      r.Prefix = (if ns.Prefix = "" then e.Prefix else ns.Prefix) ∧
      r.Pubkey = (if ns.Pubkey = "" then e.Pubkey else ns.Pubkey) ∧
      r.AdminMetadata.Description = ns.AdminMetadata.Description ∧
      r.AdminMetadata.SiteName = ns.AdminMetadata.SiteName ∧
      r.AdminMetadata.Institution = ns.AdminMetadata.Institution ∧
      r.AdminMetadata.SecurityContactUserID = ns.AdminMetadata.SecurityContactUserID ∧
      r.CustomFields = storedCustomFields ns.CustomFields ∧
      r.AdminMetadata.UpdatedAt = t := by
  have hpos : 1 ≤ e.ID := by
    cases hg : getNamespaceById db ns.ID with
    | error m => rw [updateNamespace_err_of_missing db t ns m hg] at hok; cases hok
    | ok x => rw [← hid]; exact getNamespaceById_ok_pos db ns.ID x hg
  have hget := getNamespaceById_of_mem db e hu he hpos
  rw [← hid] at hget
  rw [updateNamespace_of_existing db t ns _ hget]
  have h0 : ns.ID ≠ 0 := by omega
  refine ⟨_, gormSave_row_of_unique db _ e hu he hid h0, ?_⟩
  simp [hid]

/-- C7 at work: a caller-supplied namespace with other userID, status,
createdAt, approverID, approvedAt and identity leaves those of the stored
record "/foo" as they were. -/
theorem updateNamespace_preserves_protected_witness :
    (DB.mk [storedFoo] []).uniqueIds ∧ storedFoo ∈ (DB.mk [storedFoo] []).namespaceTable ∧
      forgedFoo.ID = storedFoo.ID ∧ (updateNamespace ⟨[storedFoo], []⟩ 50 forgedFoo).1 = none ∧
      ∃ r, (updateNamespace ⟨[storedFoo], []⟩ 50 forgedFoo).2.row? storedFoo.ID = some r ∧
        r.ID = storedFoo.ID ∧
        r.Identity = storedFoo.Identity ∧
        r.AdminMetadata.UserID = storedFoo.AdminMetadata.UserID ∧
        r.AdminMetadata.CreatedAt = storedFoo.AdminMetadata.CreatedAt ∧
        r.AdminMetadata.Status = storedFoo.AdminMetadata.Status ∧
        r.AdminMetadata.ApproverID = storedFoo.AdminMetadata.ApproverID ∧
        r.AdminMetadata.ApprovedAt = storedFoo.AdminMetadata.ApprovedAt ∧
        r.Prefix = (if forgedFoo.Prefix = "" then storedFoo.Prefix else forgedFoo.Prefix) ∧
        r.Pubkey = (if forgedFoo.Pubkey = "" then storedFoo.Pubkey else forgedFoo.Pubkey) ∧
        r.AdminMetadata.Description = forgedFoo.AdminMetadata.Description ∧
        r.AdminMetadata.SiteName = forgedFoo.AdminMetadata.SiteName ∧
        r.AdminMetadata.Institution = forgedFoo.AdminMetadata.Institution ∧
        r.AdminMetadata.SecurityContactUserID = forgedFoo.AdminMetadata.SecurityContactUserID ∧
        r.CustomFields = storedCustomFields forgedFoo.CustomFields ∧
        r.AdminMetadata.UpdatedAt = 50 :=
  ⟨by decide, by simp, rfl, by decide,
    updateNamespace_preserves_protected ⟨[storedFoo], []⟩ 50 forgedFoo storedFoo
      (by decide) (by simp) rfl (by decide)⟩

/-- C8: `updateNamespaceStatusById(id, Approved, "")` fails for every id and
every store, and the store afterwards is the store before: no record changes
its status, approverID, approvedAt or updatedAt. -/
theorem approve_with_empty_approver_fails (db : DB) (t₁ t₂ : Time) (id : Int) :
    (updateNamespaceStatusById db t₁ t₂ id Approved "").1 ≠ none ∧
      (updateNamespaceStatusById db t₁ t₂ id Approved "").2 = db := by
  unfold updateNamespaceStatusById
  cases getNamespaceById db id with
  | error m => simp
  | ok x => simp

theorem updateNamespaceStatusById_approved (db : DB) (t₁ t₂ : Time) (id : Int) (a : String)
    (x : Namespace) (ha : a ≠ "") (h : getNamespaceById db id = Except.ok x) :
    updateNamespaceStatusById db t₁ t₂ id Approved a =
      (none, updateAdminMetadata db id
        { x.AdminMetadata with
          Status := Approved, UpdatedAt := t₁, ApproverID := a, ApprovedAt := t₂ }) := by
  unfold updateNamespaceStatusById
  rw [h]
  simp [ha]

theorem updateNamespaceStatusById_other (db : DB) (t₁ t₂ : Time) (id : Int)
    (st : RegistrationStatus) (a : String) (x : Namespace) (hs : st ≠ Approved)
    (h : getNamespaceById db id = Except.ok x) :
    updateNamespaceStatusById db t₁ t₂ id st a =
      (none, updateAdminMetadata db id
        { x.AdminMetadata with Status := st, UpdatedAt := t₁ }) := by
  unfold updateNamespaceStatusById
  rw [h]
  simp [hs]

theorem updateAdminMetadata_row (db : DB) (i j : Int) (am : AdminMetadata) :
    (updateAdminMetadata db i am).row? j =
      (db.row? j).map (fun r => if r.ID = i then { r with AdminMetadata := am } else r) := by
  unfold updateAdminMetadata DB.row?
  exact find_map_of_id_fixed _ _ _ (by intro r; by_cases h : r.ID = i <;> simp [h])

/-- C9: on a table with unique ids, for every stored record `e` with id at
least 1 and every non-empty approver `a`,
`updateNamespaceStatusById(e.ID, Approved, a)` succeeds, and afterwards the
stored record with that id is `e` with status Approved, approverID `a`,
approvedAt the (non-zero) clock reading and updatedAt the clock reading;
every other field of it, every other record and the topology table are as
before. -/
theorem approve_stamps_admin_metadata_only (db : DB) (t₁ t₂ : Time) (e : Namespace)
    (a : String) (hu : db.uniqueIds) (he : e ∈ db.namespaceTable) (hid : 1 ≤ e.ID)
    (ha : a ≠ "") (ht : 0 < t₂) :
    (updateNamespaceStatusById db t₁ t₂ e.ID Approved a).1 = none ∧
      (updateNamespaceStatusById db t₁ t₂ e.ID Approved a).2.row? e.ID =
        some { e with
          AdminMetadata :=
            { e.AdminMetadata with
              Status := Approved, ApproverID := a, ApprovedAt := t₂, UpdatedAt := t₁ } } ∧
      t₂ ≠ 0 ∧
      (∀ j, j ≠ e.ID →
        (updateNamespaceStatusById db t₁ t₂ e.ID Approved a).2.row? j = db.row? j) ∧
      (updateNamespaceStatusById db t₁ t₂ e.ID Approved a).2.topologyTable =
        db.topologyTable := by
  rw [updateNamespaceStatusById_approved db t₁ t₂ e.ID a _ ha
    (getNamespaceById_of_mem db e hu he hid)]
  refine ⟨rfl, ?_, Nat.pos_iff_ne_zero.1 ht, ?_, rfl⟩
  · show (updateAdminMetadata _ _ _).row? _ = _
    rw [updateAdminMetadata_row]
    show Option.map _ (List.find? _ _) = _
    rw [find_id_of_unique _ e hu he]
    simp
  · intro j hj
    show (updateAdminMetadata _ _ _).row? _ = _
    rw [updateAdminMetadata_row]
    cases hr : db.row? j with
    | none => rfl
    | some r =>
      have hrj : r.ID = j := by
        have := List.find?_some hr
        simpa using this
      have : r.ID ≠ e.ID := by rw [hrj]; exact hj
      simp [this]

/-- C9 at work: approving the stored record "/foo" as "admin". -/
theorem approve_stamps_admin_metadata_only_witness :
    (updateNamespaceStatusById ⟨[storedFoo], []⟩ 50 51 storedFoo.ID Approved "admin").1 = none ∧
      (updateNamespaceStatusById ⟨[storedFoo], []⟩ 50 51 storedFoo.ID Approved "admin").2.row?
          storedFoo.ID =
        some { storedFoo with
          AdminMetadata :=
            { storedFoo.AdminMetadata with
              Status := Approved, ApproverID := "admin", ApprovedAt := 51, UpdatedAt := 50 } } ∧
      51 ≠ 0 ∧
      (∀ j, j ≠ storedFoo.ID →
        (updateNamespaceStatusById ⟨[storedFoo], []⟩ 50 51 storedFoo.ID Approved "admin").2.row? j
          = (DB.mk [storedFoo] []).row? j) ∧
      (updateNamespaceStatusById ⟨[storedFoo], []⟩ 50 51 storedFoo.ID Approved
        "admin").2.topologyTable = (DB.mk [storedFoo] []).topologyTable :=
  approve_stamps_admin_metadata_only ⟨[storedFoo], []⟩ 50 51 storedFoo "admin"
    (by decide) (by simp) (by decide) (by decide) (by decide)


/-! ## Who writes approverID and approvedAt -/

theorem getNamespaceById_ok_mem (db : DB) (id : Int) (x : Namespace)
    (h : getNamespaceById db id = Except.ok x) :
    ∃ e ∈ db.namespaceTable, e.ID = id ∧ x.ID = id ∧ x.AdminMetadata = e.AdminMetadata := by
  unfold getNamespaceById at h
  by_cases hlt : id < 1
  · rw [if_pos hlt] at h; cases h
  · rw [if_neg hlt] at h
    cases hl : (db.namespaceTable.filter (fun r => r.ID = id)).getLast? with
    | none => rw [hl] at h; cases h
    | some e =>
      rw [hl] at h
      have hmem := List.mem_of_getLast?_eq_some hl
      rw [List.mem_filter] at hmem
      have hid : e.ID = id := by simpa using hmem.2
      injection h with h
      subst h
      exact ⟨e, hmem.1, hid, hid, rfl⟩

theorem approverFields_map (db : DB) (f : Namespace → Namespace)
    (hf : ∀ r ∈ db.namespaceTable,
      (f r).ID = r.ID ∧ (f r).AdminMetadata.ApproverID = r.AdminMetadata.ApproverID ∧
        (f r).AdminMetadata.ApprovedAt = r.AdminMetadata.ApprovedAt) :
    approverFields { db with namespaceTable := db.namespaceTable.map f } = approverFields db := by
  unfold approverFields
  rw [List.map_map]
  apply List.map_congr_left
  intro r hr
  obtain ⟨h₁, h₂, h₃⟩ := hf r hr
  simp [h₁, h₂, h₃]

theorem gormSave_approverFields (db : DB) (hu : db.uniqueIds) (row e : Namespace)
    (he : e ∈ db.namespaceTable) (hid : e.ID = row.ID) (h0 : row.ID ≠ 0)
    (h₁ : row.AdminMetadata.ApproverID = e.AdminMetadata.ApproverID)
    (h₂ : row.AdminMetadata.ApprovedAt = e.AdminMetadata.ApprovedAt) :
    approverFields (gormSave db row) = approverFields db := by
  rw [gormSave_of_present db row h0 ⟨e, he, hid⟩]
  apply approverFields_map
  intro r hr
  by_cases h : r.ID = row.ID
  · have hre : r = e := eq_of_unique _ r e hu hr he (h.trans hid.symm)
    subst hre
    simp [h, h₁, h₂]
  · simp [h]

theorem updateNamespace_approverFields (db : DB) (hu : db.uniqueIds) (t : Time)
    (ns : Namespace) : approverFields (updateNamespace db t ns).2 = approverFields db := by
  cases hg : getNamespaceById db ns.ID with
  | error m => rw [updateNamespace_err_of_missing db t ns m hg]
  | ok x =>
    obtain ⟨e, he, hid, -, ham⟩ := getNamespaceById_ok_mem db ns.ID x hg
    have hpos := getNamespaceById_ok_pos db ns.ID x hg
    have h0 : ns.ID ≠ 0 := by omega
    rw [updateNamespace_of_existing db t ns x hg]
    show approverFields (gormSave db _) = _
    refine gormSave_approverFields db hu _ e he hid h0 ?_ ?_
    · show x.AdminMetadata.ApproverID = _
      rw [ham]
    · show x.AdminMetadata.ApprovedAt = _
      rw [ham]

theorem updateAdminMetadata_approverFields (db : DB) (hu : db.uniqueIds) (id : Int)
    (e : Namespace) (am : AdminMetadata) (he : e ∈ db.namespaceTable) (hid : e.ID = id)
    (h₁ : am.ApproverID = e.AdminMetadata.ApproverID)
    (h₂ : am.ApprovedAt = e.AdminMetadata.ApprovedAt) :
    approverFields (updateAdminMetadata db id am) = approverFields db := by
  unfold updateAdminMetadata
  apply approverFields_map
  intro r hr
  by_cases h : r.ID = id
  · have hre : r = e := eq_of_unique _ r e hu hr he (h.trans hid.symm)
    subst hre
    simp [h, h₁, h₂]
  · simp [h]

theorem updateNamespaceStatusById_approverFields (db : DB) (hu : db.uniqueIds)
    (t₁ t₂ : Time) (id : Int) (st : RegistrationStatus) (a : String) (hs : st ≠ Approved) :
    approverFields (updateNamespaceStatusById db t₁ t₂ id st a).2 = approverFields db := by
  cases hg : getNamespaceById db id with
  | error m =>
    unfold updateNamespaceStatusById
    rw [hg]
  | ok x =>
    obtain ⟨e, he, hid, -, ham⟩ := getNamespaceById_ok_mem db id x hg
    rw [updateNamespaceStatusById_other db t₁ t₂ id st a x hs hg]
    exact updateAdminMetadata_approverFields db hu id e _ he hid
      (by simp [ham]) (by simp [ham])

theorem gormSave_mem (db : DB) (row r : Namespace)
    (h : r ∈ (gormSave db row).namespaceTable) :
    r ∈ db.namespaceTable ∨ r.AdminMetadata = row.AdminMetadata := by
  unfold gormSave at h
  by_cases h0 : row.ID = 0
  · simp only [h0, if_true] at h
    rcases List.mem_append.1 h with h | h
    · exact Or.inl h
    · simp at h
      exact Or.inr (by rw [h])
  · by_cases hany : db.namespaceTable.any (fun r => r.ID = row.ID) = true
    · simp only [h0, if_false, hany, if_true] at h
      obtain ⟨y, hy, hyr⟩ := List.mem_map.1 h
      by_cases hid : y.ID = row.ID
      · simp [hid] at hyr
        exact Or.inr (by rw [← hyr])
      · simp [hid] at hyr
        exact Or.inl (hyr ▸ hy)
    · simp only [h0, if_false, hany] at h
      rcases List.mem_append.1 h with h | h
      · exact Or.inl h
      · simp at h
        exact Or.inr (by rw [h])

theorem gormSave_stores (db : DB) (row : Namespace) :
    ∃ r ∈ (gormSave db row).namespaceTable,
      r.AdminMetadata = row.AdminMetadata ∧ (row.ID ≠ 0 → r.ID = row.ID) := by
  unfold gormSave
  by_cases h0 : row.ID = 0
  · simp only [h0, if_true]
    exact ⟨_, List.mem_append.2 (Or.inr (List.mem_singleton.2 rfl)), rfl, fun h => absurd rfl h⟩
  · by_cases hany : db.namespaceTable.any (fun r => r.ID = row.ID) = true
    · simp only [h0, if_false, hany, if_true]
      obtain ⟨y, hy, hyr⟩ := List.any_eq_true.1 hany
      have hyr : y.ID = row.ID := by simpa using hyr
      refine ⟨_, List.mem_map.2 ⟨y, hy, rfl⟩, ?_, ?_⟩
      · simp [hyr]
      · intro _; simp [hyr]
    · simp only [h0, if_false, hany]
      exact ⟨_, List.mem_append.2 (Or.inr (List.mem_singleton.2 rfl)), rfl, fun _ => rfl⟩

theorem AddNamespace_eq_save (db : DB) (t₁ t₂ : Time) (ns : Namespace) :
    ∃ row, AddNamespace db t₁ t₂ ns = (none, gormSave db row) ∧ row.ID = ns.ID ∧
      row.AdminMetadata.ApproverID = ns.AdminMetadata.ApproverID ∧
      row.AdminMetadata.ApprovedAt = ns.AdminMetadata.ApprovedAt := by
  unfold AddNamespace
  by_cases hs : ns.AdminMetadata.Status = ""
  · simp only [hs, if_true]
    exact ⟨_, rfl, rfl, rfl, rfl⟩
  · simp only [hs, if_false]
    exact ⟨_, rfl, rfl, rfl, rfl⟩


/-- C10 as stated fails on `AddNamespace`: it stores the approverID and
approvedAt the caller supplies. Added to an empty store, a namespace carrying
approverID "mallory" and approvedAt 9 is stored with both; and saved over the
record that "admin" approved at 51, it replaces that record's approverID and
approvedAt. -/
theorem AddNamespace_stores_supplied_approver :
    ((AddNamespace ⟨[], []⟩ 50 51 { forgedFoo with ID := 0 }).2.row? 1).map
        (fun r => (r.AdminMetadata.ApproverID, r.AdminMetadata.ApprovedAt))
        = some ("mallory", 9) ∧
      approverFields (updateNamespaceStatusById ⟨[storedFoo], []⟩ 50 51 1 Approved "admin").2
        = [(1, "admin", 51)] ∧
      approverFields
          (AddNamespace (updateNamespaceStatusById ⟨[storedFoo], []⟩ 50 51 1 Approved "admin").2
            60 61 forgedFoo).2
        = [(1, "mallory", 9)] := by
  decide

theorem gormSave_keeps (db : DB) (row r : Namespace) (hr : r ∈ db.namespaceTable)
    (hid : row.ID = 0 ∨ r.ID ≠ row.ID) : r ∈ (gormSave db row).namespaceTable := by
  unfold gormSave
  by_cases h0 : row.ID = 0
  · simp only [h0, if_true]
    exact List.mem_append.2 (Or.inl hr)
  · have hne : r.ID ≠ row.ID := hid.resolve_left h0
    by_cases hany : db.namespaceTable.any (fun r => r.ID = row.ID) = true
    · simp only [h0, if_false, hany, if_true]
      exact List.mem_map.2 ⟨r, hr, by simp [hne]⟩
    · simp only [h0, if_false, hany]
      exact List.mem_append.2 (Or.inl hr)

theorem gormSave_approverFields_eq (db : DB) (row : Namespace) :
    approverFields (gormSave db row) =
      if row.ID ≠ 0 ∧ row.ID ∈ db.namespaceTable.map Namespace.ID then
        (approverFields db).map (fun e =>
          if e.1 = row.ID then
            (row.ID, row.AdminMetadata.ApproverID, row.AdminMetadata.ApprovedAt)
          else e)
      else
        approverFields db ++
          [(if row.ID = 0 then nextId db.namespaceTable else row.ID,
            row.AdminMetadata.ApproverID, row.AdminMetadata.ApprovedAt)] := by
  have hmem : db.namespaceTable.any (fun r => r.ID = row.ID) = true ↔
      row.ID ∈ db.namespaceTable.map Namespace.ID := by
    rw [List.any_eq_true, List.mem_map]
    constructor
    · rintro ⟨x, hx, h⟩
      exact ⟨x, hx, by simpa using h⟩
    · rintro ⟨x, hx, h⟩
      exact ⟨x, hx, by simpa using h⟩
  unfold gormSave approverFields
  by_cases h0 : row.ID = 0
  · rw [if_pos h0, if_neg (fun h => h.1 h0), if_pos h0]
    simp
  · by_cases hany : db.namespaceTable.any (fun r => r.ID = row.ID) = true
    · rw [if_neg h0, if_pos hany, if_pos ⟨h0, hmem.1 hany⟩]
      dsimp only
      rw [List.map_map, List.map_map]
      apply List.map_congr_left
      intro r _
      by_cases hr : r.ID = row.ID
      · simp [hr]
      · simp [hr]
    · rw [if_neg h0, if_neg hany, if_neg (fun h => hany (hmem.2 h.2)), if_neg h0]
      simp

/-- C10, amended: on a store with unique ids, `updateNamespace` and
`updateNamespaceStatusById` with a status other than Approved leave the
approverID and approvedAt of every stored record as they were, whatever the
caller supplies. `AddNamespace` keeps every record other than the one it
writes as it was, and writes one record with the approverID and approvedAt of
the namespace it is given: over the record with the id of the namespace when
that id is not zero and is stored, and as a new last record otherwise. -/
theorem approver_fields_written_only_by_approval (db : DB) (hu : db.uniqueIds) :
    (∀ (t : Time) (ns : Namespace),
        approverFields (updateNamespace db t ns).2 = approverFields db) ∧
      (∀ (t₁ t₂ : Time) (id : Int) (st : RegistrationStatus) (a : String), st ≠ Approved →
        approverFields (updateNamespaceStatusById db t₁ t₂ id st a).2 = approverFields db) ∧
      (∀ (t₁ t₂ : Time) (ns : Namespace),
        (∀ r ∈ db.namespaceTable, ns.ID = 0 ∨ r.ID ≠ ns.ID →
          r ∈ (AddNamespace db t₁ t₂ ns).2.namespaceTable) ∧
        approverFields (AddNamespace db t₁ t₂ ns).2 =
          if ns.ID ≠ 0 ∧ ns.ID ∈ db.namespaceTable.map Namespace.ID then
            (approverFields db).map (fun e =>
              if e.1 = ns.ID then
                (ns.ID, ns.AdminMetadata.ApproverID, ns.AdminMetadata.ApprovedAt)
              else e)
          else
            approverFields db ++
              [(if ns.ID = 0 then nextId db.namespaceTable else ns.ID,
                ns.AdminMetadata.ApproverID, ns.AdminMetadata.ApprovedAt)]) := by
  refine ⟨fun t ns => updateNamespace_approverFields db hu t ns,
    fun t₁ t₂ id st a hs => updateNamespaceStatusById_approverFields db hu t₁ t₂ id st a hs,
    fun t₁ t₂ ns => ?_⟩
  obtain ⟨row, hrow, hid, h₁, h₂⟩ := AddNamespace_eq_save db t₁ t₂ ns
  rw [hrow]
  constructor
  · intro r hr hne
    exact gormSave_keeps db row r hr (by rw [hid]; exact hne)
  · show approverFields (gormSave db row) = _
    rw [gormSave_approverFields_eq, hid, h₁, h₂]

/-- C10 amended, at work on the store holding "/foo": an update that carries
a forged approver, and a denial, leave approverID and approvedAt empty; adding
a namespace without id keeps the record of "/foo" and appends a record with
the approver fields supplied. -/
theorem approver_fields_written_only_by_approval_witness :
    (DB.mk [storedFoo] []).uniqueIds ∧
      approverFields (updateNamespace ⟨[storedFoo], []⟩ 50 forgedFoo).2
        = approverFields ⟨[storedFoo], []⟩ ∧
      approverFields (updateNamespaceStatusById ⟨[storedFoo], []⟩ 50 51 1 Denied "mallory").2
        = approverFields ⟨[storedFoo], []⟩ ∧
      storedFoo ∈
        (AddNamespace ⟨[storedFoo], []⟩ 60 61 { forgedFoo with ID := 0 }).2.namespaceTable ∧
      approverFields (AddNamespace ⟨[storedFoo], []⟩ 60 61 { forgedFoo with ID := 0 }).2
        = [(1, "", 0), (2, "mallory", 9)] :=
  ⟨by decide,
    (approver_fields_written_only_by_approval ⟨[storedFoo], []⟩ (by decide)).1 50 forgedFoo,
    (approver_fields_written_only_by_approval ⟨[storedFoo], []⟩ (by decide)).2.1 50 51 1 Denied
      "mallory" (by decide),
    ((approver_fields_written_only_by_approval ⟨[storedFoo], []⟩ (by decide)).2.2 60 61
      { forgedFoo with ID := 0 }).1 storedFoo (List.mem_singleton.2 rfl) (Or.inl rfl),
    ((approver_fields_written_only_by_approval ⟨[storedFoo], []⟩ (by decide)).2.2 60 61
      { forgedFoo with ID := 0 }).2.trans (by decide)⟩

/-! ## `PopulateTopology`: the difference and its fixed point -/

theorem createTopologies_prefixes (table : List Topology) (toAdd : List String) :
    (createTopologies table toAdd).map Topology.Prefix =
      table.map Topology.Prefix ++ toAdd := by
  unfold createTopologies
  induction toAdd generalizing table with
  | nil => simp
  | cons p ps ih =>
    rw [List.foldl_cons, ih]
    simp

theorem mem_topologyDiff_fst (table : List Topology) (paths : List String) (p : String) :
    p ∈ (topologyDiff table paths).1 ↔ p ∈ paths ∧ p ∉ table.map Topology.Prefix := by
  simp [topologyDiff, mapKeys, List.mem_filter, List.mem_dedup]

theorem mem_topologyDiff_snd (table : List Topology) (paths : List String) (p : String) :
    p ∈ (topologyDiff table paths).2 ↔ p ∈ table.map Topology.Prefix ∧ p ∉ paths := by
  simp [topologyDiff, mapKeys, List.mem_filter, List.mem_dedup]

theorem topologyDiff_nodup (table : List Topology) (paths : List String) :
    (topologyDiff table paths).1.Nodup ∧ (topologyDiff table paths).2.Nodup := by
  unfold topologyDiff mapKeys
  exact ⟨(List.nodup_dedup _).filter _, (List.nodup_dedup _).filter _⟩

theorem mem_deleteTopologies (table : List Topology) (paths : List String) (p : String) :
    p ∈ (deleteTopologies table (topologyDiff table paths).2).map Topology.Prefix ↔
      p ∈ table.map Topology.Prefix ∧ p ∈ paths := by
  unfold deleteTopologies
  simp only [List.mem_map, List.mem_filter]
  constructor
  · rintro ⟨t, ⟨ht, hnd⟩, rfl⟩
    refine ⟨⟨t, ht, rfl⟩, ?_⟩
    by_contra hp
    have : t.Prefix ∈ (topologyDiff table paths).2 :=
      (mem_topologyDiff_snd table paths _).2 ⟨List.mem_map.2 ⟨t, ht, rfl⟩, hp⟩
    simp [this] at hnd
  · rintro ⟨⟨t, ht, rfl⟩, hp⟩
    refine ⟨t, ⟨ht, ?_⟩, rfl⟩
    have : t.Prefix ∉ (topologyDiff table paths).2 := fun h =>
      ((mem_topologyDiff_snd table paths _).1 h).2 hp
    simp [this]

/-- With a snapshot at hand `PopulateTopology` always commits: the rows it
inserts never break the `unique` constraint. -/
theorem PopulateTopology_ok (db : DB) (paths : List String) :
    PopulateTopology db (Except.ok paths) =
      (none,
        { namespaceTable := db.namespaceTable
          topologyTable := createTopologies
            (deleteTopologies db.topologyTable (topologyDiff db.topologyTable paths).2)
            (topologyDiff db.topologyTable paths).1 }) := by
  unfold PopulateTopology
  dsimp only
  by_cases hlen : 0 < (topologyDiff db.topologyTable paths).1.length
  · have hu : (topologyDiff db.topologyTable paths).1.Nodup ∧
        ∀ p ∈ (topologyDiff db.topologyTable paths).1,
          p ∉ (deleteTopologies db.topologyTable
            (topologyDiff db.topologyTable paths).2).map Topology.Prefix := by
      refine ⟨(topologyDiff_nodup _ _).1, fun p hp hq => ?_⟩
      exact ((mem_topologyDiff_fst _ _ p).1 hp).2 ((mem_deleteTopologies _ _ p).1 hq).1
    rw [if_pos hlen, if_pos hu]
  · have hnil : (topologyDiff db.topologyTable paths).1 = [] := by
      cases h : (topologyDiff db.topologyTable paths).1 with
      | nil => rfl
      | cons a l => rw [h] at hlen; simp at hlen
    rw [if_neg hlen, hnil]
    rfl

/-- C11: for every topology table and external snapshot, `toAdd` holds
exactly the paths of the snapshot that are no prefix of the table, `toDelete`
exactly the prefixes of the table that are no path of the snapshot, each
without duplicates and the two disjoint; the call succeeds, and afterwards the
prefixes of the table are exactly the paths of the snapshot. -/
theorem PopulateTopology_converges (db : DB) (paths : List String) :
    (∀ p, p ∈ (topologyDiff db.topologyTable paths).1 ↔
        p ∈ paths ∧ p ∉ db.topologyTable.map Topology.Prefix) ∧
      (∀ p, p ∈ (topologyDiff db.topologyTable paths).2 ↔
        p ∈ db.topologyTable.map Topology.Prefix ∧ p ∉ paths) ∧
      (topologyDiff db.topologyTable paths).1.Nodup ∧
      (topologyDiff db.topologyTable paths).2.Nodup ∧
      (∀ p, p ∈ (topologyDiff db.topologyTable paths).1 →
        p ∉ (topologyDiff db.topologyTable paths).2) ∧
      (PopulateTopology db (Except.ok paths)).1 = none ∧
      (∀ p, p ∈ (PopulateTopology db (Except.ok paths)).2.topologyTable.map Topology.Prefix ↔
        p ∈ paths) ∧
      (PopulateTopology db (Except.ok paths)).2.namespaceTable = db.namespaceTable := by
  refine ⟨mem_topologyDiff_fst _ _, mem_topologyDiff_snd _ _, (topologyDiff_nodup _ _).1,
    (topologyDiff_nodup _ _).2, ?_, ?_, ?_, ?_⟩
  · intro p h₁ h₂
    exact ((mem_topologyDiff_fst _ _ p).1 h₁).2 ((mem_topologyDiff_snd _ _ p).1 h₂).1
  · rw [PopulateTopology_ok]
  · intro p
    rw [PopulateTopology_ok]
    show p ∈ (createTopologies _ _).map Topology.Prefix ↔ _
    rw [createTopologies_prefixes, List.mem_append, mem_deleteTopologies, mem_topologyDiff_fst]
    constructor
    · rintro (h | h)
      · exact h.2
      · exact h.1
    · intro h
      by_cases hp : p ∈ db.topologyTable.map Topology.Prefix
      · exact Or.inl ⟨hp, h⟩
      · exact Or.inr ⟨h, hp⟩
  · rw [PopulateTopology_ok]

/-- C12: for every topology table and external snapshot, after one successful
`PopulateTopology` a second one against the same snapshot computes an empty
`toAdd` and an empty `toDelete`, succeeds, and leaves the database as it is. -/
theorem PopulateTopology_idempotent (db : DB) (paths : List String) :
    topologyDiff (PopulateTopology db (Except.ok paths)).2.topologyTable paths = ([], []) ∧
      PopulateTopology (PopulateTopology db (Except.ok paths)).2 (Except.ok paths) =
        (none, (PopulateTopology db (Except.ok paths)).2) := by
  have hconv := (PopulateTopology_converges db paths).2.2.2.2.2.2.1
  have hdiff :
      topologyDiff (PopulateTopology db (Except.ok paths)).2.topologyTable paths = ([], []) := by
    apply Prod.ext
    · apply List.eq_nil_iff_forall_not_mem.2
      intro p hp
      have := (mem_topologyDiff_fst _ _ p).1 hp
      exact this.2 ((hconv p).2 this.1)
    · apply List.eq_nil_iff_forall_not_mem.2
      intro p hp
      have := (mem_topologyDiff_snd _ _ p).1 hp
      exact this.2 ((hconv p).1 this.1)
  refine ⟨hdiff, ?_⟩
  rw [PopulateTopology_ok (PopulateTopology db (Except.ok paths)).2 paths, hdiff]
  simp [createTopologies, deleteTopologies]

/-! ## `getNamespacesByFilter`: what it rejects and how it matches -/

/-- C13: `getNamespacesByFilter` returns an error and no namespaces whenever
the filter has non-nil customFields, a non-empty identity or pubkey, a
non-zero approvedAt, updatedAt or createdAt, or the server type is none of
"origin", "cache" and ""; and when it returns an error, one of these holds,
or the filter's ID is non-zero, or the query itself failed in the store. -/
theorem getNamespacesByFilter_rejects
    (injected : String → ServerType → DB → Except String (List Namespace))
    (db : DB) (f : Namespace) (st : ServerType) :
    ((f.CustomFields ≠ none ∨ f.Identity ≠ "" ∨ f.Pubkey ≠ "" ∨
          f.AdminMetadata.ApprovedAt ≠ 0 ∨ f.AdminMetadata.UpdatedAt ≠ 0 ∨
          f.AdminMetadata.CreatedAt ≠ 0 ∨ (st ≠ "origin" ∧ st ≠ "cache" ∧ st ≠ "")) →
        (getNamespacesByFilter injected db f st).2 ≠ none ∧
          (getNamespacesByFilter injected db f st).1 = []) ∧
      ((getNamespacesByFilter injected db f st).2 ≠ none →
        (f.CustomFields ≠ none ∨ f.Identity ≠ "" ∨ f.Pubkey ≠ "" ∨
          f.AdminMetadata.ApprovedAt ≠ 0 ∨ f.AdminMetadata.UpdatedAt ≠ 0 ∨
          f.AdminMetadata.CreatedAt ≠ 0 ∨ (st ≠ "origin" ∧ st ≠ "cache" ∧ st ≠ "")) ∨
        f.ID ≠ 0 ∨ ∃ e, runFilterQuery injected db st f.Prefix = Except.error e) := by
  unfold getNamespacesByFilter
  by_cases h₁ : st ≠ CacheType ∧ st ≠ OriginType ∧ st ≠ ""
  · rw [if_pos h₁]
    have h₁' : st ≠ "origin" ∧ st ≠ "cache" ∧ st ≠ "" := ⟨h₁.2.1, h₁.1, h₁.2.2⟩
    exact ⟨fun _ => ⟨by simp, rfl⟩, fun _ => Or.inl (by simp [h₁'])⟩
  rw [if_neg h₁]
  have h₁' : ¬ (st ≠ "origin" ∧ st ≠ "cache" ∧ st ≠ "") := fun h => h₁ ⟨h.2.1, h.1, h.2.2⟩
  by_cases h₂ : f.CustomFields ≠ none
  · rw [if_pos h₂]
    exact ⟨fun _ => ⟨by simp, rfl⟩, fun _ => Or.inl (Or.inl h₂)⟩
  rw [if_neg h₂]
  by_cases h₃ : f.ID ≠ 0
  · rw [if_pos h₃]
    exact ⟨fun _ => ⟨by simp, rfl⟩, fun _ => Or.inr (Or.inl h₃)⟩
  rw [if_neg h₃]
  by_cases h₄ : f.Identity ≠ ""
  · rw [if_pos h₄]
    exact ⟨fun _ => ⟨by simp, rfl⟩, fun _ => Or.inl (Or.inr (Or.inl h₄))⟩
  rw [if_neg h₄]
  by_cases h₅ : f.Pubkey ≠ ""
  · rw [if_pos h₅]
    exact ⟨fun _ => ⟨by simp, rfl⟩, fun _ => Or.inl (Or.inr (Or.inr (Or.inl h₅)))⟩
  rw [if_neg h₅]
  by_cases h₆ : f.AdminMetadata.ApprovedAt ≠ 0 ∨ f.AdminMetadata.UpdatedAt ≠ 0 ∨
      f.AdminMetadata.CreatedAt ≠ 0
  · rw [if_pos h₆]
    refine ⟨fun _ => ⟨by simp, rfl⟩, fun _ => Or.inl ?_⟩
    rcases h₆ with h | h | h
    · exact Or.inr (Or.inr (Or.inr (Or.inl h)))
    · exact Or.inr (Or.inr (Or.inr (Or.inr (Or.inl h))))
    · exact Or.inr (Or.inr (Or.inr (Or.inr (Or.inr (Or.inl h)))))
  rw [if_neg h₆]
  have hnone : ¬ (f.CustomFields ≠ none ∨ f.Identity ≠ "" ∨ f.Pubkey ≠ "" ∨
      f.AdminMetadata.ApprovedAt ≠ 0 ∨ f.AdminMetadata.UpdatedAt ≠ 0 ∨
      f.AdminMetadata.CreatedAt ≠ 0 ∨ (st ≠ "origin" ∧ st ≠ "cache" ∧ st ≠ "")) := by
    rintro (h | h | h | h | h | h | h)
    · exact h₂ h
    · exact h₄ h
    · exact h₅ h
    · exact h₆ (Or.inl h)
    · exact h₆ (Or.inr (Or.inl h))
    · exact h₆ (Or.inr (Or.inr h))
    · exact h₁' h
  refine ⟨fun h => absurd h hnone, ?_⟩
  cases hq : runFilterQuery injected db st f.Prefix with
  | error e => exact fun _ => Or.inr (Or.inr ⟨e, rfl⟩)
  | ok rows => intro h; simp at h

/-- C13 at work: a filter on identity is refused, and so is the server type
"director". -/
theorem getNamespacesByFilter_rejects_witness :
    ((getNamespacesByFilter rejectInjected filterStore
          { emptyFilter with Identity := "client-1" } "").2 ≠ none ∧
        (getNamespacesByFilter rejectInjected filterStore
          { emptyFilter with Identity := "client-1" } "").1 = []) ∧
      ((getNamespacesByFilter rejectInjected filterStore emptyFilter "director").2 ≠ none ∧
        (getNamespacesByFilter rejectInjected filterStore emptyFilter "director").1 = []) :=
  ⟨(getNamespacesByFilter_rejects rejectInjected filterStore
      { emptyFilter with Identity := "client-1" } "").1 (Or.inr (Or.inl (by decide))),
    (getNamespacesByFilter_rejects rejectInjected filterStore emptyFilter "director").1
      (Or.inr (Or.inr (Or.inr (Or.inr (Or.inr (Or.inr (by decide)))))))⟩

theorem mem_filterQueryRows (db : DB) (st : ServerType) (pfx : String) (n : Namespace)
    (h : n ∈ filterQueryRows db st pfx) :
    ∃ r ∈ db.namespaceTable, n = { r with CustomFields := none } ∧
      (pfx ≠ "" → sqlLike r.Prefix ("%" ++ pfx ++ "%") = true) := by
  unfold filterQueryRows at h
  obtain ⟨r, hr, rfl⟩ := List.mem_map.1 h
  have hr' := (List.perm_insertionSort _ _).mem_iff.1 hr
  rw [List.mem_filter] at hr'
  refine ⟨r, hr'.1, rfl, fun hp => ?_⟩
  have h₂ := hr'.2
  simp only [Bool.and_eq_true] at h₂
  simpa [hp] using h₂.2

theorem getNamespacesByFilter_mem
    (injected : String → ServerType → DB → Except String (List Namespace))
    (db : DB) (f : Namespace) (st : ServerType) (n : Namespace)
    (h : n ∈ (getNamespacesByFilter injected db f st).1) :
    ∃ rows, runFilterQuery injected db st f.Prefix = Except.ok rows ∧ n ∈ rows ∧
      filterKeeps f n = true := by
  unfold getNamespacesByFilter at h
  split_ifs at h
  all_goals try (simp at h)
  cases hq : runFilterQuery injected db st f.Prefix with
  | error e => rw [hq] at h; simp at h
  | ok rows =>
    rw [hq] at h
    have h' := List.mem_filter.1 h
    exact ⟨rows, rfl, h'.1, h'.2⟩

theorem filterKeeps_true (f n : Namespace) (h : filterKeeps f n = true) :
    ¬ (f.AdminMetadata.UserID ≠ "" ∧ f.AdminMetadata.UserID ≠ n.AdminMetadata.UserID) ∧
      ¬ (f.AdminMetadata.Description ≠ "" ∧
        ¬ stringsContains n.AdminMetadata.Description f.AdminMetadata.Description) ∧
      ¬ (f.AdminMetadata.SiteName ≠ "" ∧
        ¬ stringsContains n.AdminMetadata.SiteName f.AdminMetadata.SiteName) ∧
      ¬ (f.AdminMetadata.Institution ≠ "" ∧
        f.AdminMetadata.Institution ≠ n.AdminMetadata.Institution) ∧
      ¬ (f.AdminMetadata.SecurityContactUserID ≠ "" ∧
        f.AdminMetadata.SecurityContactUserID ≠ n.AdminMetadata.SecurityContactUserID) ∧
      ¬ (f.AdminMetadata.Status ≠ "" ∧
        (if f.AdminMetadata.Status = Unknown then
          n.AdminMetadata.Status ≠ "" ∧ n.AdminMetadata.Status ≠ Unknown
        else f.AdminMetadata.Status ≠ n.AdminMetadata.Status)) ∧
      ¬ (f.AdminMetadata.ApproverID ≠ "" ∧
        f.AdminMetadata.ApproverID ≠ n.AdminMetadata.ApproverID) := by
  unfold filterKeeps at h
  by_cases k₁ : f.AdminMetadata.UserID ≠ "" ∧ f.AdminMetadata.UserID ≠ n.AdminMetadata.UserID
  · rw [if_pos k₁] at h; cases h
  rw [if_neg k₁] at h
  by_cases k₂ : f.AdminMetadata.Description ≠ "" ∧
      ¬ stringsContains n.AdminMetadata.Description f.AdminMetadata.Description
  · rw [if_pos k₂] at h; cases h
  rw [if_neg k₂] at h
  by_cases k₃ : f.AdminMetadata.SiteName ≠ "" ∧
      ¬ stringsContains n.AdminMetadata.SiteName f.AdminMetadata.SiteName
  · rw [if_pos k₃] at h; cases h
  rw [if_neg k₃] at h
  by_cases k₄ : f.AdminMetadata.Institution ≠ "" ∧
      f.AdminMetadata.Institution ≠ n.AdminMetadata.Institution
  · rw [if_pos k₄] at h; cases h
  rw [if_neg k₄] at h
  by_cases k₅ : f.AdminMetadata.SecurityContactUserID ≠ "" ∧
      f.AdminMetadata.SecurityContactUserID ≠ n.AdminMetadata.SecurityContactUserID
  · rw [if_pos k₅] at h; cases h
  rw [if_neg k₅] at h
  by_cases k₆ : f.AdminMetadata.Status ≠ "" ∧
      (if f.AdminMetadata.Status = Unknown then
        n.AdminMetadata.Status ≠ "" ∧ n.AdminMetadata.Status ≠ Unknown
      else f.AdminMetadata.Status ≠ n.AdminMetadata.Status)
  · rw [if_pos k₆] at h; cases h
  rw [if_neg k₆] at h
  by_cases k₇ : f.AdminMetadata.ApproverID ≠ "" ∧
      f.AdminMetadata.ApproverID ≠ n.AdminMetadata.ApproverID
  · rw [if_pos k₇] at h; cases h
  exact ⟨k₁, k₂, k₃, k₄, k₅, k₆, k₇⟩

/-- C14 as stated fails for the prefix: the query matches it with
`like '%' + prefix + '%'`. The filter prefix "/foo" also returns "/foobar",
and the filter prefix "/FOO", which no stored prefix equals, returns "/foo"
and "/foobar". -/
theorem filter_matches_prefix_inexactly :
    filterStore.namespaceTable.map Namespace.Prefix = ["/foo", "/caches/c1", "/foobar"] ∧
      (getNamespacesByFilter rejectInjected filterStore
        { emptyFilter with Prefix := "/foo" } "").1.map Namespace.Prefix = ["/foo", "/foobar"] ∧
      (getNamespacesByFilter rejectInjected filterStore
        { emptyFilter with Prefix := "/FOO" } "").1.map Namespace.Prefix = ["/foo", "/foobar"] := by
  decide

/-- C14, amended: every namespace `getNamespacesByFilter` returns agrees with
the filter as follows. A non-empty userID, institution, securityContactUserID
or approverID of the filter equals that of the namespace; a non-empty status
other than "Unknown" equals that of the namespace; a non-empty description or
siteName occurs inside that of the namespace; and a non-empty prefix without
single quote is matched by the pattern `'%' + prefix + '%'` of `LIKE`. -/
theorem filter_match_rules
    (injected : String → ServerType → DB → Except String (List Namespace))
    (db : DB) (f : Namespace) (st : ServerType) (n : Namespace)
    (h : n ∈ (getNamespacesByFilter injected db f st).1) :
    (f.AdminMetadata.UserID ≠ "" → n.AdminMetadata.UserID = f.AdminMetadata.UserID) ∧
      (f.AdminMetadata.Institution ≠ "" →
        n.AdminMetadata.Institution = f.AdminMetadata.Institution) ∧
      (f.AdminMetadata.SecurityContactUserID ≠ "" →
        n.AdminMetadata.SecurityContactUserID = f.AdminMetadata.SecurityContactUserID) ∧
      (f.AdminMetadata.ApproverID ≠ "" →
        n.AdminMetadata.ApproverID = f.AdminMetadata.ApproverID) ∧
      (f.AdminMetadata.Status ≠ "" → f.AdminMetadata.Status ≠ Unknown →
        n.AdminMetadata.Status = f.AdminMetadata.Status) ∧
      (f.AdminMetadata.Description ≠ "" →
        stringsContains n.AdminMetadata.Description f.AdminMetadata.Description = true) ∧
      (f.AdminMetadata.SiteName ≠ "" →
        stringsContains n.AdminMetadata.SiteName f.AdminMetadata.SiteName = true) ∧
      (f.Prefix ≠ "" → f.Prefix.data.contains singleQuote = false →
        sqlLike n.Prefix ("%" ++ f.Prefix ++ "%") = true) := by
  obtain ⟨rows, hq, hn, hk⟩ := getNamespacesByFilter_mem injected db f st n h
  obtain ⟨k₁, k₂, k₃, k₄, k₅, k₆, k₇⟩ := filterKeeps_true f n hk
  refine ⟨?_, ?_, ?_, ?_, ?_, ?_, ?_, ?_⟩
  · intro hf; by_contra hne; exact k₁ ⟨hf, fun e => hne e.symm⟩
  · intro hf; by_contra hne; exact k₄ ⟨hf, fun e => hne e.symm⟩
  · intro hf; by_contra hne; exact k₅ ⟨hf, fun e => hne e.symm⟩
  · intro hf; by_contra hne; exact k₇ ⟨hf, fun e => hne e.symm⟩
  · intro hf hu
    by_contra hne
    apply k₆
    refine ⟨hf, ?_⟩
    rw [if_neg hu]
    exact fun e => hne e.symm
  · intro hf; by_contra hne; exact k₂ ⟨hf, hne⟩
  · intro hf; by_contra hne; exact k₃ ⟨hf, hne⟩
  · intro hf hquote
    unfold runFilterQuery at hq
    rw [if_neg (by rw [hquote]; simp)] at hq
    injection hq with hq
    subst hq
    obtain ⟨r, -, rfl, hlike⟩ := mem_filterQueryRows db st f.Prefix n hn
    exact hlike hf

/-- C14 amended, at work: the filter on userID "bob" and description "ache"
returns the cache namespace, whose userID is "bob"; the filter on the status
"Pending" returns "/foo", whose status is "Pending". -/
theorem filter_match_rules_witness :
    (getNamespacesByFilter rejectInjected filterStore
        { emptyFilter with
          AdminMetadata :=
            { emptyFilter.AdminMetadata with UserID := "bob", Description := "ache" } }
        "cache").1.map Namespace.Prefix = ["/caches/c1"] ∧
      (∀ n ∈ (getNamespacesByFilter rejectInjected filterStore
        { emptyFilter with
          AdminMetadata :=
            { emptyFilter.AdminMetadata with UserID := "bob", Description := "ache" } }
        "cache").1, n.AdminMetadata.UserID = "bob") ∧
      (getNamespacesByFilter rejectInjected filterStore (statusFilter Pending) "").1.map
        Namespace.Prefix = ["/foo"] ∧
      (∀ n ∈ (getNamespacesByFilter rejectInjected filterStore (statusFilter Pending) "").1,
        n.AdminMetadata.Status = Pending) :=
  ⟨by decide, fun n hn =>
    (filter_match_rules rejectInjected filterStore
      { emptyFilter with
        AdminMetadata :=
          { emptyFilter.AdminMetadata with UserID := "bob", Description := "ache" } }
      "cache" n hn).1 (by decide),
    by decide, fun n hn =>
    (filter_match_rules rejectInjected filterStore (statusFilter Pending) "" n hn).2.2.2.2.1
      (by decide) (by decide)⟩

/-! ## `TokenScope.Path` -/

theorem storage_condition (names : List String) (s : TokenScope) :
    (storageScopes names).foldr (fun c rest => decide (s = c) || rest) false = true ↔
      s ∈ storageScopes names := by
  induction storageScopes names with
  | nil => simp
  | cons c cs ih => simp [List.foldr_cons, ih]

/-- C15: for every scope description, scope `s` and path `p`: when `s` is one
of the storage constants (a scope name of the description beginning with
"storage"), `s.Path(p)` is `s + ":" + p` with no error; for every other scope
it is the empty scope with an error, and so for a storage scope that already
carries a path qualifier, unless that string is itself a scope name of the
description. -/
theorem TokenScope_Path_storage_only (names : List String) (s : TokenScope) (p q : String) :
    (s ∈ storageScopes names ↔ s ∈ names ∧ "storage".data <+: s.data) ∧
      (s ∈ storageScopes names → TokenScope.Path names s p = (s ++ ":" ++ p, none)) ∧
      (s ∉ storageScopes names →
        TokenScope.Path names s p =
          ("", some "cannot assign path to non-storage token scope")) ∧
      (s ++ ":" ++ p ∉ names →
        TokenScope.Path names (s ++ ":" ++ p) q =
          ("", some "cannot assign path to non-storage token scope")) := by
  have hmem : ∀ x : TokenScope, x ∈ storageScopes names ↔
      x ∈ names ∧ "storage".data <+: x.data := by
    intro x
    simp [storageScopes, List.mem_filter, List.isPrefixOf_iff_prefix]
  have hno : ∀ x : TokenScope, x ∉ storageScopes names →
      ∀ y, TokenScope.Path names x y =
        ("", some "cannot assign path to non-storage token scope") := by
    intro x hx y
    unfold TokenScope.Path
    rw [if_pos]
    rw [storage_condition]
    exact hx
  refine ⟨hmem s, ?_, fun h => hno s h p, fun h => hno _ (fun hm => h ((hmem _).1 hm).1) q⟩
  intro hs
  unfold TokenScope.Path
  rw [if_neg]
  rw [storage_condition]
  exact fun h => h hs

/-- C15 at work on a description with four storage scopes. -/
theorem TokenScope_Path_storage_only_witness :
    TokenScope.Path exampleScopeNames "storage.read" "/foo/bar" =
        ("storage.read:/foo/bar", none) ∧
      TokenScope.Path exampleScopeNames "broker.reflect" "/foo/bar" =
        ("", some "cannot assign path to non-storage token scope") ∧
      TokenScope.Path exampleScopeNames ("storage.read" ++ ":" ++ "/foo") "/bar" =
        ("", some "cannot assign path to non-storage token scope") :=
  ⟨(TokenScope_Path_storage_only exampleScopeNames "storage.read" "/foo/bar" "").2.1
      (by decide),
    (TokenScope_Path_storage_only exampleScopeNames "broker.reflect" "/foo/bar" "").2.2.1
      (by decide),
    (TokenScope_Path_storage_only exampleScopeNames "storage.read" "/foo" "/bar").2.2.2
      (by decide)⟩

/-! ## `getCacheHostnameFromToken` -/

theorem stringsCutPrefix_hit (s pfx : String) (h : pfx.data <+: s.data) :
    (stringsCutPrefix s pfx).2 = true ∧ pfx ++ (stringsCutPrefix s pfx).1 = s := by
  unfold stringsCutPrefix
  rw [if_pos (List.isPrefixOf_iff_prefix.2 h)]
  refine ⟨rfl, ?_⟩
  obtain ⟨t, ht⟩ := h
  apply String.ext
  rw [String.data_append, ← ht]
  simp

theorem stringsCutPrefix_miss (s pfx : String) (h : ¬ pfx.data <+: s.data) :
    stringsCutPrefix s pfx = (s, false) := by
  unfold stringsCutPrefix
  rw [if_neg (fun hp => h (List.isPrefixOf_iff_prefix.1 hp))]

/-- C16: with `E` the value of `getRegistryIssValue("/caches")`, for every
token that parses, with issuer claim `iss`: `getCacheHostnameFromToken` fails
exactly when `iss` does not start with `E`; when it starts with `E` the
result `r` satisfies `E + r = iss`; and two tokens with the same issuer claim
give the same result, whatever their signature, expiry and other claims. -/
theorem getCacheHostnameFromToken_strips_issuer (env : BrokerEnv) (E : String)
    (tok : Token) (hE : getRegistryIssValue env "/caches" = Except.ok E) :
    ((getCacheHostnameFromToken env tok).2 ≠ none ↔ ¬ E.data <+: tok.iss.data) ∧
      (E.data <+: tok.iss.data →
        (getCacheHostnameFromToken env tok).2 = none ∧
          E ++ (getCacheHostnameFromToken env tok).1 = tok.iss) ∧
      (∀ tok₁ : Token, tok₁.iss = tok.iss →
        getCacheHostnameFromToken env tok₁ = getCacheHostnameFromToken env tok) := by
  have hyes : E.data <+: tok.iss.data →
      (getCacheHostnameFromToken env tok).2 = none ∧
        E ++ (getCacheHostnameFromToken env tok).1 = tok.iss := by
    intro hp
    obtain ⟨h₁, h₂⟩ := stringsCutPrefix_hit tok.iss E hp
    unfold getCacheHostnameFromToken
    rw [hE]
    dsimp only
    generalize stringsCutPrefix tok.iss E = c at h₁ h₂
    obtain ⟨r, b⟩ := c
    simp only at h₁ h₂
    subst h₁
    exact ⟨rfl, h₂⟩
  refine ⟨⟨fun herr hp => herr (hyes hp).1, fun hp => ?_⟩, hyes, fun tok₁ h₁ => ?_⟩
  · unfold getCacheHostnameFromToken
    rw [hE]
    dsimp only
    rw [stringsCutPrefix_miss _ _ hp]
    simp
  · unfold getCacheHostnameFromToken
    rw [h₁]

/-- C16 at work: the issuer of a token minted for "/caches/c1.example" starts
with the issuer of "/caches"; what is left is "/c1.example". -/
theorem getCacheHostnameFromToken_strips_issuer_witness :
    getRegistryIssValue exampleEnv "/caches" =
        Except.ok "https://registry.example/api/v1.0/registry/caches" ∧
      (getCacheHostnameFromToken exampleEnv
          { iss := "https://registry.example/api/v1.0/registry/caches/c1.example"
            aud := [], sub := "", scope := "", ver := "", iat := 0, exp := 0,
            signedWith := 0 }).2 = none ∧
      "https://registry.example/api/v1.0/registry/caches" ++
          (getCacheHostnameFromToken exampleEnv
            { iss := "https://registry.example/api/v1.0/registry/caches/c1.example"
              aud := [], sub := "", scope := "", ver := "", iat := 0, exp := 0,
              signedWith := 0 }).1 =
        "https://registry.example/api/v1.0/registry/caches/c1.example" :=
  ⟨rfl,
    (getCacheHostnameFromToken_strips_issuer exampleEnv
      "https://registry.example/api/v1.0/registry/caches"
      { iss := "https://registry.example/api/v1.0/registry/caches/c1.example"
        aud := [], sub := "", scope := "", ver := "", iat := 0, exp := 0, signedWith := 0 }
      rfl).2.1 (by decide)⟩

/-! ## Custom-field conversion on read -/

theorem convertCustomFields_some (kvs : List (String × CFValue)) :
    convertCustomFields (some kvs) = some (kvs.map (fun kv => (kv.1, convertValue kv.2))) := by
  show some _ = some _
  congr 1
  apply List.map_congr_left
  rintro ⟨k, v⟩ -
  cases v <;> rfl

theorem oneAndAHalf_eq : oneAndAHalf = 3 / 2 := by
  have h := Rat.num_div_den oneAndAHalf
  have hn : oneAndAHalf.num = 3 := rfl
  have hd : oneAndAHalf.den = 2 := rfl
  rw [hn, hd] at h
  rw [← h]
  norm_num

theorem tdiv_eq_floor_or_ceil (q : ℚ) :
    Int.tdiv q.num q.den = if 0 ≤ q then ⌊q⌋ else ⌈q⌉ := by
  by_cases h : 0 ≤ q
  · rw [if_pos h, Rat.floor_def, Int.tdiv_eq_ediv (Rat.num_nonneg.2 h) (by positivity)]
  · rw [if_neg h]
    have hq : ⌈q⌉ = -⌊-q⌋ := by rw [Int.floor_neg, neg_neg]
    have hneg : 0 ≤ (-q).num := by
      rw [Rat.num_nonneg]
      linarith [not_le.1 h]
    rw [hq, Rat.floor_def, ← Int.tdiv_eq_ediv hneg (by positivity), Rat.num_neg_eq_neg_num,
      Rat.den_neg_eq_den, Int.neg_tdiv, neg_neg]

theorem floatToInt_of_range (q : ℚ) (hlo : -(2 : ℚ) ^ 63 ≤ q) (hhi : q < (2 : ℚ) ^ 63) :
    floatToInt q = if 0 ≤ q then ⌊q⌋ else ⌈q⌉ := by
  have ht := tdiv_eq_floor_or_ceil q
  have hrange : -(2 ^ 63) ≤ Int.tdiv q.num q.den ∧ Int.tdiv q.num q.den < 2 ^ 63 := by
    rw [ht]
    by_cases h : 0 ≤ q
    · rw [if_pos h]
      constructor
      · have : (0 : Int) ≤ ⌊q⌋ := Int.floor_nonneg.2 h
        omega
      · rw [Int.floor_lt]
        push_cast
        exact hhi
    · rw [if_neg h]
      constructor
      · rw [Int.le_ceil_iff]
        push_cast
        linarith
      · have : ⌈q⌉ ≤ 0 := Int.ceil_le.2 (by push_cast; linarith [not_le.1 h])
        omega
  unfold floatToInt
  dsimp only
  rw [if_pos hrange, ht]

theorem floatToInt_intCast (k : Int) (hlo : -(2 ^ 63) ≤ k) (hhi : k < 2 ^ 63) :
    floatToInt (k : ℚ) = k := by
  rw [floatToInt_of_range (k : ℚ) (by exact_mod_cast hlo) (by exact_mod_cast hhi)]
  by_cases h : (0 : ℚ) ≤ k
  · rw [if_pos h, Int.floor_intCast]
  · rw [if_neg h, Int.ceil_intCast]

theorem float64OfInt_small (n : Int) (h : n.natAbs < 2 ^ 53) : float64OfInt n = n := by
  unfold float64OfInt
  dsimp only
  rw [if_pos h]

theorem mem_insertionSort_iff (l : List Namespace) (r : Namespace) :
    r ∈ l.insertionSort (fun a b => a.ID ≤ b.ID) ↔ r ∈ l :=
  (List.perm_insertionSort _ l).mem_iff

theorem getNamespaceById_shape (db : DB) (id : Int) (n : Namespace)
    (h : getNamespaceById db id = Except.ok n) :
    ∃ r ∈ db.namespaceTable,
      n = { r with CustomFields := convertCustomFields r.CustomFields } := by
  unfold getNamespaceById at h
  by_cases hlt : id < 1
  · rw [if_pos hlt] at h; cases h
  · rw [if_neg hlt] at h
    cases hl : (db.namespaceTable.filter (fun r => r.ID = id)).getLast? with
    | none => rw [hl] at h; cases h
    | some e =>
      rw [hl] at h
      have hmem := (List.mem_filter.1 (List.mem_of_getLast?_eq_some hl)).1
      injection h with h
      exact ⟨e, hmem, h.symm⟩

theorem getNamespaceByPrefix_shape (db : DB) (pfx : String) (n : Namespace)
    (h : getNamespaceByPrefix db pfx = Except.ok n) :
    ∃ r ∈ db.namespaceTable,
      n = { r with CustomFields := convertCustomFields r.CustomFields } := by
  unfold getNamespaceByPrefix at h
  by_cases hp : pfx = ""
  · rw [if_pos hp] at h; cases h
  · rw [if_neg hp] at h
    cases hl : ((db.namespaceTable.filter (fun r => r.Prefix = pfx)).insertionSort
        (fun a b => a.ID ≤ b.ID)).getLast? with
    | none => rw [hl] at h; cases h
    | some e =>
      rw [hl] at h
      have hmem := (List.mem_filter.1
        ((mem_insertionSort_iff _ e).1 (List.mem_of_getLast?_eq_some hl))).1
      injection h with h
      exact ⟨e, hmem, h.symm⟩

/-- An integer of more than 53 binary digits written to a custom field comes
back as the nearest `float64`, converted to `int`: 2^53 + 1 is read as 2^53. -/
theorem long_integer_is_rounded_on_read :
    (getNamespaceById
        (AddNamespace ⟨[], []⟩ 1 1
          { storedFoo with
            ID := 0, CustomFields := some [("n", CFValue.int 9007199254740993)] }).2
        1).toOption.map Namespace.CustomFields =
      some (some [("n", CFValue.int 9007199254740992)]) := by
  decide

/-- C20 as stated fails on non-whole numbers: the stored custom field
"ratio" = 1.5 is returned as the integer 1 by `getNamespaceById`,
`getNamespaceByPrefix` and `getAllNamespaces` alike, next to the whole number
4, the string and the boolean, which come back as 4, "x" and true. -/
theorem non_whole_custom_field_is_truncated :
    (getNamespaceById customFieldStore 1).toOption.map Namespace.CustomFields =
        some (some [("slots", CFValue.int 4), ("ratio", CFValue.int 1),
          ("site", CFValue.str "x"), ("public", CFValue.bool true)]) ∧
      (getNamespaceByPrefix customFieldStore "/foo").toOption.map Namespace.CustomFields =
        some (some [("slots", CFValue.int 4), ("ratio", CFValue.int 1),
          ("site", CFValue.str "x"), ("public", CFValue.bool true)]) ∧
      (getAllNamespaces customFieldStore).1.map Namespace.CustomFields =
        [some [("slots", CFValue.int 4), ("ratio", CFValue.int 1),
          ("site", CFValue.str "x"), ("public", CFValue.bool true)]] := by
  decide

theorem convertCustomFields_eq (cf : Option (List (String × CFValue))) :
    convertCustomFields cf = cf.map (List.map (fun kv => (kv.1, convertValue kv.2))) := by
  cases cf with
  | none => rfl
  | some kvs => exact convertCustomFields_some kvs

/-- C20, amended: every namespace returned by `getNamespaceById`,
`getNamespaceByPrefix` and `getAllNamespaces` is a stored record whose
custom-field values have each been converted: a value decoded as a
floating-point number (the `float64` the decoder yields) that lies within the
range of the 64-bit `int` becomes the integer obtained by cutting off its
fraction (toward zero), so a whole number in that range becomes that number;
strings and booleans are returned as decoded. On a table with unique ids,
each namespace that `getAllNamespaces` returns with an id of at least 1 is the
namespace `getNamespaceById` returns for that id. -/
theorem custom_fields_truncated_on_read (db : DB) :
    (∀ id n, getNamespaceById db id = Except.ok n →
        ∃ r ∈ db.namespaceTable, n.CustomFields =
          r.CustomFields.map (List.map (fun kv => (kv.1, convertValue kv.2)))) ∧
      (∀ pfx n, getNamespaceByPrefix db pfx = Except.ok n →
        ∃ r ∈ db.namespaceTable, n.CustomFields =
          r.CustomFields.map (List.map (fun kv => (kv.1, convertValue kv.2)))) ∧
      (∀ n ∈ (getAllNamespaces db).1,
        ∃ r ∈ db.namespaceTable, n.CustomFields =
          r.CustomFields.map (List.map (fun kv => (kv.1, convertValue kv.2)))) ∧
      (∀ q : ℚ, -(2 : ℚ) ^ 63 ≤ q → q < (2 : ℚ) ^ 63 →
        convertValue (CFValue.float q) = CFValue.int (if 0 ≤ q then ⌊q⌋ else ⌈q⌉)) ∧
      (∀ k : Int, -(2 ^ 63) ≤ k → k < 2 ^ 63 →
        convertValue (CFValue.float k) = CFValue.int k) ∧
      (∀ s : String, convertValue (CFValue.str s) = CFValue.str s) ∧
      (∀ b : Bool, convertValue (CFValue.bool b) = CFValue.bool b) ∧
      (db.uniqueIds → ∀ m ∈ (getAllNamespaces db).1, 1 ≤ m.ID →
        getNamespaceById db m.ID = Except.ok m) := by
  refine ⟨?_, ?_, ?_, ?_, ?_, fun _ => rfl, fun _ => rfl, ?_⟩
  · intro id n h
    obtain ⟨r, hr, rfl⟩ := getNamespaceById_shape db id n h
    exact ⟨r, hr, convertCustomFields_eq _⟩
  · intro pfx n h
    obtain ⟨r, hr, rfl⟩ := getNamespaceByPrefix_shape db pfx n h
    exact ⟨r, hr, convertCustomFields_eq _⟩
  · intro n hn
    obtain ⟨r, hr, rfl⟩ := List.mem_map.1 hn
    exact ⟨r, (mem_insertionSort_iff _ r).1 hr, convertCustomFields_eq _⟩
  · intro q hlo hhi
    show CFValue.int (floatToInt q) = _
    rw [floatToInt_of_range q hlo hhi]
  · intro k hlo hhi
    show CFValue.int (floatToInt (k : ℚ)) = _
    rw [floatToInt_intCast k hlo hhi]
  · intro hu m hm hid
    obtain ⟨r, hr, rfl⟩ := List.mem_map.1 hm
    exact getNamespaceById_of_mem db r hu ((mem_insertionSort_iff _ r).1 hr) hid

/-- C20 amended, at work: the namespace `getAllNamespaces` returns for the
store with custom fields is the one `getNamespaceById` returns for id 1; the
number 1.5 is within the range of `int` and becomes 1, and the whole number 4
becomes 4. -/
theorem custom_fields_truncated_on_read_witness :
    customFieldStore.uniqueIds ∧
      (∀ m ∈ (getAllNamespaces customFieldStore).1, 1 ≤ m.ID →
        getNamespaceById customFieldStore m.ID = Except.ok m) ∧
      (-(2 : ℚ) ^ 63 ≤ oneAndAHalf ∧ oneAndAHalf < (2 : ℚ) ^ 63) ∧
      convertValue (CFValue.float oneAndAHalf) =
        CFValue.int (if 0 ≤ oneAndAHalf then ⌊oneAndAHalf⌋ else ⌈oneAndAHalf⌉) ∧
      convertValue (CFValue.float ((4 : Int) : ℚ)) = CFValue.int 4 :=
  ⟨by decide, (custom_fields_truncated_on_read customFieldStore).2.2.2.2.2.2.2 (by decide),
    ⟨by rw [oneAndAHalf_eq]; norm_num, by rw [oneAndAHalf_eq]; norm_num⟩,
    (custom_fields_truncated_on_read customFieldStore).2.2.2.1 oneAndAHalf
      (by rw [oneAndAHalf_eq]; norm_num) (by rw [oneAndAHalf_eq]; norm_num),
    (custom_fields_truncated_on_read customFieldStore).2.2.2.2.1 4 (by decide) (by decide)⟩

/-! ## `getRegistryIssuerInfo` and the map `namespaceKeys` -/

theorem lookup_touch_other (keys : NamespaceKeys) (pfx q : String) (t : Time)
    (hq : q ≠ pfx) :
    (keys.map (fun kv =>
        if kv.1 = pfx then (kv.1, { kv.2 with expiresAt := t }) else kv)).lookup q =
      keys.lookup q := by
  induction keys with
  | nil => rfl
  | cons kv rest ih =>
    obtain ⟨k, v⟩ := kv
    by_cases hk : k = pfx
    · have hqk : (q == k) = false := by
        rw [beq_eq_false_iff_ne]; rw [hk]; exact hq
      simp only [List.map_cons, hk, if_true, List.lookup_cons]
      rw [hk] at hqk
      rw [hqk]
      simpa [hk] using ih
    · simp only [List.map_cons, hk, if_false, List.lookup_cons]
      rw [ih]

theorem lookup_touch_self (keys : NamespaceKeys) (pfx : String) (t : Time) :
    (keys.map (fun kv =>
        if kv.1 = pfx then (kv.1, { kv.2 with expiresAt := t }) else kv)).lookup pfx =
      (keys.lookup pfx).map (fun item => { item with expiresAt := t }) := by
  induction keys with
  | nil => rfl
  | cons kv rest ih =>
    obtain ⟨k, v⟩ := kv
    by_cases hk : k = pfx
    · subst hk
      simp [List.lookup_cons]
    · have hne : (pfx == k) = false := by
        rw [beq_eq_false_iff_ne]; exact fun h => hk h.symm
      simp only [List.map_cons, hk, if_false, List.lookup_cons, hne]
      exact ih

theorem lookup_filter_other (keys : NamespaceKeys) (pfx q : String) (hq : q ≠ pfx) :
    (keys.filter (fun kv => kv.1 ≠ pfx)).lookup q = keys.lookup q := by
  induction keys with
  | nil => rfl
  | cons kv rest ih =>
    obtain ⟨k, v⟩ := kv
    by_cases hk : k = pfx
    · have hqk : (q == k) = false := by
        rw [beq_eq_false_iff_ne]; rw [hk]; exact hq
      have hd : decide ((k, v).1 ≠ pfx) = false := by simp [hk]
      rw [List.filter_cons, hd, if_neg (by simp), List.lookup_cons, hqk]
      exact ih
    · have hd : decide ((k, v).1 ≠ pfx) = true := by simp [hk]
      rw [List.filter_cons, hd, if_pos rfl, List.lookup_cons, List.lookup_cons, ih]

theorem namespaceKeysGet_other (now : Time) (keys : NamespaceKeys) (pfx q : String)
    (hq : q ≠ pfx) : (namespaceKeysGet now keys pfx).2.lookup q = keys.lookup q := by
  unfold namespaceKeysGet
  cases hl : keys.lookup pfx with
  | none => rfl
  | some item =>
    by_cases he : item.expiresAt < now
    · simp only [if_pos he]
    · simp only [if_neg he]
      exact lookup_touch_other keys pfx q _ hq

theorem namespaceKeysGet_miss (now : Time) (keys : NamespaceKeys) (pfx : String)
    (h : (namespaceKeysGet now keys pfx).1 = none) :
    (namespaceKeysGet now keys pfx).2 = keys := by
  unfold namespaceKeysGet at h ⊢
  cases hl : keys.lookup pfx with
  | none => rfl
  | some item =>
    rw [hl] at h
    by_cases he : item.expiresAt < now
    · simp only [if_pos he]
    · simp only [if_neg he] at h
      cases h

theorem namespaceKeysGet_hit (now : Time) (keys : NamespaceKeys) (pfx : String)
    (ar : JwkCache) (h : (namespaceKeysGet now keys pfx).1 = some ar) :
    ∃ old, keys.lookup pfx = some old ∧ old.value = ar ∧
      (namespaceKeysGet now keys pfx).2.lookup pfx =
        some { value := ar, expiresAt := now + namespaceKeysTTL } := by
  unfold namespaceKeysGet at h ⊢
  cases hl : keys.lookup pfx with
  | none => rw [hl] at h; cases h
  | some item =>
    rw [hl] at h
    by_cases he : item.expiresAt < now
    · simp only [if_pos he] at h
      cases h
    · simp only [if_neg he] at h ⊢
      injection h with h
      refine ⟨item, rfl, h, ?_⟩
      rw [lookup_touch_self, hl, ← h]
      rfl

theorem namespaceKeysSet_lookup (now : Time) (keys : NamespaceKeys) (pfx : String)
    (ar : JwkCache) :
    (namespaceKeysSet now keys pfx ar).lookup pfx =
        some { value := ar, expiresAt := now + namespaceKeysTTL } ∧
      ∀ q, q ≠ pfx → (namespaceKeysSet now keys pfx ar).lookup q = keys.lookup q := by
  unfold namespaceKeysSet
  refine ⟨by simp [List.lookup_cons], fun q hq => ?_⟩
  have hqk : (q == pfx) = false := by rw [beq_eq_false_iff_ne]; exact hq
  rw [List.lookup_cons, hqk]
  exact lookup_filter_other keys pfx q hq

theorem issuerInfo_of_iss_error (env : BrokerEnv) (now : Time) (keys : NamespaceKeys)
    (pfx e : String) (h : getRegistryIssValue env pfx = Except.error e) :
    getRegistryIssuerInfo env now keys pfx = (Except.error e, keys) := by
  unfold getRegistryIssuerInfo
  rw [h]

theorem lookup_pointee_self (keys : NamespaceKeys) (pfx : String) (ar : JwkCache) :
    (namespaceKeysPointee keys pfx ar).lookup pfx =
      (keys.lookup pfx).map (fun item => { item with value := ar }) := by
  unfold namespaceKeysPointee
  induction keys with
  | nil => rfl
  | cons kv rest ih =>
    obtain ⟨k, v⟩ := kv
    by_cases hk : k = pfx
    · subst hk
      simp [List.lookup_cons]
    · have hne : (pfx == k) = false := by
        rw [beq_eq_false_iff_ne]; exact fun h => hk h.symm
      simp only [List.map_cons, hk, if_false, List.lookup_cons, hne]
      exact ih

theorem lookup_pointee_other (keys : NamespaceKeys) (pfx q : String) (ar : JwkCache)
    (hq : q ≠ pfx) : (namespaceKeysPointee keys pfx ar).lookup q = keys.lookup q := by
  unfold namespaceKeysPointee
  induction keys with
  | nil => rfl
  | cons kv rest ih =>
    obtain ⟨k, v⟩ := kv
    by_cases hk : k = pfx
    · have hqk : (q == k) = false := by
        rw [beq_eq_false_iff_ne]; rw [hk]; exact hq
      simp only [List.map_cons, hk, if_true, List.lookup_cons]
      rw [hk] at hqk
      rw [hqk]
      simpa [hk] using ih
    · simp only [List.map_cons, hk, if_false, List.lookup_cons]
      rw [ih]

theorem issuerInfo_of_hit (env : BrokerEnv) (now : Time) (keys : NamespaceKeys)
    (pfx iss : String) (ar : JwkCache) (h : getRegistryIssValue env pfx = Except.ok iss)
    (hg : (namespaceKeysGet now keys pfx).1 = some ar) :
    getRegistryIssuerInfo env now keys pfx =
      ((jwkCacheGet env ar (iss ++ "/.well-known/issuer.jwks")).1.map
          (fun keyset => (iss, keyset)),
        namespaceKeysPointee (namespaceKeysGet now keys pfx).2 pfx
          (jwkCacheGet env ar (iss ++ "/.well-known/issuer.jwks")).2) := by
  unfold getRegistryIssuerInfo
  rw [h]
  dsimp only
  generalize namespaceKeysGet now keys pfx = g at hg
  obtain ⟨o, k⟩ := g
  simp only at hg
  subst hg
  rfl

theorem issuerInfo_of_miss (env : BrokerEnv) (now : Time) (keys : NamespaceKeys)
    (pfx iss : String) (h : getRegistryIssValue env pfx = Except.ok iss)
    (hg : (namespaceKeysGet now keys pfx).1 = none) :
    getRegistryIssuerInfo env now keys pfx =
      if env.registerFails (iss ++ "/.well-known/issuer.jwks") then
        (Except.error "failed to register url", keys)
      else
        ((jwkCacheGet env { registered := [iss ++ "/.well-known/issuer.jwks"] }
            (iss ++ "/.well-known/issuer.jwks")).1.map (fun keyset => (iss, keyset)),
          namespaceKeysPointee
            (namespaceKeysSet now keys pfx
              { registered := [iss ++ "/.well-known/issuer.jwks"] }) pfx
            (jwkCacheGet env { registered := [iss ++ "/.well-known/issuer.jwks"] }
              (iss ++ "/.well-known/issuer.jwks")).2) := by
  have hk := namespaceKeysGet_miss now keys pfx hg
  unfold getRegistryIssuerInfo
  rw [h]
  dsimp only
  generalize namespaceKeysGet now keys pfx = g at hg hk
  obtain ⟨o, k⟩ := g
  simp only at hg hk
  subst hg hk
  rfl

theorem jwkCacheGet_first (env : BrokerEnv) (url : String) :
    jwkCacheGet env { registered := [url] } url =
      match env.fetchKeySet url with
      | none => (Except.error "failed to fetch key set",
          { registered := [url], fetched := [url], sets := [] })
      | some keyset => (Except.ok keyset,
          { registered := [url], fetched := [url], sets := [(url, keyset)] }) := by
  unfold jwkCacheGet
  rw [if_pos (by simp), if_neg (by simp)]

theorem jwkCacheGet_after_failure (env : BrokerEnv) (url : String) :
    jwkCacheGet env { registered := [url], fetched := [url], sets := [] } url =
      (Except.error "cached object is not a Set (was <nil>)",
        { registered := [url], fetched := [url], sets := [] }) := by
  unfold jwkCacheGet
  rw [if_pos (by simp), if_pos (by simp)]
  rfl

/-- A failed first fetch is cached. When no live entry is found, the
registration succeeds and the fetch fails, the call returns the fetch error
and leaves for the prefix an entry whose cache is marked as fetched and holds
no key set; a call within the 15 minutes that follow finds this entry and fails
with "cached object is not a Set (was <nil>)", whatever the registry would
answer by then. -/
theorem failed_fetch_is_cached (env env₂ : BrokerEnv) (now now₂ : Time) (keys : NamespaceKeys)
    (pfx iss : String) (hiss : getRegistryIssValue env pfx = Except.ok iss)
    (hmiss : (namespaceKeysGet now keys pfx).1 = none)
    (hreg : env.registerFails (iss ++ "/.well-known/issuer.jwks") = false)
    (hfetch : env.fetchKeySet (iss ++ "/.well-known/issuer.jwks") = none)
    (hiss₂ : getRegistryIssValue env₂ pfx = Except.ok iss)
    (hnow : now₂ < now + namespaceKeysTTL) :
    (getRegistryIssuerInfo env now keys pfx).1 = Except.error "failed to fetch key set" ∧
      (getRegistryIssuerInfo env now keys pfx).2.lookup pfx =
        some { value :=
                { registered := [iss ++ "/.well-known/issuer.jwks"]
                  fetched := [iss ++ "/.well-known/issuer.jwks"], sets := [] }
               expiresAt := now + namespaceKeysTTL } ∧
      (getRegistryIssuerInfo env₂ now₂ (getRegistryIssuerInfo env now keys pfx).2 pfx).1 =
        Except.error "cached object is not a Set (was <nil>)" := by
  have hfirst := issuerInfo_of_miss env now keys pfx iss hiss hmiss
  rw [hreg, jwkCacheGet_first, hfetch] at hfirst
  simp only [Bool.false_eq_true, if_false] at hfirst
  have hlook : (getRegistryIssuerInfo env now keys pfx).2.lookup pfx =
      some { value :=
              { registered := [iss ++ "/.well-known/issuer.jwks"]
                fetched := [iss ++ "/.well-known/issuer.jwks"], sets := [] }
             expiresAt := now + namespaceKeysTTL } := by
    rw [hfirst]
    show (namespaceKeysPointee _ pfx _).lookup pfx = _
    rw [lookup_pointee_self, (namespaceKeysSet_lookup now keys pfx _).1]
    rfl
  refine ⟨by rw [hfirst]; rfl, hlook, ?_⟩
  have hget : (namespaceKeysGet now₂ (getRegistryIssuerInfo env now keys pfx).2 pfx).1 =
      some { registered := [iss ++ "/.well-known/issuer.jwks"]
             fetched := [iss ++ "/.well-known/issuer.jwks"], sets := [] } := by
    unfold namespaceKeysGet
    rw [hlook]
    dsimp only
    rw [if_neg (Nat.not_lt.2 (Nat.le_of_lt hnow))]
  rw [issuerInfo_of_hit env₂ now₂ _ pfx iss _ hiss₂ hget, jwkCacheGet_after_failure]
  rfl

/-- C18, on the code: called for "/ns1" on an empty map while the registry
cannot be reached, `getRegistryIssuerInfo` returns the fetch error and leaves
an entry for "/ns1" in the map, whose cache is marked as fetched and holds no
key set. A second call 100 seconds later, when the registry serves the key
set, finds that entry and fails with "cached object is not a Set (was <nil>)": the failure
was cached. -/
theorem failed_fetch_poisons_cache :
    (getRegistryIssuerInfo unreachableEnv 100 [] "/ns1").1 =
        Except.error "failed to fetch key set" ∧
      (getRegistryIssuerInfo unreachableEnv 100 [] "/ns1").2 =
        [("/ns1",
          { value :=
              { registered :=
                  ["https://registry.example/api/v1.0/registry/ns1/.well-known/issuer.jwks"]
                fetched :=
                  ["https://registry.example/api/v1.0/registry/ns1/.well-known/issuer.jwks"]
                sets := [] }
            expiresAt := 1000 })] ∧
      exampleEnv.fetchKeySet
          "https://registry.example/api/v1.0/registry/ns1/.well-known/issuer.jwks" = some [7] ∧
      (getRegistryIssuerInfo exampleEnv 200
          (getRegistryIssuerInfo unreachableEnv 100 [] "/ns1").2 "/ns1").1 =
        Except.error "cached object is not a Set (was <nil>)" ∧
      (getRegistryIssuerInfo exampleEnv 200 [] "/ns1").1 =
        Except.ok ("https://registry.example/api/v1.0/registry/ns1", [7]) :=
  ⟨rfl, by decide, rfl, rfl, rfl⟩

/-! ## The issuer of a namespace, on the Go library -/

theorem plainByte_facts (b : Nat) (h : plainByte b = true) :
    shouldEscapePath b = false ∧ b ≠ 47 ∧ b ≠ 37 ∧ b < 128 := by
  unfold plainByte at h
  simp only [Bool.and_eq_true, Bool.not_eq_true', decide_eq_true_eq] at h
  obtain ⟨h₁, h₂⟩ := h
  refine ⟨h₁, h₂, ?_, ?_⟩
  · intro h37
    subst h37
    revert h₁
    decide
  · by_contra hge
    have : shouldEscapePath b = true := by
      unfold shouldEscapePath
      rw [if_neg (by omega), if_neg (by omega), if_neg (by omega)]
    rw [this] at h₁
    cases h₁

theorem escapePath_id (l : List Nat) (h : ∀ b ∈ l, shouldEscapePath b = false) :
    escapePath l = l := by
  induction l with
  | nil => rfl
  | cons c cs ih =>
    have hc := h c (List.mem_cons_self _ _)
    have := ih (fun b hb => h b (List.mem_cons_of_mem _ hb))
    simp [escapePath, hc, this]

theorem unescapePath_id (l : List Nat) (h : ∀ b ∈ l, b ≠ 37) :
    unescapePath l = some l := by
  induction l with
  | nil => rfl
  | cons c cs ih =>
    have hc := h c (List.mem_cons_self _ _)
    have := ih (fun b hb => h b (List.mem_cons_of_mem _ hb))
    unfold unescapePath
    rw [if_neg hc, this]
    rfl

theorem splitSlash_ne_nil (r : List Nat) : splitSlash r ≠ [] := by
  induction r with
  | nil => simp [splitSlash]
  | cons c cs ih =>
    unfold splitSlash
    by_cases hc : c = 47
    · simp [hc]
    · rw [if_neg hc]
      cases h : splitSlash cs with
      | nil => simp
      | cons s ss => simp

theorem splitSlash_append (s r t : List Nat) (ts : List (List Nat)) (hs : ∀ b ∈ s, b ≠ 47)
    (hr : splitSlash r = t :: ts) : splitSlash (s ++ r) = (s ++ t) :: ts := by
  induction s with
  | nil => simpa using hr
  | cons c cs ih =>
    have hc := hs c (List.mem_cons_self _ _)
    have := ih (fun b hb => hs b (List.mem_cons_of_mem _ hb))
    rw [List.cons_append, splitSlash, if_neg hc, this]
    rfl

theorem splitSlash_slashed (segs : List (List Nat)) (h : ∀ s ∈ segs, ∀ b ∈ s, b ≠ 47) :
    splitSlash ((segs.map (fun seg => 47 :: seg)).flatten) = [] :: segs := by
  induction segs with
  | nil => rfl
  | cons seg rest ih =>
    have hrest := ih (fun s hs => h s (List.mem_cons_of_mem _ hs))
    rw [List.map_cons, List.flatten_cons, List.cons_append, splitSlash, if_pos rfl,
      splitSlash_append seg _ [] rest (h seg (List.mem_cons_self _ _)) hrest,
      List.append_nil]

theorem foldl_cleanStep_real (rooted : Bool) (l st : List (List Nat))
    (h : ∀ s ∈ l, s = [] ∨ (s ≠ [46] ∧ s ≠ [46, 46])) :
    l.foldl (cleanStep rooted) st = (l.filter (fun s => decide (s ≠ []))).reverse ++ st := by
  induction l generalizing st with
  | nil => rfl
  | cons s rest ih =>
    have hrest := ih (cleanStep rooted st s)
      (fun x hx => h x (List.mem_cons_of_mem _ hx))
    rw [List.foldl_cons, hrest]
    rcases h s (List.mem_cons_self _ _) with hs | ⟨h₁, h₂⟩
    · subst hs
      simp [cleanStep]
    · by_cases he : s = []
      · subst he
        simp [cleanStep]
      · simp [cleanStep, he, h₁, h₂, List.filter_cons]

theorem realBytes_no_slash (s : List Nat) (h : realBytes s) : ∀ b ∈ s, b ≠ 47 :=
  fun b hb => (plainByte_facts b (h.2.2.2 b hb)).2.1

theorem apiElements_real : ∀ s ∈ apiElements, realBytes s := by
  intro s hs
  simp only [apiElements, List.mem_cons, List.mem_singleton, List.not_mem_nil, or_false] at hs
  rcases hs with rfl | rfl | rfl <;>
    exact ⟨by decide, by decide, by decide, by decide⟩

theorem slashBytes_cons (s : List Nat) (rest : List (List Nat)) :
    slashBytes (s :: rest) = 47 :: s ++ slashBytes rest := rfl

theorem slashBytes_append (a b : List (List Nat)) :
    slashBytes (a ++ b) = slashBytes a ++ slashBytes b := by
  simp [slashBytes]

theorem pathClean_slashBytes (all : List (List Nat))
    (h : ∀ s ∈ all, s = [] ∨ realBytes s) (hne : all ≠ [])
    (hk : all.filter (fun s => decide (s ≠ [])) ≠ []) :
    pathClean (slashBytes all) = slashBytes (all.filter (fun s => decide (s ≠ []))) := by
  have hsplit : splitSlash (slashBytes all) = [] :: all := by
    apply splitSlash_slashed
    intro s hs
    rcases h s hs with rfl | hr
    · simp
    · exact realBytes_no_slash s hr
  have hfold : ([] :: all).foldl (cleanStep true) [] =
      (([] :: all).filter (fun s => decide (s ≠ []))).reverse ++ [] := by
    apply foldl_cleanStep_real
    intro s hs
    rcases List.mem_cons.1 hs with rfl | hs
    · exact Or.inl rfl
    · rcases h s hs with rfl | hr
      · exact Or.inl rfl
      · exact Or.inr ⟨hr.2.1, hr.2.2.1⟩
  have hhead : (slashBytes all).head? = some 47 := by
    cases all with
    | nil => exact absurd rfl hne
    | cons s rest => rfl
  unfold pathClean
  simp only [hhead, hsplit, hfold, decide_True, if_true]
  simp only [List.filter_cons, ne_eq, not_true_eq_false, decide_False, List.append_nil,
    List.reverse_reverse]
  rw [if_neg]
  · rfl
  · simpa using hk

theorem slashBytes_plain (segs : List (List Nat)) (h : ∀ s ∈ segs, s = [] ∨ realBytes s) :
    ∀ b ∈ slashBytes segs, shouldEscapePath b = false ∧ b ≠ 37 ∧ b < 128 := by
  induction segs with
  | nil => intro b hb; simp [slashBytes] at hb
  | cons s rest ih =>
    intro b hb
    rw [slashBytes_cons, List.cons_append, List.mem_cons, List.mem_append] at hb
    rcases hb with rfl | hb | hb
    · exact ⟨by decide, by decide, by decide⟩
    · rcases h s (List.mem_cons_self _ _) with rfl | hr
      · simp at hb
      · have := plainByte_facts b (hr.2.2.2 b hb)
        exact ⟨this.1, this.2.2.1, this.2.2.2⟩
    · exact ih (fun x hx => h x (List.mem_cons_of_mem _ hx)) b hb

theorem filter_real (segs : List (List Nat)) (h : ∀ s ∈ segs, realBytes s) :
    segs.filter (fun s => decide (s ≠ [])) = segs := by
  apply List.filter_eq_self.2
  intro s hs
  simpa using (h s hs).1

theorem filter_empty_cons (segs : List (List Nat)) (h : ∀ s ∈ segs, realBytes s) :
    ([] :: segs).filter (fun s => decide (s ≠ [])) = segs := by
  rw [List.filter_cons, if_neg (by simp)]
  exact filter_real segs h

theorem slashBytes_getLast (segs : List (List Nat)) (hne : segs ≠ [])
    (h : ∀ s ∈ segs, realBytes s) : (slashBytes segs).getLast? ≠ some 47 := by
  obtain ⟨init, last, rfl⟩ : ∃ init last, segs = init ++ [last] :=
    ⟨segs.dropLast, segs.getLast hne, (List.dropLast_append_getLast hne).symm⟩
  have hl := h last (by simp)
  obtain ⟨front, b, hb⟩ : ∃ front b, last = front ++ [b] :=
    ⟨last.dropLast, last.getLast hl.1, (List.dropLast_append_getLast hl.1).symm⟩
  have hlast : slashBytes (init ++ [last]) = (slashBytes init ++ 47 :: front) ++ [b] := by
    rw [slashBytes_append, hb]
    simp [slashBytes]
  rw [hlast, List.getLast?_concat]
  intro h47
  injection h47 with h47
  exact realBytes_no_slash last hl b (by rw [hb]; simp) h47

theorem escapedPath_plain (u : GoURL) (hraw : u.RawPath = [])
    (hp : ∀ b ∈ u.Path, shouldEscapePath b = false) : u.EscapedPath = u.Path := by
  unfold GoURL.EscapedPath
  rw [if_neg (by simp [hraw])]
  have h42 : u.Path ≠ [42] := by
    intro h
    have := hp 42 (by rw [h]; simp)
    revert this
    decide
  rw [if_neg h42, escapePath_id _ hp]

theorem setPath_plain (u : GoURL) (p : List Nat)
    (hp : ∀ b ∈ p, shouldEscapePath b = false ∧ b ≠ 37 ∧ b < 128) :
    u.setPath p = { u with Path := p, RawPath := [] } := by
  unfold GoURL.setPath
  rw [unescapePath_id p (fun b hb => (hp b hb).2.1)]
  simp only
  rw [escapePath_id p (fun b hb => (hp b hb).1), if_pos rfl]

theorem pathJoin_five (first a b c d : List Nat) (hf : first ≠ []) :
    pathJoin [first, a, b, c, d] =
      pathClean (first ++ 47 :: a ++ 47 :: b ++ 47 :: c ++ 47 :: d) := by
  have h₁ : first ++ 47 :: a ≠ [] := by simp
  have h₂ : first ++ 47 :: a ++ 47 :: b ≠ [] := by simp
  have h₃ : first ++ 47 :: a ++ 47 :: b ++ 47 :: c ≠ [] := by simp
  have h₄ : first ++ 47 :: a ++ 47 :: b ++ 47 :: c ++ 47 :: d ≠ [] := by simp
  unfold pathJoin
  simp only [List.foldl_cons, List.foldl_nil, ne_eq, not_true_eq_false, if_false, hf,
    not_false_eq_true, if_true, h₁, h₂, h₃, h₄]

theorem joinedPath_plain (bs segs : List (List Nat)) (hb : ∀ s ∈ bs, realBytes s)
    (hs : ∀ s ∈ segs, realBytes s) :
    ∀ b ∈ joinedPath bs segs, shouldEscapePath b = false ∧ b ≠ 37 ∧ b < 128 := by
  have hall : ∀ s ∈ bs ++ apiElements ++ segs, s = [] ∨ realBytes s := by
    intro s hmem
    rw [List.mem_append, List.mem_append] at hmem
    rcases hmem with (h | h) | h
    · exact Or.inr (hb s h)
    · exact Or.inr (apiElements_real s h)
    · exact Or.inr (hs s h)
  intro b hmem
  unfold joinedPath at hmem
  by_cases hbs : bs = []
  · rw [if_pos hbs] at hmem
    subst hbs
    exact slashBytes_plain _ hall b (List.mem_of_mem_tail hmem)
  · rw [if_neg hbs] at hmem
    exact slashBytes_plain _ hall b hmem

theorem joinPath_plain (bs segs : List (List Nat)) (hb : ∀ s ∈ bs, realBytes s)
    (hne : segs ≠ []) (hs : ∀ s ∈ segs, realBytes s) :
    GoURL.JoinPath
        { Scheme := "", Host := "", Path := slashBytes bs, RawPath := []
          RawQuery := "", Fragment := "" }
        (apiElements ++ [slashBytes segs]) =
      { Scheme := "", Host := "", Path := joinedPath bs segs, RawPath := []
        RawQuery := "", Fragment := "" } := by
  have hbplain : ∀ b ∈ slashBytes bs, shouldEscapePath b = false :=
    fun b h => (slashBytes_plain bs (fun s hs => Or.inr (hb s hs)) b h).1
  have hall : ∀ front : List (List Nat), (∀ s ∈ front, s = [] ∨ realBytes s) →
      ∀ s ∈ front ++ apiElements ++ [] :: segs, s = [] ∨ realBytes s := by
    intro front hfront s hmem
    rw [List.mem_append, List.mem_append, List.mem_cons] at hmem
    rcases hmem with (h | h) | h | h
    · exact hfront s h
    · exact Or.inr (apiElements_real s h)
    · exact Or.inl h
    · exact Or.inr (hs s h)
  have hlast : ¬ ((slashBytes segs).getLast? = some 47) := slashBytes_getLast segs hne hs
  have hp := joinedPath_plain bs segs hb hs
  unfold GoURL.JoinPath
  rw [escapedPath_plain _ rfl hbplain]
  simp only [apiElements, List.cons_append, List.nil_append]
  by_cases hbs : bs = []
  · subst hbs
    have hclean := pathClean_slashBytes ([[]] ++ apiElements ++ [] :: segs)
      (hall [[]] (by simp)) (by simp) (by simp [apiElements])
    have hfilter : ([[]] ++ apiElements ++ [] :: segs).filter (fun s => decide (s ≠ [])) =
        apiElements ++ segs := by
      rw [List.filter_append, List.filter_append, filter_real _ apiElements_real,
        filter_empty_cons segs hs]
      rfl
    rw [hfilter] at hclean
    have hjoin : pathJoin [[47], [97, 112, 105], [118, 49, 46, 48],
        [114, 101, 103, 105, 115, 116, 114, 121], slashBytes segs] =
        slashBytes (apiElements ++ segs) := by
      rw [pathJoin_five _ _ _ _ _ (by simp), ← hclean]
      rfl
    simp only [slashBytes, List.map_nil, List.flatten_nil, List.head?_nil, ne_eq,
      not_false_eq_true, if_true, reduceCtorEq]
    rw [show ((segs.map (fun seg => 47 :: seg)).flatten) = slashBytes segs from rfl, hjoin]
    simp only [List.getLast?_cons_cons, List.getLast?_singleton, Option.some_bind, hlast,
      false_and, if_false]
    rw [setPath_plain _ _ (by simpa [joinedPath] using hp)]
    simp [joinedPath]
  · have hhead : (slashBytes bs).head? = some 47 := by
      cases bs with
      | nil => exact absurd rfl hbs
      | cons s rest => rfl
    have hclean := pathClean_slashBytes (bs ++ apiElements ++ [] :: segs)
      (hall bs (fun s h => Or.inr (hb s h))) (by simp) (by simp [apiElements])
    have hfilter : (bs ++ apiElements ++ [] :: segs).filter (fun s => decide (s ≠ [])) =
        bs ++ apiElements ++ segs := by
      rw [List.filter_append, List.filter_append, filter_real _ apiElements_real,
        filter_real _ hb, filter_empty_cons segs hs]
    rw [hfilter] at hclean
    have hne0 : slashBytes bs ≠ [] := by
      intro h
      rw [h] at hhead
      cases hhead
    have hjoin : pathJoin [slashBytes bs, [97, 112, 105], [118, 49, 46, 48],
        [114, 101, 103, 105, 115, 116, 114, 121], slashBytes segs] =
        slashBytes (bs ++ apiElements ++ segs) := by
      rw [pathJoin_five _ _ _ _ _ hne0, ← hclean, slashBytes_append, slashBytes_append]
      simp [slashBytes, apiElements]
    simp only [hhead, ne_eq, not_true_eq_false, if_false]
    rw [hjoin]
    simp only [List.getLast?_cons_cons, List.getLast?_singleton, Option.some_bind, hlast,
      false_and, if_false]
    rw [setPath_plain _ _ (by simpa [joinedPath, hbs] using hp)]
    simp [joinedPath, hbs]

theorem toNat_ofNat_ascii (b : Nat) (h : b < 128) : (Char.ofNat b).toNat = b := by
  have hv : b.isValidChar := Or.inl (by omega)
  rw [Char.ofNat, dif_pos hv]
  rfl

theorem utf8Bytes_ascii (c : Char) (h : c.toNat < 128) : utf8Bytes c = [c.toNat] := by
  unfold utf8Bytes
  simp only [h, if_true]

theorem goBytes_mk_ascii (cs : List Char) (h : ∀ c ∈ cs, c.toNat < 128) :
    goBytes (String.mk cs) = cs.map Char.toNat := by
  unfold goBytes
  induction cs with
  | nil => rfl
  | cons c rest ih =>
    have hc := h c (List.mem_cons_self _ _)
    have hrest := ih (fun x hx => h x (List.mem_cons_of_mem _ hx))
    simp only [List.map_cons, List.flatten_cons, utf8Bytes_ascii c hc] at hrest ⊢
    rw [hrest]
    rfl

theorem goBytes_asciiString (p : List Nat) (h : ∀ b ∈ p, b < 128) :
    goBytes (asciiString p) = p := by
  unfold asciiString
  rw [goBytes_mk_ascii]
  · rw [List.map_map]
    conv_rhs => rw [← List.map_id p]
    apply List.map_congr_left
    intro b hb
    exact toNat_ofNat_ascii b (h b hb)
  · intro c hc
    obtain ⟨b, hb, rfl⟩ := List.mem_map.1 hc
    rw [toNat_ofNat_ascii b (h b hb)]
    exact h b hb

theorem asciiString_map_toNat (cs : List Char) :
    asciiString (cs.map Char.toNat) = String.mk cs := by
  unfold asciiString
  rw [List.map_map]
  congr 1
  conv_rhs => rw [← List.map_id cs]
  apply List.map_congr_left
  intro c _
  exact Char.ofNat_toNat c

theorem asciiString_append (a b : List Nat) :
    asciiString (a ++ b) = asciiString a ++ asciiString b := by
  apply String.ext
  simp [asciiString, String.data_append]

theorem toNat_injective (c d : Char) (h : c.toNat = d.toNat) : c = d := by
  rw [← Char.ofNat_toNat c, ← Char.ofNat_toNat d, h]

theorem realBytes_of_plainSegment (s : List Char) (h : plainSegment s) :
    realBytes (s.map Char.toNat) := by
  obtain ⟨h₁, h₂, h₃, h₄⟩ := h
  refine ⟨by simpa using h₁, ?_, ?_, ?_⟩
  · intro h46
    apply h₂
    cases s with
    | nil => simp at h46
    | cons c rest =>
      cases rest with
      | nil =>
        simp only [List.map_cons, List.map_nil, List.cons.injEq, and_true] at h46
        rw [toNat_injective c '.' h46]
      | cons d rest₂ => simp at h46
  · intro h4646
    apply h₃
    cases s with
    | nil => simp at h4646
    | cons c rest =>
      cases rest with
      | nil => simp at h4646
      | cons d rest₂ =>
        cases rest₂ with
        | nil =>
          simp only [List.map_cons, List.map_nil, List.cons.injEq, and_true] at h4646
          rw [toNat_injective c '.' h4646.1, toNat_injective d '.' h4646.2]
        | cons e rest₃ => simp at h4646
  · intro b hb
    obtain ⟨c, hc, rfl⟩ := List.mem_map.1 hb
    exact h₄ c hc

theorem slashPath_data (X : List (List Char)) :
    (slashPath X).data.map Char.toNat = slashBytes (X.map (fun s => s.map Char.toNat)) := by
  unfold slashPath slashBytes
  induction X with
  | nil => rfl
  | cons s rest ih =>
    simp only [List.map_cons, List.flatten_cons, List.map_append] at ih ⊢
    rw [ih]
    rfl

theorem goBytes_slashPath (X : List (List Char)) (h : ∀ s ∈ X, plainSegment s) :
    goBytes (slashPath X) = slashBytes (X.map (fun s => s.map Char.toNat)) := by
  rw [← slashPath_data]
  apply goBytes_mk_ascii
  intro c hc
  have hb : c.toNat ∈ (slashPath X).data.map Char.toNat := List.mem_map.2 ⟨c, hc, rfl⟩
  rw [slashPath_data] at hb
  refine (slashBytes_plain _ ?_ _ hb).2.2
  intro s hs
  obtain ⟨t, ht, rfl⟩ := List.mem_map.1 hs
  exact Or.inr (realBytes_of_plainSegment t (h t ht))

theorem asciiString_slashBytes (X : List (List Char)) :
    asciiString (slashBytes (X.map (fun s => s.map Char.toNat))) = slashPath X := by
  rw [← slashPath_data, asciiString_map_toNat]

theorem joinedPath_first_element (bs segs : List (List Nat)) :
    ((joinedPath bs segs).takeWhile (fun c => decide (c ≠ 47))).contains 58 = false := by
  unfold joinedPath
  cases bs with
  | nil =>
    simp [slashBytes, apiElements, List.takeWhile]
  | cons s rest =>
    simp [slashBytes, List.takeWhile]

theorem innerString_plain (p : List Nat) (hp : ∀ b ∈ p, shouldEscapePath b = false)
    (hcolon : ((p.takeWhile (fun c => decide (c ≠ 47))).contains 58) = false) :
    GoURL.String
        { Scheme := "", Host := "", Path := p, RawPath := [], RawQuery := "", Fragment := "" } =
      asciiString p := by
  have hc : 58 ∉ List.takeWhile (fun c => !decide (c = 47)) p := by simpa using hcolon
  unfold GoURL.String
  rw [escapedPath_plain _ rfl hp]
  simp [hc]

theorem append_ne_empty (S T : String) (hS : S ≠ "") : S ++ T ≠ "" := by
  intro h
  apply hS
  have hd := congrArg String.data h
  rw [String.data_append] at hd
  apply String.ext
  exact (List.append_eq_nil.1 hd).1

theorem outerString_plain (S H : String) (p : List Nat) (hS : S ≠ "") (hH : H ≠ "")
    (hp : ∀ b ∈ p, shouldEscapePath b = false) :
    GoURL.String
        { Scheme := S, Host := H, Path := p, RawPath := [], RawQuery := "", Fragment := "" } =
      S ++ ":" ++ ("//" ++ H) ++ (if p ≠ [] ∧ p.head? ≠ some 47 then "/" else "") ++
        asciiString p := by
  unfold GoURL.String
  rw [escapedPath_plain _ rfl hp]
  have hne : ∀ T : String, S ++ ":" ++ ("//" ++ H) ++ T ≠ "" := by
    intro T
    rw [String.append_assoc, String.append_assoc]
    exact append_ne_empty S _ hS
  by_cases hrel : p ≠ [] ∧ p.head? ≠ some 47
  · have h₁ := hne "/"
    simp [hS, hH, hrel, h₁]
  · have h₁ := hne ""
    simp only [String.append_empty] at h₁
    have hrel' : ¬ (p ≠ [] ∧ p.head? ≠ some 47 ∧ H ≠ "") := fun h => hrel ⟨h.1, h.2.1⟩
    simp [hS, hH, hrel, hrel', h₁]

theorem joinedPath_written (bs segs : List (List Nat)) :
    (if joinedPath bs segs ≠ [] ∧ (joinedPath bs segs).head? ≠ some 47 then "/" else "") ++
        asciiString (joinedPath bs segs) =
      asciiString (slashBytes bs) ++ "/api/v1.0/registry" ++ asciiString (slashBytes segs) := by
  have hapi : asciiString (slashBytes apiElements) = "/api/v1.0/registry" := by decide
  unfold joinedPath
  cases bs with
  | nil =>
    have htail : (slashBytes (apiElements ++ segs)).tail =
        [97, 112, 105] ++ slashBytes ([[118, 49, 46, 48],
          [114, 101, 103, 105, 115, 116, 114, 121]] ++ segs) := rfl
    have hwhole : slashBytes (apiElements ++ segs) =
        47 :: ([97, 112, 105] ++ slashBytes ([[118, 49, 46, 48],
          [114, 101, 103, 105, 115, 116, 114, 121]] ++ segs)) := rfl
    rw [if_pos rfl, htail, if_pos (by simp)]
    have h47 : ("/" : String) = asciiString [47] := by decide
    rw [h47, ← asciiString_append, List.singleton_append, ← hwhole, slashBytes_append,
      asciiString_append, hapi]
    rfl
  | cons s rest =>
    have hhead : (slashBytes (s :: rest ++ apiElements ++ segs)).head? = some 47 := rfl
    rw [if_neg (List.cons_ne_nil s rest), if_neg (fun h => h.2 hhead)]
    rw [slashBytes_append, slashBytes_append, asciiString_append, asciiString_append, hapi]
    apply String.ext
    simp [String.data_append]

theorem goBytes_elements :
    [goBytes "api", goBytes "v1.0", goBytes "registry"] = apiElements := by
  decide

/-- The issuer the Go library calls compute for a registry URL
`scheme://host/b₁/.../bₖ` and a prefix `/s₁/.../sₙ` of plain elements. -/
theorem goRegistryJoinPath_plain (parse : List Nat → Option GoURL) (B S H : String)
    (bsC segsC : List (List Char)) (hS : S ≠ "") (hH : H ≠ "")
    (hparse : parse (goBytes B) =
      some { Scheme := S, Host := H, Path := goBytes (slashPath bsC), RawPath := []
             RawQuery := "", Fragment := "" })
    (hparseQ : parse (goBytes (slashPath bsC)) =
      some { Scheme := "", Host := "", Path := goBytes (slashPath bsC), RawPath := []
             RawQuery := "", Fragment := "" })
    (hb : ∀ s ∈ bsC, plainSegment s) (hne : segsC ≠ []) (hs : ∀ s ∈ segsC, plainSegment s) :
    goRegistryJoinPath parse B (slashPath segsC) =
      some (S ++ "://" ++ H ++ slashPath bsC ++ "/api/v1.0/registry" ++ slashPath segsC) := by
  have hbR : ∀ s ∈ bsC.map (fun s => s.map Char.toNat), realBytes s := by
    intro s hmem
    obtain ⟨t, ht, rfl⟩ := List.mem_map.1 hmem
    exact realBytes_of_plainSegment t (hb t ht)
  have hsR : ∀ s ∈ segsC.map (fun s => s.map Char.toNat), realBytes s := by
    intro s hmem
    obtain ⟨t, ht, rfl⟩ := List.mem_map.1 hmem
    exact realBytes_of_plainSegment t (hs t ht)
  have hneR : segsC.map (fun s => s.map Char.toNat) ≠ [] := by simpa using hne
  have hplain := joinedPath_plain _ _ hbR hsR
  have hjoin := joinPath_plain _ _ hbR hneR hsR
  have helems : [goBytes "api", goBytes "v1.0", goBytes "registry", goBytes (slashPath segsC)] =
      apiElements ++ [slashBytes (segsC.map (fun s => s.map Char.toNat))] := by
    rw [goBytes_slashPath segsC hs, ← goBytes_elements]
    rfl
  unfold goRegistryJoinPath
  rw [hparse]
  simp only
  unfold urlJoinPath
  rw [hparseQ]
  simp only
  rw [helems, goBytes_slashPath bsC hb, hjoin,
    innerString_plain _ (fun b h => (hplain b h).1) (joinedPath_first_element _ _),
    goBytes_asciiString _ (fun b h => (hplain b h).2.2),
    outerString_plain S H _ hS hH (fun b h => (hplain b h).1)]
  congr 1
  have hw := joinedPath_written (bsC.map (fun s => s.map Char.toNat))
    (segsC.map (fun s => s.map Char.toNat))
  rw [asciiString_slashBytes, asciiString_slashBytes] at hw
  rw [String.append_assoc (S ++ ":" ++ ("//" ++ H)), hw]
  apply String.ext
  simp [String.data_append]

/-- The deployment `exampleEnv` writes the issuers of the worked cases as the
Go library calls do. -/
theorem exampleEnv_issuers_agree :
    getRegistryIssValue goExampleEnv "/foo" = getRegistryIssValue exampleEnv "/foo" ∧
      getRegistryIssValue goExampleEnv "/ns1" = getRegistryIssValue exampleEnv "/ns1" ∧
      getRegistryIssValue goExampleEnv "/caches" = getRegistryIssValue exampleEnv "/caches" :=
  ⟨rfl, rfl, rfl⟩

/-- C17 as stated fails for a prefix with a character that a URL path
escapes: "/foo bar" starts with "/" and has no empty, "." or ".." element,
and the issuer computed for the registry URL "https://registry.example" ends
in "/foo%2520bar" (the space is escaped by `url.JoinPath` and its `%` again by
`URL.String`), which is not the registry URL followed by
"/api/v1.0/registry" and the prefix. -/
theorem issuer_of_prefix_with_space :
    goExampleEnv.Federation_RegistryUrl = "https://registry.example" ∧
      getRegistryIssValue goExampleEnv "/foo bar" =
        Except.ok "https://registry.example/api/v1.0/registry/foo%2520bar" ∧
      "https://registry.example/api/v1.0/registry/foo%2520bar" ≠
        "https://registry.example" ++ "/api/v1.0/registry" ++ "/foo bar" :=
  ⟨rfl, rfl, by decide⟩

/-- C17, amended: with the issuer computed by the Go library calls,
`getRegistryIssValue` fails when the configured registry URL is empty or
`url.Parse` rejects it. When `url.Parse` reads the registry URL as the scheme
`S`, the host `H` and the path `/b₁/.../bₖ`, with no query and no fragment,
and the prefix is `P = /s₁/.../sₙ`, where every element is non-empty, is
neither "." nor ".." and consists of characters that a URL path does not
escape, it returns exactly `S + "://" + H + "/b₁/.../bₖ" + "/api/v1.0/registry"
+ P`; that is the registry URL followed by "/api/v1.0/registry" and `P` when
the registry URL is written as `S://H/b₁/.../bₖ`. The JWKS URL of
`getRegistryIssuerInfo` is the issuer followed by "/.well-known/issuer.jwks":
when it finds no live entry it registers a cache for that URL and fetches it,
and when it finds one it asks the cache found for that URL. -/
theorem getRegistryIssValue_construction (env : BrokerEnv)
    (parse : List Nat → Option GoURL) (henv : env.registryJoinPath = goRegistryJoinPath parse) :
    (env.Federation_RegistryUrl = "" →
        ∀ P, getRegistryIssValue env P = Except.error "namespace URL is not set") ∧
      (parse (goBytes env.Federation_RegistryUrl) = none →
        ∀ P, ∃ e, getRegistryIssValue env P = Except.error e) ∧
      (∀ (S H : String) (bsC segsC : List (List Char)), S ≠ "" → H ≠ "" →
        env.Federation_RegistryUrl ≠ "" →
        parse (goBytes env.Federation_RegistryUrl) =
          some { Scheme := S, Host := H, Path := goBytes (slashPath bsC), RawPath := []
                 RawQuery := "", Fragment := "" } →
        parse (goBytes (slashPath bsC)) =
          some { Scheme := "", Host := "", Path := goBytes (slashPath bsC), RawPath := []
                 RawQuery := "", Fragment := "" } →
        (∀ s ∈ bsC, plainSegment s) → segsC ≠ [] → (∀ s ∈ segsC, plainSegment s) →
        getRegistryIssValue env (slashPath segsC) =
            Except.ok (S ++ "://" ++ H ++ slashPath bsC ++ "/api/v1.0/registry" ++
              slashPath segsC) ∧
          (env.Federation_RegistryUrl = S ++ "://" ++ H ++ slashPath bsC →
            getRegistryIssValue env (slashPath segsC) =
              Except.ok (env.Federation_RegistryUrl ++ "/api/v1.0/registry" ++
                slashPath segsC))) ∧
      (∀ (now : Time) (keys : NamespaceKeys) (P iss : String),
        getRegistryIssValue env P = Except.ok iss →
        (namespaceKeysGet now keys P).1 = none →
        env.registerFails (iss ++ "/.well-known/issuer.jwks") = false →
        (getRegistryIssuerInfo env now keys P).1 =
            (match env.fetchKeySet (iss ++ "/.well-known/issuer.jwks") with
              | none => Except.error "failed to fetch key set"
              | some keyset => Except.ok (iss, keyset)) ∧
          ∃ item, (getRegistryIssuerInfo env now keys P).2.lookup P = some item ∧
            item.value.registered = [iss ++ "/.well-known/issuer.jwks"] ∧
            item.value.fetched = [iss ++ "/.well-known/issuer.jwks"]) ∧
      (∀ (now : Time) (keys : NamespaceKeys) (P iss : String) (ar : JwkCache),
        getRegistryIssValue env P = Except.ok iss →
        (namespaceKeysGet now keys P).1 = some ar →
        (getRegistryIssuerInfo env now keys P).1 =
          (jwkCacheGet env ar (iss ++ "/.well-known/issuer.jwks")).1.map
            (fun keyset => (iss, keyset))) := by
  refine ⟨?_, ?_, ?_, ?_, ?_⟩
  · intro h P
    unfold getRegistryIssValue
    rw [if_pos h]
  · intro h P
    unfold getRegistryIssValue
    by_cases he : env.Federation_RegistryUrl = ""
    · exact ⟨_, by rw [if_pos he]⟩
    · rw [if_neg he, henv]
      unfold goRegistryJoinPath
      rw [h]
      exact ⟨_, rfl⟩
  · intro S H bsC segsC hS hH hBne hparse hparseQ hb hne hs
    have hval : getRegistryIssValue env (slashPath segsC) =
        Except.ok (S ++ "://" ++ H ++ slashPath bsC ++ "/api/v1.0/registry" ++
          slashPath segsC) := by
      unfold getRegistryIssValue
      rw [if_neg hBne, henv,
        goRegistryJoinPath_plain parse _ S H bsC segsC hS hH hparse hparseQ hb hne hs]
    refine ⟨hval, fun hB => ?_⟩
    rw [hval, ← hB]
  · intro now keys P iss hiss hmiss hreg
    have hinfo := issuerInfo_of_miss env now keys P iss hiss hmiss
    rw [hreg, jwkCacheGet_first] at hinfo
    simp only [Bool.false_eq_true, if_false] at hinfo
    cases hf : env.fetchKeySet (iss ++ "/.well-known/issuer.jwks") with
    | none =>
      rw [hf] at hinfo
      rw [hinfo]
      refine ⟨rfl,
        { value := { registered := [iss ++ "/.well-known/issuer.jwks"]
                     fetched := [iss ++ "/.well-known/issuer.jwks"], sets := [] }
          expiresAt := now + namespaceKeysTTL }, ?_, rfl, rfl⟩
      show (namespaceKeysPointee _ P _).lookup P = _
      rw [lookup_pointee_self, (namespaceKeysSet_lookup now keys P _).1]
      rfl
    | some keyset =>
      rw [hf] at hinfo
      rw [hinfo]
      refine ⟨rfl,
        { value := { registered := [iss ++ "/.well-known/issuer.jwks"]
                     fetched := [iss ++ "/.well-known/issuer.jwks"]
                     sets := [(iss ++ "/.well-known/issuer.jwks", keyset)] }
          expiresAt := now + namespaceKeysTTL }, ?_, rfl, rfl⟩
      show (namespaceKeysPointee _ P _).lookup P = _
      rw [lookup_pointee_self, (namespaceKeysSet_lookup now keys P _).1]
      rfl
  · intro now keys P iss ar hiss hhit
    rw [issuerInfo_of_hit env now keys P iss ar hiss hhit]

/-- C17 amended, at work. For the registry URL "https://registry.example" the
issuer of "/foo" is the registry URL followed by "/api/v1.0/registry/foo". For
the registry URL "HTTPS://registry.example", whose scheme `url.Parse` reads as
"https", the issuer starts with "https://". -/
theorem getRegistryIssValue_construction_witness :
    getRegistryIssValue goExampleEnv (slashPath [['f', 'o', 'o']]) =
        Except.ok (goExampleEnv.Federation_RegistryUrl ++ "/api/v1.0/registry" ++
          slashPath [['f', 'o', 'o']]) ∧
      upperSchemeEnv.Federation_RegistryUrl = "HTTPS://registry.example" ∧
      getRegistryIssValue upperSchemeEnv (slashPath [['f', 'o', 'o']]) =
        Except.ok ("https" ++ "://" ++ "registry.example" ++ slashPath [] ++
          "/api/v1.0/registry" ++ slashPath [['f', 'o', 'o']]) :=
  ⟨((getRegistryIssValue_construction goExampleEnv exampleParse rfl).2.2.1
      "https" "registry.example" [] [['f', 'o', 'o']] (by decide) (by decide) (by decide)
      rfl rfl (by simp) (by simp)
      (by
        intro s hs
        rw [List.mem_singleton] at hs
        subst hs
        exact ⟨by decide, by decide, by decide, by decide⟩)).2 rfl,
    rfl,
    ((getRegistryIssValue_construction upperSchemeEnv upperSchemeParse rfl).2.2.1
      "https" "registry.example" [] [['f', 'o', 'o']] (by decide) (by decide) (by decide)
      rfl rfl (by simp) (by simp)
      (by
        intro s hs
        rw [List.mem_singleton] at hs
        subst hs
        exact ⟨by decide, by decide, by decide, by decide⟩)).1⟩

/-! ## Status filter and status lookup -/

theorem getNamespaceStatusById_of_mem (db : DB) (r : Namespace) (hu : db.uniqueIds)
    (hr : r ∈ db.namespaceTable) (hid : 1 ≤ r.ID) :
    getNamespaceStatusById db r.ID =
      (if r.AdminMetadata.Status = "" then Unknown else r.AdminMetadata.Status, none) := by
  unfold getNamespaceStatusById
  rw [if_neg (by omega), filter_id_of_unique _ r hu hr]
  by_cases h : r.AdminMetadata.Status = ""
  · simp [h]
  · simp [h]

theorem filterKeeps_statusFilter (s : RegistrationStatus) (n : Namespace) (hs : s ≠ "") :
    filterKeeps (statusFilter s) n = true ↔
      (if n.AdminMetadata.Status = "" then Unknown else n.AdminMetadata.Status) = s := by
  have hU : Unknown ≠ "" := by decide
  unfold filterKeeps statusFilter emptyFilter bareNamespace
  simp only [ne_eq, not_true_eq_false, false_and, if_false]
  by_cases hu : s = Unknown
  · subst hu
    by_cases he : n.AdminMetadata.Status = ""
    · simp [he, hU]
    · by_cases hk : n.AdminMetadata.Status = Unknown
      · simp [he, hk, hU]
      · simp [he, hk, hU]
  · by_cases he : n.AdminMetadata.Status = ""
    · have hne : ¬ Unknown = s := fun h => hu h.symm
      simp [he, hs, hu, hne]
    · by_cases hk : s = n.AdminMetadata.Status
      · simp [he, hs, hu, hk]
      · have hk' : ¬ n.AdminMetadata.Status = s := fun h => hk h.symm
        simp [he, hs, hu, hk, hk']

theorem getNamespacesByFilter_statusFilter
    (injected : String → ServerType → DB → Except String (List Namespace))
    (db : DB) (s : RegistrationStatus) :
    getNamespacesByFilter injected db (statusFilter s) "" =
      (((db.namespaceTable.insertionSort (fun a b => a.ID ≤ b.ID)).map
          withoutCustomFields).filter (filterKeeps (statusFilter s)), none) := by
  have hp : (statusFilter s).Prefix = "" := rfl
  have hrows : runFilterQuery injected db "" (statusFilter s).Prefix =
      Except.ok ((db.namespaceTable.insertionSort (fun a b => a.ID ≤ b.ID)).map
        withoutCustomFields) := by
    rw [hp]
    unfold runFilterQuery
    rw [if_neg (show ¬ ("" : String).data.contains singleQuote = true by decide)]
    unfold filterQueryRows
    have hc : ("" : ServerType) ≠ CacheType := by decide
    have ho : ("" : ServerType) ≠ OriginType := by decide
    have hall : db.namespaceTable.filter (fun r =>
        (if ("" : ServerType) = CacheType then sqlLike r.Prefix "/caches/%"
          else if ("" : ServerType) = OriginType then !sqlLike r.Prefix "/caches/%"
          else true) &&
        (if ("" : String) = "" then true
          else sqlLike r.Prefix ("%" ++ "" ++ "%"))) =
        db.namespaceTable := by
      apply List.filter_eq_self.2
      intro r _
      rw [if_neg hc, if_neg ho, if_pos rfl]
      rfl
    rw [hall]
    rfl
  unfold getNamespacesByFilter
  rw [if_neg (by simp), if_neg (by simp [statusFilter, emptyFilter, bareNamespace]),
    if_neg (by simp [statusFilter, emptyFilter, bareNamespace]),
    if_neg (by simp [statusFilter, emptyFilter, bareNamespace]),
    if_neg (by simp [statusFilter, emptyFilter, bareNamespace]),
    if_neg (by simp [statusFilter, emptyFilter, bareNamespace]), hrows]

theorem ids_increasing_of_sorted (l : List Namespace) (hu : (l.map Namespace.ID).Nodup) :
    ((l.insertionSort (fun a b => a.ID ≤ b.ID)).map Namespace.ID).Sorted (· < ·) := by
  haveI : IsTotal Namespace (fun a b => a.ID ≤ b.ID) := ⟨fun a b => le_total a.ID b.ID⟩
  haveI : IsTrans Namespace (fun a b => a.ID ≤ b.ID) := ⟨fun _ _ _ h₁ h₂ => le_trans h₁ h₂⟩
  have hle : (l.insertionSort (fun a b => a.ID ≤ b.ID)).Pairwise (fun a b => a.ID ≤ b.ID) :=
    List.sorted_insertionSort (fun a b : Namespace => a.ID ≤ b.ID) l
  have hperm : ((l.insertionSort (fun a b => a.ID ≤ b.ID)).map Namespace.ID).Perm
      (l.map Namespace.ID) := (List.perm_insertionSort _ l).map _
  have hne : (l.insertionSort (fun a b => a.ID ≤ b.ID)).Pairwise (fun a b => a.ID ≠ b.ID) := by
    have := hperm.nodup_iff.2 hu
    exact List.pairwise_map.1 this
  show List.Pairwise _ _
  rw [List.pairwise_map]
  exact (hle.and hne).imp (fun h => lt_of_le_of_ne h.1 h.2)

/-- C22: in a store with unique ids, all at least 1, for a non-empty status
`s`, `getNamespacesByFilter` with the filter that sets only
`AdminMetadata.Status = s` and server type "" does not fail; what it returns
are exactly the stored records (read without their custom fields, a column the
query does not select) for whose id `getNamespaceStatusById` returns `s`
without error; they come in strictly increasing order of id; and a record
stored with the empty status is returned exactly when `s` is `Unknown`. -/
theorem status_filter_agrees_with_lookup
    (injected : String → ServerType → DB → Except String (List Namespace))
    (db : DB) (s : RegistrationStatus)
    (hu : db.uniqueIds) (hid : ∀ r ∈ db.namespaceTable, 1 ≤ r.ID) (hs : s ≠ "") :
    (getNamespacesByFilter injected db (statusFilter s) "").2 = none ∧
      (∀ n, n ∈ (getNamespacesByFilter injected db (statusFilter s) "").1 ↔
        (∃ r ∈ db.namespaceTable, n = withoutCustomFields r) ∧
          getNamespaceStatusById db n.ID = (s, none)) ∧
      ((getNamespacesByFilter injected db (statusFilter s) "").1.map Namespace.ID).Sorted
        (· < ·) ∧
      (∀ r ∈ db.namespaceTable, r.AdminMetadata.Status = "" →
        (withoutCustomFields r ∈ (getNamespacesByFilter injected db (statusFilter s) "").1 ↔
          s = Unknown)) := by
  have hlook : ∀ r ∈ db.namespaceTable,
      (getNamespaceStatusById db (withoutCustomFields r).ID = (s, none) ↔
        filterKeeps (statusFilter s) (withoutCustomFields r) = true) := by
    intro r hr
    rw [filterKeeps_statusFilter s _ hs]
    show getNamespaceStatusById db r.ID = (s, none) ↔
      (if r.AdminMetadata.Status = "" then Unknown else r.AdminMetadata.Status) = s
    rw [getNamespaceStatusById_of_mem db r hu hr (hid r hr)]
    constructor
    · intro h
      exact congrArg Prod.fst h
    · intro h
      rw [h]
  have hmem : ∀ n, n ∈ (getNamespacesByFilter injected db (statusFilter s) "").1 ↔
      (∃ r ∈ db.namespaceTable, n = withoutCustomFields r) ∧
        getNamespaceStatusById db n.ID = (s, none) := by
    intro n
    rw [getNamespacesByFilter_statusFilter]
    simp only [List.mem_filter, List.mem_map, mem_insertionSort_iff]
    constructor
    · rintro ⟨⟨r, hr, rfl⟩, hk⟩
      exact ⟨⟨r, hr, rfl⟩, (hlook r hr).2 hk⟩
    · rintro ⟨⟨r, hr, rfl⟩, hk⟩
      exact ⟨⟨r, hr, rfl⟩, (hlook r hr).1 hk⟩
  refine ⟨?_, hmem, ?_, ?_⟩
  · rw [getNamespacesByFilter_statusFilter]
  · rw [getNamespacesByFilter_statusFilter]
    have hsorted := ids_increasing_of_sorted db.namespaceTable hu
    have hsub : ((((db.namespaceTable.insertionSort (fun a b => a.ID ≤ b.ID)).map
        withoutCustomFields).filter (filterKeeps (statusFilter s))).map Namespace.ID).Sublist
        ((db.namespaceTable.insertionSort (fun a b => a.ID ≤ b.ID)).map Namespace.ID) := by
      have h₁ := (List.filter_sublist
        ((db.namespaceTable.insertionSort (fun a b => a.ID ≤ b.ID)).map
          withoutCustomFields) : List.Sublist (List.filter (filterKeeps (statusFilter s)) _) _).map
        Namespace.ID
      rw [List.map_map] at h₁
      exact h₁
    exact List.Pairwise.sublist hsub hsorted
  · intro r hr hempty
    rw [hmem]
    have hl : getNamespaceStatusById db (withoutCustomFields r).ID = (Unknown, none) := by
      show getNamespaceStatusById db r.ID = (Unknown, none)
      rw [getNamespaceStatusById_of_mem db r hu hr (hid r hr), if_pos hempty]
    rw [hl]
    constructor
    · rintro ⟨-, h⟩
      exact (congrArg Prod.fst h).symm
    · intro h
      exact ⟨⟨r, hr, rfl⟩, by rw [h]⟩

/-- C22 at work: in the example store the `Unknown` filter returns the one
record stored with an empty status, the one whose status reads as `Unknown`. -/
theorem status_filter_agrees_with_lookup_witness :
    filterStore.uniqueIds ∧ (∀ r ∈ filterStore.namespaceTable, 1 ≤ r.ID) ∧
      Unknown ≠ "" ∧
      (getNamespacesByFilter rejectInjected filterStore (statusFilter Unknown) "").1.map
          Namespace.ID = [2] ∧
      getNamespaceStatusById filterStore 2 = (Unknown, none) ∧
      ((getNamespacesByFilter rejectInjected filterStore (statusFilter Unknown) "").1.map
          Namespace.ID).Sorted (· < ·) :=
  ⟨by decide, by decide, by decide, by decide, by decide,
    (status_filter_agrees_with_lookup rejectInjected filterStore Unknown
      (by decide) (by decide) (by decide)).2.2.1⟩

/-! ## The result of `getCacheHostnameFromToken` for a cache token -/

theorem getCacheHostnameFromToken_of_issuers (env : BrokerEnv) (E h : String) (tok : Token)
    (hE : getRegistryIssValue env "/caches" = Except.ok E)
    (hiss : tok.iss = E ++ "/" ++ h) :
    getCacheHostnameFromToken env tok = ("/" ++ h, none) := by
  have hp : E.data <+: tok.iss.data := by
    rw [hiss]
    exact ⟨("/" ++ h).data, by simp [String.append_assoc]⟩
  obtain ⟨h₁, h₂⟩ := stringsCutPrefix_hit tok.iss E hp
  unfold getCacheHostnameFromToken
  rw [hE]
  dsimp only
  generalize stringsCutPrefix tok.iss E = c at h₁ h₂
  obtain ⟨r, b⟩ := c
  simp only at h₁ h₂
  subst h₁
  have hr : r = "/" ++ h := by
    rw [hiss, String.append_assoc] at h₂
    apply String.ext
    have := congrArg String.data h₂
    simpa using this
  rw [hr]

theorem slashPath_caches (h : String) : slashPath ["caches".data, h.data] = "/caches/" ++ h := by
  apply String.ext
  simp [slashPath]

/-- For every hostname of plain characters the Go library calls give the token
of the cache namespace an issuer from which `getCacheHostnameFromToken` keeps
the slash. -/
theorem getCacheHostnameFromToken_plain (h : String) (hp : plainSegment h.data) (tok : Token)
    (hiss : getRegistryIssValue goExampleEnv ("/caches/" ++ h) = Except.ok tok.iss) :
    getCacheHostnameFromToken goExampleEnv tok = ("/" ++ h, none) := by
  have hj := goRegistryJoinPath_plain exampleParse "https://registry.example" "https"
    "registry.example" [] ["caches".data, h.data] (by decide) (by decide) rfl rfl
    (by simp) (by simp)
    (by
      intro s hs
      rcases List.mem_cons.1 hs with rfl | hs
      · exact ⟨by decide, by decide, by decide, by decide⟩
      · rw [List.mem_singleton.1 hs]
        exact hp)
  rw [slashPath_caches] at hj
  have hval : getRegistryIssValue goExampleEnv ("/caches/" ++ h) =
      Except.ok ("https" ++ "://" ++ "registry.example" ++ slashPath [] ++ "/api/v1.0/registry" ++
        ("/caches/" ++ h)) := by
    unfold getRegistryIssValue
    rw [if_neg (by decide)]
    show (match goRegistryJoinPath exampleParse "https://registry.example" ("/caches/" ++ h) with
      | none => Except.error "invalid registry URL"
      | some iss => Except.ok iss) = _
    rw [hj]
  rw [hval] at hiss
  have hiss' := Except.ok.inj hiss
  refine getCacheHostnameFromToken_of_issuers goExampleEnv
    "https://registry.example/api/v1.0/registry/caches" h tok rfl ?_
  rw [← hiss']
  apply String.ext
  simp [slashPath]

/-- C21: with the registry at "https://registry.example", the token that
`createToken` mints for the cache namespace "/caches/c1.example" carries the
issuer `getRegistryIssValue("/caches/c1.example")`, and for that token
`getCacheHostnameFromToken` returns "/c1.example" with no error: the hostname
"c1.example" with a slash in front, since the issuer that is cut off is the
one of "/caches", without the slash that follows it. -/
theorem getCacheHostnameFromToken_keeps_slash :
    ∃ tok, createToken goExampleEnv 100 "/caches/c1.example" "c1.example"
        "https://origin.example" "broker.reflect" = Except.ok tok ∧
      getRegistryIssValue goExampleEnv "/caches/c1.example" = Except.ok tok.iss ∧
      getCacheHostnameFromToken goExampleEnv tok = ("/c1.example", none) ∧
      getCacheHostnameFromToken goExampleEnv tok ≠ ("c1.example", none) :=
  ⟨_, rfl, rfl, by decide, by decide⟩

/-! ## Goroutines inside `getRegistryIssuerInfo` -/

/-- A goroutine that runs alone on an empty map goes through its sections to
the result of `getRegistryIssuerInfo`, and leaves the map that
`getRegistryIssuerInfo` leaves. -/
theorem lone_call_agrees (env : BrokerEnv) (now : Time) (pfx : String) :
    (Calls.run env now
        { heap := { namespaceKeys := [], caches := [] }, callers := [(pfx, CallPoint.start)] }
        [0, 0, 0, 0]).callers =
        [(pfx, CallPoint.returned (getRegistryIssuerInfo env now [] pfx).1)] ∧
      (Calls.run env now
        { heap := { namespaceKeys := [], caches := [] }, callers := [(pfx, CallPoint.start)] }
        [0, 0, 0, 0]).heap.view = (getRegistryIssuerInfo env now [] pfx).2 := by
  cases hiss : getRegistryIssValue env pfx with
  | error e =>
    rw [issuerInfo_of_iss_error env now [] pfx e hiss]
    simp [Calls.run, Calls.step, callStep, hiss, BrokerHeap.view]
  | ok iss =>
    rw [issuerInfo_of_miss env now [] pfx iss hiss rfl]
    by_cases hreg : env.registerFails (iss ++ "/.well-known/issuer.jwks") = true
    · simp [Calls.run, Calls.step, callStep, hiss, hreg, namespaceKeysGet, BrokerHeap.view]
    · rw [Bool.not_eq_true] at hreg
      rw [jwkCacheGet_first]
      cases hf : env.fetchKeySet (iss ++ "/.well-known/issuer.jwks") with
      | none =>
        simp [Calls.run, Calls.step, callStep, hiss, hreg, namespaceKeysGet, namespaceKeysSet,
          jwkCacheGet, hf, BrokerHeap.view, namespaceKeysPointee]
      | some keyset =>
        simp [Calls.run, Calls.step, callStep, hiss, hreg, namespaceKeysGet, namespaceKeysSet,
          jwkCacheGet, hf, BrokerHeap.view, namespaceKeysPointee]

/-- C19, on the code: two goroutines call `getRegistryIssuerInfo` for "/ns1"
on an empty map. Both run the probe before either inserts: both find no entry,
and no fetch has been made. Each then makes its own cache, registers the JWKS
URL with it, stores it in the map and fetches through it: when both have
returned the issuer and the key set, two registrations and two fetches have
been made, and the map holds the cache of the second. When the second
goroutine starts only after the first has returned, one registration and one
fetch are made. -/
theorem two_callers_register_and_fetch_twice :
    (Calls.run exampleEnv 100 twoCallers [0, 1]).callers =
        [("/ns1", CallPoint.missed "https://registry.example/api/v1.0/registry/ns1"),
          ("/ns1", CallPoint.missed "https://registry.example/api/v1.0/registry/ns1")] ∧
      (Calls.run exampleEnv 100 twoCallers [0, 1]).heap.fetches = 0 ∧
      (Calls.run exampleEnv 100 twoCallers [0, 1, 0, 0, 1, 1, 0, 1]).callers =
        [("/ns1", CallPoint.returned
            (Except.ok ("https://registry.example/api/v1.0/registry/ns1", [7]))),
          ("/ns1", CallPoint.returned
            (Except.ok ("https://registry.example/api/v1.0/registry/ns1", [7])))] ∧
      (Calls.run exampleEnv 100 twoCallers [0, 1, 0, 0, 1, 1, 0, 1]).heap.registrations = 2 ∧
      (Calls.run exampleEnv 100 twoCallers [0, 1, 0, 0, 1, 1, 0, 1]).heap.fetches = 2 ∧
      (Calls.run exampleEnv 100 twoCallers [0, 1, 0, 0, 1, 1, 0, 1]).heap.namespaceKeys =
        [("/ns1", { value := 1, expiresAt := 1000 })] ∧
      (Calls.run exampleEnv 100 twoCallers [0, 0, 0, 0, 1, 1]).heap.registrations = 1 ∧
      (Calls.run exampleEnv 100 twoCallers [0, 0, 0, 0, 1, 1]).heap.fetches = 1 :=
  ⟨rfl, by decide, rfl, by decide, by decide, by decide, by decide, by decide⟩

end Pelican
